import Mathlib

/-!
# usrp-utils: overlapped-FFT worker pool

A shallow embedding of the worker thread (`src/common/fft_thread.cpp`) and of the
two frame dispatchers (`fftcompute.cpp` and `usrp-sensor.cpp`, both called
`calculateTask`), with the ordered-output ticket protocol between them.

Samples have an abstract type `α` (the source's `float complex`), magnitudes an
abstract type `β` (the source's `float`).  The numeric library calls (complex
times real, `fftwf_execute`, `cabsf`) are the fields of a `Kernel`.
-/

namespace UsrpUtils

/-! ## Worker thread: `fft_thread.cpp` -/

/-- Message byte that starts one FFT (`__FFT_THREAD_START`). -/
def FFT_THREAD_START : Nat := 1

/-- Message byte that ends the worker (`__FFT_THREAD_KILL`). -/
def FFT_THREAD_KILL : Nat := 2

/-- The numeric library calls a worker makes: `scale` is the product of a complex
sample with a real window coefficient, `dft` is `fftwf_execute` on the planned
forward transform, `cabs` is `cabsf`. -/
structure Kernel (α β : Type) where
  scale : α → β → α
  dft : List α → List α
  cabs : α → β

/-- Lines 73-76 of `fft_thread_start`: `inputData[i] *= window[i]` for every `i`
below `fft_size`. -/
def applyWindow {α β : Type} (K : Kernel α β) (fft_size : Nat)
    (inputData : List α) (window : List β) : List α :=
  (List.zipWith K.scale (inputData.take fft_size) (window.take fft_size))
    ++ inputData.drop fft_size

/-- Lines 82-85 of `fft_thread_start`: `magnitude[i] = cabsf(outputData[i])` for
every `i` below `fft_size`. -/
def magnitudeOf {α β : Type} (K : Kernel α β) (fft_size : Nat)
    (outputData : List α) : List β :=
  (outputData.take fft_size).map K.cabs

/-- The first `fwrite` (line 100): `fft_size/2` floats starting at
`magnitude + fft_size/2`. -/
def negativeFreqs {β : Type} (fft_size : Nat) (magnitude : List β) : List β :=
  (magnitude.drop (fft_size / 2)).take (fft_size / 2)

/-- The second `fwrite` (line 103): `fft_size/2` floats starting at `magnitude`. -/
def positiveFreqs {β : Type} (fft_size : Nat) (magnitude : List β) : List β :=
  magnitude.take (fft_size / 2)

/-- Everything one START appends to the output file: the two `fwrite` payloads in
the order of the calls. -/
def writtenBlock {β : Type} (fft_size : Nat) (magnitude : List β) : List β :=
  negativeFreqs fft_size magnitude ++ positiveFreqs fft_size magnitude

/-- The magnitude buffer a worker holds after lines 72-85 when its input scratch
holds `inputData`. -/
def computeMagnitude {α β : Type} (K : Kernel α β) (fft_size : Nat)
    (window : List β) (inputData : List α) : List β :=
  magnitudeOf K fft_size (K.dft (applyWindow K fft_size inputData window))

/-- The block a worker appends for the frame `inputData`. -/
def frameBlock {α β : Type} (K : Kernel α β) (fft_size : Nat)
    (window : List β) (inputData : List α) : List β :=
  writtenBlock fft_size (computeMagnitude K fft_size window inputData)

/-- Lines 41-45 of `fft_thread_start`: the amount a worker adds to `next_thread`
after its write. -/
def increment (my_id max_children : Int) : Int :=
  if my_id = max_children - 1 then -1 * my_id else 1

/-- Line 107 of `fft_thread_start`: `*next_thread += increment`. -/
def advanceTicket (next_thread my_id max_children : Int) : Int :=
  next_thread + increment my_id max_children

/-- Reading a block back: the last `fft_size/2` floats followed by the first
`fft_size/2` floats. -/
def unswap {β : Type} (fft_size : Nat) (block : List β) : List β :=
  block.drop (fft_size / 2) ++ block.take (fft_size / 2)

/-! ## Frame dispatchers -/

/-- Command-line configuration handed to `calculateTask`: FFT size, overlap factor
and number of worker threads. -/
structure Config where
  FFTSize : Nat
  FFTOverlap : Nat
  max_children : Nat
  deriving DecidableEq

/-- Samples read per iteration, `FFTSize / FFTOverlap`. -/
def Config.fft_interval_size (cfg : Config) : Nat :=
  cfg.FFTSize / cfg.FFTOverlap

/-- Writing `got` into the buffer starting at index `pos` (the destination of
`fread` in fftcompute, of the first `memmove` in usrp-sensor). -/
def store {α : Type} (buf : List α) (pos : Nat) (got : List α) : List α :=
  buf.take pos ++ got ++ buf.drop (pos + got.length)

/-- The two `memmove` calls that fill a worker's `inputData`: `FFTSize - head`
samples from `input_buffer + head`, then `head` samples from `input_buffer`. -/
def copyFrame {α : Type} (FFTSize head : Nat) (input_buffer : List α) : List α :=
  (input_buffer.drop head).take (FFTSize - head) ++ input_buffer.take head

/-- The update of `child_tracker` after a START was posted:
`child_tracker == max_children - 1 ? 0 : child_tracker + 1`. -/
def nextChild (max_children child_tracker : Nat) : Nat :=
  if (child_tracker : Int) = (max_children : Int) - 1 then 0 else child_tracker + 1

/-- One START posted by a dispatcher: the worker it went to and the contents
copied into that worker's `inputData`. -/
structure Dispatch (α : Type) where
  child : Nat
  frame : List α
  deriving DecidableEq

namespace fftcompute

/-- The input file as stdio sees it: the complex samples not yet read and the
end-of-file indicator. -/
structure InFile (α : Type) where
  rest : List α
  eof : Bool
  deriving DecidableEq

/-- The call `fread(dst, FLOAT_COMPLEX_SIZE, count, inputFile)`: the items
delivered and the file afterwards.  The end-of-file indicator is set when the
read runs into the end of the file. -/
def fread {α : Type} (count : Nat) (f : InFile α) : List α × InFile α :=
  (f.rest.take count,
   { rest := f.rest.drop count, eof := f.eof || decide (f.rest.length < count) })

/-- The local variables of the work section of `calculateTask`, with the list of
STARTs posted so far. -/
structure Dispatcher (α : Type) where
  inputFile : InFile α
  input_buffer : List α
  head : Nat
  child_tracker : Nat
  isFirst : Bool
  isFull : Bool
  return_code : Nat
  dispatched : List (Dispatch α)
  deriving DecidableEq

/-- State at the top of the work loop (lines 637-660); `mem` is the content of
the freshly allocated `input_buffer`. -/
def start {α : Type} (mem input : List α) : Dispatcher α :=
  { inputFile := { rest := input, eof := false }
    input_buffer := mem
    head := 0
    child_tracker := 0
    isFirst := true
    isFull := false
    return_code := 1
    dispatched := [] }

/-- Lines 674-717: what one pass of the loop body does after a full read, the
buffer already holding the samples just read.  The tests
`head == FFTSize - fft_interval_size` and `head == FFTSize` (after the increment)
are both written `head + fft_interval_size = FFTSize`, the same over the
integers. -/
def body {α : Type} (cfg : Config) (s : Dispatcher α) : Dispatcher α :=
  if s.isFull = false then
    if s.head + cfg.fft_interval_size = cfg.FFTSize then
      { s with isFull := true }
    else
      { s with head := s.head + cfg.fft_interval_size }
  else
    let head :=
      if s.isFirst = false then
        (if s.head + cfg.fft_interval_size = cfg.FFTSize then 0
         else s.head + cfg.fft_interval_size)
      else s.head
    { s with
      head := head
      isFirst := false
      dispatched := s.dispatched ++
        [{ child := s.child_tracker, frame := copyFrame cfg.FFTSize head s.input_buffer }]
      child_tracker := nextChild cfg.max_children s.child_tracker }

/-- The work loop of `calculateTask` (lines 662-718), run for at most `fuel`
passes; `none` when the fuel runs out before the loop ends. -/
def workLoop {α : Type} (cfg : Config) : Nat → Dispatcher α → Option (Dispatcher α)
  | 0, _ => none
  | fuel + 1, s =>
    if s.inputFile.eof = false ∧ s.return_code ≠ 0 then
      let r := fread cfg.fft_interval_size s.inputFile
      let s1 := { s with inputFile := r.2
                         input_buffer := store s.input_buffer s.head r.1 }
      if r.1.length ≠ cfg.fft_interval_size then
        some { s1 with return_code := 0 }
      else
        workLoop cfg fuel (body cfg s1)
    else some s

/-- The dispatcher part of `calculateTask` on the samples of the input file. -/
def calculateTask {α : Type} (cfg : Config) (mem input : List α) :
    Option (Dispatcher α) :=
  workLoop cfg (input.length + 1) (start mem input)

end fftcompute

namespace usrp_sensor

/-- The error code in the metadata of a `recv` call. -/
inductive ErrorCode where
  | ERROR_CODE_NONE
  | ERROR_CODE_OVERFLOW
  | ERROR_CODE_TIMEOUT
  | ERROR_CODE_OTHER
  deriving DecidableEq

/-- Result of one `recv` call: the samples placed in `usrpBuffer` and the error
code. -/
structure Recv (α : Type) where
  samples : List α
  error_code : ErrorCode
  deriving DecidableEq

/-- The local variables of the work section of `calculateTask`, with the list of
STARTs posted so far. -/
structure Dispatcher (α : Type) where
  input_buffer : List α
  head : Nat
  child_tracker : Nat
  isFull : Bool
  return_code : Nat
  samples_recorded : Nat
  dispatched : List (Dispatch α)
  deriving DecidableEq

/-- State at the top of the work loop (lines 835-867); `mem` is the content of
the freshly allocated `input_buffer`. -/
def start {α : Type} (mem : List α) : Dispatcher α :=
  { input_buffer := mem
    head := 0
    child_tracker := 0
    isFull := false
    return_code := 1
    samples_recorded := 0
    dispatched := [] }

/-- Lines 884-899: the effect of the error code on `return_code`. -/
def checkError (e : ErrorCode) (return_code : Nat) : Nat :=
  match e with
  | .ERROR_CODE_NONE => return_code
  | .ERROR_CODE_OVERFLOW => return_code
  | .ERROR_CODE_TIMEOUT => 0
  | .ERROR_CODE_OTHER => 0

/-- Lines 879-954: one pass of the loop body for the `recv` result `r`.  The tests
`head == FFTSize - fft_interval_size` and `head == FFTSize` (after the increment)
are both written `head + fft_interval_size = FFTSize`, the same over the
integers. -/
def body {α : Type} (cfg : Config) (r : Recv α) (s : Dispatcher α) : Dispatcher α :=
  let s1 := { s with return_code := checkError r.error_code s.return_code }
  if r.samples.length = cfg.fft_interval_size then
    let buf := store s1.input_buffer s1.head r.samples
    let full := s1.isFull || decide (s1.head + cfg.fft_interval_size = cfg.FFTSize)
    let head :=
      if s1.head + cfg.fft_interval_size = cfg.FFTSize then 0
      else s1.head + cfg.fft_interval_size
    let s2 := { s1 with
      samples_recorded := s1.samples_recorded + r.samples.length
      input_buffer := buf
      isFull := full
      head := head }
    if full then
      { s2 with
        dispatched := s2.dispatched ++
          [{ child := s2.child_tracker, frame := copyFrame cfg.FFTSize head buf }]
        child_tracker := nextChild cfg.max_children s2.child_tracker }
    else s2
  else s1

/-- The work loop of `calculateTask` (lines 876-955) over the results of the
successive `recv` calls; it stops when the sample cap is reached or
`return_code` is 0, and consumes one result per pass. -/
def workLoop {α : Type} (cfg : Config) (maximum_samples : Nat) :
    List (Recv α) → Dispatcher α → Dispatcher α
  | [], s => s
  | r :: rs, s =>
    if s.samples_recorded < maximum_samples ∧ s.return_code ≠ 0 then
      workLoop cfg maximum_samples rs (body cfg r s)
    else s

/-- The dispatcher part of `calculateTask` for the given `recv` results. -/
def calculateTask {α : Type} (cfg : Config) (maximum_samples : Nat)
    (mem : List α) (recvs : List (Recv α)) : Dispatcher α :=
  workLoop cfg maximum_samples recvs (start mem)

end usrp_sensor

/-! ## Dispatcher and workers as concurrent threads -/

/-- Program points of `fft_thread_start`, one per shared-memory action. -/
inductive WorkerPc where
  /-- Line 60, blocked in `mq_receive`. -/
  | receive
  /-- Line 70, about to set `is_running = true`. -/
  | setRunning
  /-- Lines 73-85: window, transform, magnitude. -/
  | compute
  /-- Line 88, spinning on `*next_thread != my_id`. -/
  | waitTurn
  /-- Line 95, `pthread_mutex_lock`. -/
  | lock
  /-- Line 100, first `fwrite`. -/
  | writeNeg
  /-- Line 103, second `fwrite`. -/
  | writePos
  /-- Line 107, `*next_thread += increment`. -/
  | advance
  /-- Line 110, `pthread_mutex_unlock`. -/
  | unlock
  /-- Line 113, about to set `is_running = false`. -/
  | clearRunning
  /-- After the loop (KILL received). -/
  | exited
  deriving DecidableEq

/-- The per-worker data: the fields of `struct fft_thread_data` that change, the
worker's `magnitude` array, its message queue (`mq_maxmsg = 1`) and its program
point.  `my_id` is the index of the worker in the pool. -/
structure fft_thread_data (α β : Type) where
  pc : WorkerPc
  is_running : Bool
  inputData : List α
  magnitude : List β
  queue : Option Nat

/-- Program points of the dispatch section of the dispatcher loop. -/
inductive DispatcherPc where
  /-- Spinning on `fft_child_args[child_tracker].is_running`. -/
  | check
  /-- The two `memmove` calls into `inputData`. -/
  | copy
  /-- `mq_send` of START, then the update of `child_tracker`. -/
  | send
  deriving DecidableEq

/-- One `fwrite` on the output file: the worker that made it and the floats. -/
structure Chunk (β : Type) where
  writer : Nat
  floats : List β

/-- Shared state of the dispatcher and the workers.  `frames` are the frames the
dispatcher loop has still to hand out, `copied` and `posted` record the copies
made and the STARTs posted so far. -/
structure Pool (α β : Type) where
  fft_child_args : Nat → fft_thread_data α β
  thread_control : Int
  output_mutex : Option Nat
  outputFile : List (Chunk β)
  dpc : DispatcherPc
  child_tracker : Nat
  frames : List (List α)
  copied : List (Dispatch α)
  posted : List Nat

/-- What the threads share that never changes. -/
structure PoolConfig (α β : Type) where
  kernel : Kernel α β
  fft_size : Nat
  max_children : Nat
  window : List β

/-- A thread of the program. -/
inductive Thread where
  | dispatcher
  | worker (my_id : Nat)
  deriving DecidableEq

/-- State after `initializeThreads` and `(*thread_control) = 0`: every worker is
blocked on its empty queue with `is_running = false`. -/
def Pool.start {α β : Type} (frames : List (List α)) : Pool α β :=
  { fft_child_args := fun _ =>
      { pc := .receive, is_running := false, inputData := [], magnitude := [],
        queue := none }
    thread_control := 0
    output_mutex := none
    outputFile := []
    dpc := .check
    child_tracker := 0
    frames := frames
    copied := []
    posted := [] }

/-- Replace the data of worker `i`. -/
def Pool.setChild {α β : Type} (s : Pool α β) (i : Nat) (d : fft_thread_data α β) :
    Pool α β :=
  { s with fft_child_args := Function.update s.fft_child_args i d }

/-- One step of the dispatcher; `none` when it is blocked in `mq_send` or has no
frame left. -/
def Pool.stepDispatcher {α β : Type} (cfg : PoolConfig α β) (s : Pool α β) :
    Option (Pool α β) :=
  match s.frames with
  | [] => none
  | f :: rest =>
    let d := s.fft_child_args s.child_tracker
    match s.dpc with
    | .check => if d.is_running then some s else some { s with dpc := .copy }
    | .copy =>
      some { s.setChild s.child_tracker { d with inputData := f } with
             dpc := .send
             copied := s.copied ++ [{ child := s.child_tracker, frame := f }] }
    | .send =>
      match d.queue with
      | some _ => none
      | none =>
        some { s.setChild s.child_tracker { d with queue := some FFT_THREAD_START } with
               dpc := .check
               posted := s.posted ++ [s.child_tracker]
               child_tracker := nextChild cfg.max_children s.child_tracker
               frames := rest }

/-- One step of worker `i`; `none` when it is blocked (empty queue, mutex held)
or has exited. -/
def Pool.stepWorker {α β : Type} (cfg : PoolConfig α β) (i : Nat) (s : Pool α β) :
    Option (Pool α β) :=
  let d := s.fft_child_args i
  match d.pc with
  | .receive =>
    match d.queue with
    | none => none
    | some m =>
      if m = FFT_THREAD_KILL then some (s.setChild i { d with queue := none, pc := .exited })
      else if m = FFT_THREAD_START then
        some (s.setChild i { d with queue := none, pc := .setRunning })
      else some (s.setChild i { d with queue := none })
  | .setRunning => some (s.setChild i { d with is_running := true, pc := .compute })
  | .compute =>
    let input := applyWindow cfg.kernel cfg.fft_size d.inputData cfg.window
    some (s.setChild i { d with
      inputData := input
      magnitude := magnitudeOf cfg.kernel cfg.fft_size (cfg.kernel.dft input)
      pc := .waitTurn })
  | .waitTurn =>
    if s.thread_control ≠ (i : Int) then some s
    else some (s.setChild i { d with pc := .lock })
  | .lock =>
    match s.output_mutex with
    | some _ => none
    | none => some { s.setChild i { d with pc := .writeNeg } with output_mutex := some i }
  | .writeNeg =>
    some { s.setChild i { d with pc := .writePos } with
           outputFile := s.outputFile ++
             [{ writer := i, floats := negativeFreqs cfg.fft_size d.magnitude }] }
  | .writePos =>
    some { s.setChild i { d with pc := .advance } with
           outputFile := s.outputFile ++
             [{ writer := i, floats := positiveFreqs cfg.fft_size d.magnitude }] }
  | .advance =>
    some { s.setChild i { d with pc := .unlock } with
           thread_control := advanceTicket s.thread_control i cfg.max_children }
  | .unlock => some { s.setChild i { d with pc := .clearRunning } with output_mutex := none }
  | .clearRunning => some (s.setChild i { d with is_running := false, pc := .receive })
  | .exited => none

/-- One step of thread `t`.  Only the `max_children` workers that were spawned
take steps. -/
def Pool.step {α β : Type} (cfg : PoolConfig α β) (t : Thread) (s : Pool α β) :
    Option (Pool α β) :=
  match t with
  | .dispatcher => s.stepDispatcher cfg
  | .worker i => if i < cfg.max_children then s.stepWorker cfg i else none

/-- Run the threads in the order given by a schedule; a thread that is blocked
when its turn comes leaves the state as it is. -/
def Pool.run {α β : Type} (cfg : PoolConfig α β) : List Thread → Pool α β → Pool α β
  | [], s => s
  | t :: ts, s => Pool.run cfg ts ((s.step cfg t).getD s)

/-- States the threads can reach from the start, under any interleaving. -/
inductive Pool.Reachable {α β : Type} (cfg : PoolConfig α β) (frames : List (List α)) :
    Pool α β → Prop where
  | start : Pool.Reachable cfg frames (Pool.start frames)
  | step (t : Thread) (s s' : Pool α β) :
      Pool.Reachable cfg frames s → s.step cfg t = some s' → Pool.Reachable cfg frames s'

/-- The dispatcher has handed out every frame and every worker is back in
`mq_receive` with an empty queue. -/
def Pool.Quiescent {α β : Type} (cfg : PoolConfig α β) (s : Pool α β) : Prop :=
  s.frames = [] ∧
  ∀ i, i < cfg.max_children →
    (s.fft_child_args i).pc = .receive ∧ (s.fft_child_args i).queue = none

/-- The schedule in which the dispatcher posts a START and copies the next frame
before the single worker has run, after which the worker handles both STARTs. -/
def overtakingSchedule : List Thread :=
  [ .dispatcher, .dispatcher, .dispatcher, .dispatcher, .dispatcher,
    .worker 0, .worker 0, .worker 0, .worker 0, .worker 0,
    .worker 0, .worker 0, .worker 0, .worker 0, .worker 0,
    .dispatcher,
    .worker 0, .worker 0, .worker 0, .worker 0, .worker 0,
    .worker 0, .worker 0, .worker 0, .worker 0, .worker 0 ]

/-- The dispatch log `l` hands entry `k` to worker `k mod W`, and `c`, the
worker the next entry goes to, is `l.length mod W`. -/
def RoundRobin {α : Type} (W : Nat) (l : List (Dispatch α)) (c : Nat) : Prop :=
  c = l.length % W ∧ ∀ k (h : k < l.length), (l.get ⟨k, h⟩).child = k % W

/-- The state of the work loop of fftcompute after a read, before the body. -/
def fftcompute.afterRead {α : Type} (cfg : Config) (s : fftcompute.Dispatcher α) :
    fftcompute.Dispatcher α :=
  { s with
    inputFile := (fftcompute.fread cfg.fft_interval_size s.inputFile).2
    input_buffer := store s.input_buffer s.head
      (fftcompute.fread cfg.fft_interval_size s.inputFile).1 }

/-- Samples delivered by a list of `recv` calls, in order. -/
def usrp_sensor.stream {α : Type} (recvs : List (usrp_sensor.Recv α)) : List α :=
  recvs.flatMap (fun r => r.samples)

/-- State of the work loop of usrp-sensor after `j` full, error-free `recv`
calls on the sample stream `S`, the buffer having started as `mem`. -/
structure usrp_sensor.Inv {α : Type} (cfg : Config) (mem S : List α) (j : Nat)
    (s : usrp_sensor.Dispatcher α) : Prop where
  buf_len : s.input_buffer.length = cfg.FFTSize
  recorded : s.samples_recorded = j * cfg.fft_interval_size
  in_stream : j * cfg.fft_interval_size ≤ S.length
  ring : copyFrame cfg.FFTSize s.head s.input_buffer
    = (mem ++ S.take (j * cfg.fft_interval_size)).drop (j * cfg.fft_interval_size)
  filling : s.isFull = false → s.head = j * cfg.fft_interval_size ∧ j < cfg.FFTOverlap
  full : s.isFull = true → cfg.FFTOverlap ≤ j
  head_slot : ∃ i, i < cfg.FFTOverlap ∧ s.head = i * cfg.fft_interval_size
  count : s.dispatched.length = j + 1 - cfg.FFTOverlap
  frames : ∀ k d, s.dispatched[k]? = some d →
    d.frame = (S.drop (k * cfg.fft_interval_size)).take cfg.FFTSize

/-- Program points between passing the ticket spin and advancing the ticket. -/
def WorkerPc.inCritical : WorkerPc → Bool
  | .lock | .writeNeg | .writePos | .advance => true
  | _ => false

/-- Number of `fwrite` calls a worker at this program point has made since it
passed the ticket spin. -/
def WorkerPc.ahead : WorkerPc → Nat
  | .writePos => 1
  | .advance => 2
  | _ => 0

/-- Invariant of the ticket protocol: the ticket `t` is a worker index, only
worker `t` can be between the spin and the advance, `q` blocks congruent to `t`
are complete, and every `fwrite` so far was made by the worker whose turn it
was. -/
def Pool.TicketInv {α β : Type} (cfg : PoolConfig α β) (s : Pool α β) : Prop :=
  ∃ t q : Nat, t < cfg.max_children ∧ s.thread_control = (t : Int) ∧
    q % cfg.max_children = t ∧
    s.outputFile.length = 2 * q + (s.fft_child_args t).pc.ahead ∧
    (∀ i, i < cfg.max_children → (s.fft_child_args i).pc.inCritical = true → i = t) ∧
    (∀ k c, s.outputFile[k]? = some c → c.writer = (k / 2) % cfg.max_children)

/-- Invariant of the dispatcher: the STARTs posted so far went to the workers in
rotation and `child_tracker` is the next in line. -/
def Pool.PostedInv {α β : Type} (cfg : PoolConfig α β) (s : Pool α β) : Prop :=
  s.child_tracker = s.posted.length % cfg.max_children ∧
  ∀ k w, s.posted[k]? = some w → w = k % cfg.max_children

/-- Size of a single-precision float in bytes, `sizeof(float)`. -/
def FLOAT_SIZE : Nat := 4

/-- A window file that could be opened: the complete floats it holds, in order,
and the number of bytes after the last complete float. -/
structure WindowFile (β : Type) where
  floats : List β
  extra_bytes : Fin 4

/-- The value an `int` takes when a non-negative `long` is stored in it: the
value reduced modulo `2^32` into `[-2^31, 2^31)`. -/
def toInt32 (n : Nat) : Int :=
  (((n + 2 ^ 31) % 2 ^ 32 : Nat) : Int) - 2 ^ 31

/-- The value of `ftell` at the end of the window file: its length in bytes. -/
def WindowFile.ftell {β : Type} (f : WindowFile β) : Nat :=
  FLOAT_SIZE * f.floats.length + f.extra_bytes.val

/-- The variable `int window_file_size = ftell( window_file )` (fftcompute line
297, usrp-sensor line 367): the byte length stored in an `int`. -/
def WindowFile.window_file_size {β : Type} (f : WindowFile β) : Int :=
  toInt32 f.ftell

/-- The variable `int window_size = window_file_size / FLOAT_SIZE`, with the
division of C. -/
def WindowFile.window_size {β : Type} (f : WindowFile β) : Int :=
  f.window_file_size.tdiv (FLOAT_SIZE : Int)

/-- How the window section of `main` ends. -/
inductive WindowResult (β : Type) where
  /-- The message "Window is too large!" and `return 1`. -/
  | too_large
  /-- With a negative `window_size` the size test passes, `fread` is asked for
  `(size_t) window_size` elements and the zero-padding loop starts at the index
  `window_size`, in front of the `window` array. -/
  | overrun
  /-- The table handed to `calculateTask`. -/
  | table (window : List β)

/-- The window section of `main` (fftcompute lines 280-328, usrp-sensor lines
350-399, the same code) for `FFTSize >= 0`.  `mem i` is the content of slot `i`
of the freshly allocated `window` array; `window_file` is `none` when `fopen`
fails. -/
def windowTable {β : Type} [Zero β] [One β] (FFTSize : Nat) (mem : Nat → β) :
    Option (WindowFile β) → WindowResult β
  | none => .table (((List.range FFTSize).map mem).map (fun _ => 1))
  | some f =>
    if f.window_size > (FFTSize : Int) then .too_large
    else if f.window_size < 0 then .overrun
    else
      let window :=
        store ((List.range FFTSize).map mem) 0 (f.floats.take f.window_size.toNat)
      if f.window_size < (FFTSize : Int) then
        .table (window.take f.window_size.toNat
          ++ List.replicate (FFTSize - f.window_size.toNat) 0)
      else .table window

/-- What `main` works from once the command line has been read: the argument
count, whether `getopt` accepted every option, the three integers from `atoi`,
the window file (`none` when it cannot be opened) and the content of the
freshly allocated `window` array. -/
structure MainArgs (β : Type) where
  argc : Int
  getopt_ok : Bool
  FFTSize : Int
  FFTOverlap : Int
  max_children : Int
  window_file : Option (WindowFile β)
  window_mem : Nat → β

/-- How the part of `main` before the call of `calculateTask` ends. -/
inductive Checked (β : Type) where
  /-- A `return` with this code; `calculateTask` is not called. -/
  | exit (code : Int)
  /-- Integer division by zero in `FFTSize % FFTOverlap`. -/
  | trap
  /-- The allocation `new float[FFTSize]` with a negative size throws. -/
  | bad_alloc
  /-- The window section writes outside the `window` array. -/
  | overrun
  /-- The checks passed: `calculateTask` is called with these arguments. -/
  | proceed (FFTSize FFTOverlap max_children : Int) (window : List β)

/-- The part of `main` before `calculateTask` (fftcompute lines 199-328,
usrp-sensor lines 264-399, the same code up to the expected argument count).
The remainder `FFTSize % FFTOverlap` of C is `Int.tmod`. -/
def mainChecks {β : Type} [Zero β] [One β] (expected_argc : Int) (a : MainArgs β) :
    Checked β :=
  if a.argc ≠ expected_argc then .exit (-1)
  else if a.getopt_ok = false then .exit (-1)
  else if a.FFTOverlap = 0 then .trap
  else if a.FFTSize.tmod a.FFTOverlap ≠ 0 then .exit (-1)
  else if a.max_children < 1 then .exit (-1)
  else if a.FFTSize < 0 then .bad_alloc
  else
    match windowTable a.FFTSize.toNat a.window_mem a.window_file with
    | .too_large => .exit 1
    | .overrun => .overrun
    | .table window => .proceed a.FFTSize a.FFTOverlap a.max_children window

/-- What `calculateTask` of fftcompute reports: its return value, whether it
printed "Input data terminated with unaligned data", and the final state of the
work loop when the loop ran. -/
structure fftcompute.TaskResult (α : Type) where
  returned : Int
  unaligned_message : Bool
  work : Option (fftcompute.Dispatcher α)

/-- The function `calculateTask` of fftcompute as a whole (lines 539-781): 0 when
`openFiles` or `initializeThreads` fails, otherwise the work loop, the message
when `return_code` is 0 after it, and the final `return 1`.  `none` when the
work loop does not end. -/
def fftcompute.calculateTaskResult {α : Type} (openFiles_ok initializeThreads_ok : Bool)
    (cfg : Config) (mem input : List α) : Option (fftcompute.TaskResult α) :=
  if openFiles_ok = false then some ⟨0, false, none⟩
  else if initializeThreads_ok = false then some ⟨0, false, none⟩
  else
    (fftcompute.calculateTask cfg mem input).map fun s =>
      ⟨1, decide (s.return_code = 0), some s⟩

/-- The function `calculateTask` of fftcompute when `fft_interval_size` is
negative (a negative `FFTOverlap`): 0 when `openFiles` or `initializeThreads`
fails.  Otherwise the count of the first `fread` (line 666) is the negative hop
converted to `size_t`, more than any file holds, so the read puts every sample
of the input into `input_buffer`, which has `FFTSize` slots: `none` when that
writes past the buffer.  When the input fits, `bytes_read` is at most `FFTSize`,
below `2^31`, and differs from the hop converted to `unsigned int`, at least
`2^31`; `return_code` becomes 0, the loop is left (lines 669-674), the message
is printed and 1 is returned. -/
def fftcompute.calculateTaskNegativeHop {α : Type} (openFiles_ok initializeThreads_ok : Bool)
    (FFTSize : Nat) (mem input : List α) : Option (fftcompute.TaskResult α) :=
  if openFiles_ok = false then some ⟨0, false, none⟩
  else if initializeThreads_ok = false then some ⟨0, false, none⟩
  else if FFTSize < input.length then none
  else
    some ⟨1, true, some { fftcompute.start mem input with
      inputFile := { rest := [], eof := true }
      input_buffer := store mem 0 input
      return_code := 0 }⟩

/-- The exit code of fftcompute's `main`: an early `return`, or 1 when
`calculateTask` returns 0 and 0 otherwise (lines 332-347).  `none` when `main`
does not return: a trap, an exception, a write outside a buffer, or a work loop
that does not end.  `fft_interval_size` is `FFTSize / FFTOverlap` with the
division of C; when it is not negative it is the hop of the `Config` built from
the three integers. -/
def fftcompute.main {α β : Type} [Zero β] [One β] (a : MainArgs β)
    (openFiles_ok initializeThreads_ok : Bool) (mem input : List α) : Option Int :=
  match mainChecks 11 a with
  | .exit code => some code
  | .trap => none
  | .bad_alloc => none
  | .overrun => none
  | .proceed FFTSize FFTOverlap max_children _ =>
    (if FFTSize.tdiv FFTOverlap < 0 then
      fftcompute.calculateTaskNegativeHop openFiles_ok initializeThreads_ok FFTSize.toNat
        mem input
    else
      fftcompute.calculateTaskResult openFiles_ok initializeThreads_ok
        ⟨FFTSize.toNat, FFTOverlap.toNat, max_children.toNat⟩ mem input).map
      fun r => if r.returned = 0 then 1 else 0

/-- What `calculateTask` of usrp-sensor reports: its return value and the final
state of the work loop when the loop ran. -/
structure usrp_sensor.TaskResult (α : Type) where
  returned : Int
  work : Option (usrp_sensor.Dispatcher α)

/-- The function `calculateTask` of usrp-sensor as a whole (lines 721-1007): 0
when `openFiles` or `initializeThreads` fails, otherwise the work loop and the
final `return 1`. -/
def usrp_sensor.calculateTaskResult {α : Type} (openFiles_ok initializeThreads_ok : Bool)
    (cfg : Config) (maximum_samples : Nat) (mem : List α)
    (recvs : List (usrp_sensor.Recv α)) : usrp_sensor.TaskResult α :=
  if openFiles_ok = false then ⟨0, none⟩
  else if initializeThreads_ok = false then ⟨0, none⟩
  else ⟨1, some (usrp_sensor.calculateTask cfg maximum_samples mem recvs)⟩

/-- The exit code of usrp-sensor's `main`: an early `return`, 1 when `setupUSRP`
fails, 1 when `calculateTask` returns 0 and 0 otherwise (lines 400-441).  `none`
when `main` does not return (trap, exception, a write outside a buffer).  With a
negative `fft_interval_size` (`FFTSize / FFTOverlap`, the division of C)
`calculateTask` returns 0 when `openFiles` or `initializeThreads` fails and
otherwise the construction of `usrpBuffer( fft_interval_size )` (line 846)
throws. -/
def usrp_sensor.main {α β : Type} [Zero β] [One β] (a : MainArgs β)
    (setupUSRP_ok openFiles_ok initializeThreads_ok : Bool) (maximum_samples : Nat)
    (mem : List α) (recvs : List (usrp_sensor.Recv α)) : Option Int :=
  match mainChecks 19 a with
  | .exit code => some code
  | .trap => none
  | .bad_alloc => none
  | .overrun => none
  | .proceed FFTSize FFTOverlap max_children _ =>
    if setupUSRP_ok = false then some 1
    else if FFTSize.tdiv FFTOverlap < 0 then
      (if openFiles_ok = false then some 1
       else if initializeThreads_ok = false then some 1
       else none)
    else
      some (if (usrp_sensor.calculateTaskResult openFiles_ok initializeThreads_ok
                ⟨FFTSize.toNat, FFTOverlap.toNat, max_children.toNat⟩ maximum_samples mem
                recvs).returned = 0 then 1 else 0)

/-- Whether thread `t`, if it ran now, would spin without getting on: the
dispatcher on `is_running` of the next worker, a worker on the ticket. -/
def Pool.spinning {α β : Type} (t : Thread) (s : Pool α β) : Bool :=
  match t with
  | .dispatcher =>
    decide (s.dpc = .check) && (s.fft_child_args s.child_tracker).is_running
  | .worker i =>
    decide ((s.fft_child_args i).pc = .waitTurn) && decide (s.thread_control ≠ (i : Int))

/-- Run the threads in the order given by a schedule in which nobody ever waits:
`none` as soon as the thread whose turn it is would block or spin. -/
def Pool.runNoWait {α β : Type} (cfg : PoolConfig α β) :
    List Thread → Pool α β → Option (Pool α β)
  | [], s => some s
  | t :: ts, s =>
    if s.spinning t then none else (s.step cfg t).bind (Pool.runNoWait cfg ts)

/-- The pool `s` with worker `i` in the middle of a frame: its data is `d`, and
the ticket, the mutex and the output file are as given. -/
def Pool.during {α β : Type} (s : Pool α β) (i : Nat) (d : fft_thread_data α β)
    (ticket : Int) (mutex : Option Nat) (out : List (Chunk β)) : Pool α β :=
  { s with
    fft_child_args := Function.update s.fft_child_args i d
    thread_control := ticket
    output_mutex := mutex
    outputFile := out }

/-- The schedule in which the dispatcher posts the START for the first frame and
comes back to its copy before the worker has run. -/
def handoffSchedule : List Thread :=
  [.dispatcher, .dispatcher, .dispatcher, .dispatcher]

/-- The worker's transform in exact arithmetic: the forward DFT of the first `N`
samples, `X[j] = sum over k < N of x[k] * exp(-2 pi i j k / N)`, the transform
`fftwf_execute` runs for a plan of size `N` with sign `FFTW_FORWARD`. -/
noncomputable def exactDFT (N : Nat) (x : List ℂ) : List ℂ :=
  List.map
    (fun (j : Nat) =>
      Finset.sum (Finset.range N) fun (k : Nat) =>
        x.getD k 0 * Complex.exp (-2 * Real.pi * Complex.I * (j : ℂ) * (k : ℂ) / (N : ℂ)))
    (List.range N)

/-- The numeric calls of a worker in exact real and complex arithmetic: complex
times real, the forward DFT of size `N`, the complex modulus. -/
noncomputable def exactKernel (N : Nat) : Kernel ℂ ℝ :=
  { scale := fun z w => z * (w : ℂ)
    dft := exactDFT N
    cabs := fun z => Complex.abs z }

/-- The input file of energycalculator as stdio sees it: the floats not yet
read and the end-of-file indicator. -/
structure energycalculator.InFile (R : Type) where
  rest : List R
  eof : Bool
  deriving DecidableEq

/-- The call `fread(&x, FLOAT_SIZE, 1, inputFile)` of lines 201-202: the new
value of `x` and the file afterwards.  When no float is left the read fails,
`x` keeps its value and the end-of-file indicator is set. -/
def energycalculator.fread {R : Type} (x : R) (f : energycalculator.InFile R) :
    R × energycalculator.InFile R :=
  match f.rest with
  | [] => (x, { rest := [], eof := true })
  | v :: rest => (v, { rest := rest, eof := f.eof })

/-- The local variables of `calculateTask` of energycalculator (lines 193-197)
with the values written so far. -/
structure energycalculator.Task (R : Type) where
  inputFile : energycalculator.InFile R
  i : R
  q : R
  mag : R
  iterator : Int
  written : List R
  deriving DecidableEq

/-- State at the top of the loop (lines 193-197). -/
def energycalculator.start {R : Type} [Zero R] (input : List R) : energycalculator.Task R :=
  { inputFile := { rest := input, eof := false }
    i := 0
    q := 0
    mag := 0
    iterator := 0
    written := [] }

/-- Lines 201-217: one pass of the loop body, in exact arithmetic.  `writeData`
always returns 1, so the early `return 0` is never taken. -/
def energycalculator.body {R : Type} [Semiring R] (energyBinSize : Int)
    (s : energycalculator.Task R) : energycalculator.Task R :=
  let ri := energycalculator.fread s.i s.inputFile
  let rq := energycalculator.fread s.q ri.2
  let mag := s.mag + (ri.1 ^ 2 + rq.1 ^ 2)
  if s.iterator + 1 = energyBinSize then
    { inputFile := rq.2, i := ri.1, q := rq.1, mag := 0, iterator := 0,
      written := s.written ++ [mag] }
  else
    { inputFile := rq.2, i := ri.1, q := rq.1, mag := mag, iterator := s.iterator + 1,
      written := s.written }

/-- The loop `while( !feof(inputFile) )` of lines 199-218, run for at most
`fuel` passes; `none` when the fuel runs out before the loop ends. -/
def energycalculator.workLoop {R : Type} [Semiring R] (energyBinSize : Int) :
    Nat → energycalculator.Task R → Option (energycalculator.Task R)
  | 0, _ => none
  | fuel + 1, s =>
    if s.inputFile.eof = false then
      energycalculator.workLoop energyBinSize fuel (energycalculator.body energyBinSize s)
    else some s

/-- The values `calculateTask` of energycalculator writes for the floats of the
input file. -/
def energycalculator.calculateTask {R : Type} [Semiring R] (energyBinSize : Int)
    (input : List R) : Option (List R) :=
  (energycalculator.workLoop energyBinSize (input.length + 2)
    (energycalculator.start input)).map (fun s => s.written)

/-- The floats of a file that holds the complex samples `xs`: I then Q of each
sample. -/
def energycalculator.samplesFile {R : Type} (xs : List (R × R)) : List R :=
  xs.flatMap (fun s => [s.1, s.2])

/-- The energy `i^2 + q^2` of each sample. -/
def energycalculator.energies {R : Type} [Semiring R] (xs : List (R × R)) : List R :=
  xs.map (fun s => s.1 ^ 2 + s.2 ^ 2)

/-- The values written while the energies `es` are accumulated from the counter
`iterator` and the partial sum `mag`. -/
def energycalculator.bins {R : Type} [Semiring R] (energyBinSize : Int) :
    Int → R → List R → List R
  | _, _, [] => []
  | iterator, mag, e :: es =>
    if iterator + 1 = energyBinSize then
      (mag + e) :: energycalculator.bins energyBinSize 0 0 es
    else energycalculator.bins energyBinSize (iterator + 1) (mag + e) es

/-- Number of `recv` calls the work loop of usrp-sensor issues (lines 876-881):
one per pass, the loop running while the sample cap is not reached and
`return_code` is non-zero. -/
def usrp_sensor.recvCalls {α : Type} (cfg : Config) (maximum_samples : Nat) :
    List (usrp_sensor.Recv α) → usrp_sensor.Dispatcher α → Nat
  | [], _ => 0
  | r :: rs, s =>
    if s.samples_recorded < maximum_samples ∧ s.return_code ≠ 0 then
      usrp_sensor.recvCalls cfg maximum_samples rs (usrp_sensor.body cfg r s) + 1
    else 0

/-- The frames of index `k >= O` (every index when `O = 1`) in the dispatch log
of fftcompute are the input at positions `[(k+1)*hop, (k+1)*hop + N)`. -/
def fftcompute.FramesDelayed {α : Type} (cfg : Config) (X : List α)
    (dispatched : List (Dispatch α)) : Prop :=
  ∀ k d, dispatched[k]? = some d → cfg.FFTOverlap ≤ k ∨ cfg.FFTOverlap = 1 →
    (k + 1) * cfg.fft_interval_size + cfg.FFTSize ≤ X.length ∧
    d.frame = (X.drop ((k + 1) * cfg.fft_interval_size)).take cfg.FFTSize

/-- State of the work loop of fftcompute on the input `X`, `j` passes after the
pass that dispatched the first frame; `ring0` is the ring read from `head` right
after that pass. -/
structure fftcompute.Steady {α : Type} (cfg : Config) (X ring0 : List α) (j : Nat)
    (s : fftcompute.Dispatcher α) : Prop where
  buf_len : s.input_buffer.length = cfg.FFTSize
  ring0_len : ring0.length = cfg.FFTSize
  full : s.isFull = true
  not_first : s.isFirst = false
  rest : s.inputFile.rest = X.drop ((cfg.FFTOverlap + 1 + j) * cfg.fft_interval_size)
  in_input : (cfg.FFTOverlap + 1 + j) * cfg.fft_interval_size ≤ X.length
  ring : copyFrame cfg.FFTSize s.head s.input_buffer
    = (ring0 ++ (X.drop ((cfg.FFTOverlap + 1) * cfg.fft_interval_size)).take
        (j * cfg.fft_interval_size)).drop (j * cfg.fft_interval_size)
  head_slot : ∃ i, i < cfg.FFTOverlap ∧ s.head = i * cfg.fft_interval_size
  count : s.dispatched.length = j + 1
  frames : fftcompute.FramesDelayed cfg X s.dispatched

/-- The byte `m` arrives in the queue of worker `i` (an `mq_send` by another
thread) at a moment when the ticket stands at `i`: the workers before it in the
rotation have written their blocks, so its wait at line 88 can end. -/
def Pool.post {α β : Type} (s : Pool α β) (i : Nat) (m : Nat) : Pool α β :=
  { s.setChild i { s.fft_child_args i with queue := some m } with
    thread_control := (i : Int) }

/-- Worker `i` is given the bytes of its inbox one after the other.  A byte is
put in its queue only when the queue (`mq_maxmsg = 1`) is empty; the worker then
takes its steps until it is blocked in `mq_receive` again or has exited (ten
steps, the longest path through the loop body).  The result is the state reached
and the bytes that could not be sent because the queue stayed full. -/
def Pool.feed {α β : Type} (cfg : PoolConfig α β) (i : Nat) :
    List Nat → Pool α β → Pool α β × List Nat
  | [], s => (s, [])
  | m :: ms, s =>
    match (s.fft_child_args i).queue with
    | some _ => (s, m :: ms)
    | none =>
      Pool.feed cfg i ms (Pool.run cfg (List.replicate 10 (.worker i)) (s.post i m))

/-- The resources `calculateTask` acquires: the files, the arrays and the
per-worker buffers and plans of `createFFTPlans`, and what `initializeThreads`
sets up (`queue i` is the message queue opened into `fft_mq[i]`, `thread i` the
thread created into `fft_children[i]`). -/
inductive Resource where
  | inputFile
  | outputFile
  | plans
  | inputDataArray
  | outputDataArray
  | inputData (i : Nat)
  | outputData (i : Nat)
  | plan (i : Nat)
  | mutexattr
  | mutex
  | fft_children
  | fft_mq
  | ma
  | thread_control
  | fft_child_args
  | mq_name (i : Nat)
  | queue (i : Nat)
  | thread (i : Nat)
  | input_buffer
  deriving DecidableEq

/-- What the coordinator does in a cleanup section: spin until `is_running` of
a worker is clear, `mq_send` of KILL, `pthread_join`, `mq_unlink` of a queue
name, `fftwf_cleanup`, and the release of a resource (`fclose`,
`fftwf_destroy_plan`, `delete []`, `mq_close`, `pthread_mutex_destroy`). -/
inductive Action where
  | waitIdle (i : Nat)
  | sendKill (i : Nat)
  | join (i : Nat)
  | mqUnlink (i : Nat)
  | fftwCleanup
  | release (r : Resource)
  deriving DecidableEq

/-- The cleanup section of `calculateTask` of fftcompute (lines 731-778) for
`W` workers, as the list of the coordinator's actions in program order. -/
def fftcompute.cleanup (W : Nat) (return_code : Nat) : List Action :=
  (if return_code = 0 then (List.range W).map Action.waitIdle else []) ++
  [.release .inputFile, .release .outputFile] ++
  (List.range W).flatMap (fun i =>
    [.sendKill i, .release (.plan i), .release (.inputData i), .release (.outputData i),
     .release (.queue i), .mqUnlink i]) ++
  [.fftwCleanup, .release .mutexattr, .release .mutex] ++
  (List.range W).map (fun i => Action.release (.mq_name i)) ++
  [.release .plans, .release .inputDataArray, .release .outputDataArray, .release .ma,
   .release .fft_mq, .release .fft_child_args, .release .input_buffer]

/-- The cleanup section of `calculateTask` of usrp-sensor (lines 972-1004) for
`W` workers, as the list of the coordinator's actions in program order. -/
def usrp_sensor.cleanup (W : Nat) : List Action :=
  [.release .outputFile] ++
  (List.range W).flatMap (fun i =>
    [.sendKill i, .release (.plan i), .release (.inputData i), .release (.outputData i),
     .release (.queue i), .mqUnlink i, .join i]) ++
  [.release .mutexattr, .release .mutex] ++
  (List.range W).map (fun i => Action.release (.mq_name i)) ++
  [.release .plans, .release .inputDataArray, .release .outputDataArray, .release .ma,
   .release .fft_mq, .release .fft_child_args, .release .input_buffer]

/-- The pool during a cleanup section: the actions the coordinator has still to
take and, once `fclose(outputFile)` has run, the number of `fwrite` calls that
had been made by then. -/
structure Shutdown (α β : Type) where
  pool : Pool α β
  todo : List Action
  closedAt : Option Nat

/-- One step of the coordinator in a cleanup section; `none` when it is blocked
(`mq_send` on a full queue, `pthread_join` on a running thread) or done. -/
def Shutdown.stepCoordinator {α β : Type} (s : Shutdown α β) : Option (Shutdown α β) :=
  match s.todo with
  | [] => none
  | a :: rest =>
    match a with
    | .waitIdle i =>
      if (s.pool.fft_child_args i).is_running then some s else some { s with todo := rest }
    | .sendKill i =>
      match (s.pool.fft_child_args i).queue with
      | some _ => none
      | none =>
        some { s with
          pool := s.pool.setChild i
            { s.pool.fft_child_args i with queue := some FFT_THREAD_KILL }
          todo := rest }
    | .join i =>
      if (s.pool.fft_child_args i).pc = .exited then some { s with todo := rest } else none
    | .release .outputFile =>
      some { s with todo := rest, closedAt := some s.pool.outputFile.length }
    | _ => some { s with todo := rest }

/-- One step of a thread during a cleanup section: the coordinator takes its
next action, a worker goes on as before. -/
def Shutdown.step {α β : Type} (cfg : PoolConfig α β) (t : Thread) (s : Shutdown α β) :
    Option (Shutdown α β) :=
  match t with
  | .dispatcher => s.stepCoordinator
  | .worker i => (s.pool.step cfg (.worker i)).map (fun p => { s with pool := p })

/-- Run the threads in the order given by a schedule; a thread that is blocked
when its turn comes leaves the state as it is. -/
def Shutdown.run {α β : Type} (cfg : PoolConfig α β) :
    List Thread → Shutdown α β → Shutdown α β
  | [], s => s
  | t :: ts, s => Shutdown.run cfg ts ((s.step cfg t).getD s)

/-- A worker has called `fwrite` on the output file after its `fclose`. -/
def Shutdown.wroteAfterClose {α β : Type} (s : Shutdown α β) : Bool :=
  match s.closedAt with
  | some n => decide (n < s.pool.outputFile.length)
  | none => false

/-- The schedule in which the dispatcher hands out one frame and the work loop
ends before the worker has taken the START. -/
def lastFrameSchedule : List Thread :=
  [.dispatcher, .dispatcher, .dispatcher]

/-- The worker's steps from `mq_receive` up to and including its first
`fwrite`. -/
def firstWriteSchedule : List Thread :=
  [.worker 0, .worker 0, .worker 0, .worker 0, .worker 0, .worker 0]

/-- The two ways `initializeThreads` fails in its second loop (lines 504-522):
`mq_open` or `pthread_create` fails for worker `j`. -/
inductive InitFailure where
  | mq_open (j : Nat)
  | pthread_create (j : Nat)
  deriving DecidableEq

/-- The resources held when `initializeThreads` of fftcompute returns 0 from its
second loop, in the order they were acquired: the files, what `createFFTPlans`
made, the mutex and the arrays, every queue name, and the queues and threads of
the workers before the failing one (with the queue of the failing worker when it
is `pthread_create` that failed). -/
def fftcompute.acquired (W : Nat) (fail : InitFailure) : List Resource :=
  [.inputFile, .outputFile, .plans, .inputDataArray, .outputDataArray] ++
  (List.range W).flatMap (fun i => [.inputData i, .outputData i, .plan i]) ++
  [.mutexattr, .mutex, .fft_children, .fft_mq, .ma, .thread_control, .fft_child_args] ++
  (List.range W).map Resource.mq_name ++
  (match fail with
   | .mq_open j => (List.range j).flatMap (fun i => [.queue i, .thread i])
   | .pthread_create j =>
     (List.range j).flatMap (fun i => [Resource.queue i, .thread i]) ++ [.queue j])

/-- The cleanup `calculateTask` of fftcompute runs when `initializeThreads`
returns 0 (lines 585-632), for `W` workers and the resources `held`; each
`if( ptr )` guard is the test that the array was allocated. -/
def fftcompute.initFailureCleanup (W : Nat) (held : List Resource) : List Action :=
  (if Resource.plans ∈ held then
    (List.range W).map (fun i => Action.release (.plan i)) ++ [.release .plans] else []) ++
  (if Resource.inputDataArray ∈ held then
    (List.range W).map (fun i => Action.release (.inputData i))
      ++ [.release .inputDataArray] else []) ++
  (if Resource.outputDataArray ∈ held then
    (List.range W).map (fun i => Action.release (.outputData i))
      ++ [.release .outputDataArray] else []) ++
  (if Resource.fft_children ∈ held then
    (List.range W).map Action.sendKill ++ [.release .fft_children] else []) ++
  (if Resource.fft_mq ∈ held then
    (List.range W).flatMap (fun i => [Action.release (.queue i), .mqUnlink i])
      ++ [.release .fft_mq] else []) ++
  (if Resource.ma ∈ held then [Action.release .ma] else []) ++
  (if Resource.fft_child_args ∈ held then
    (List.range W).flatMap (fun i =>
      if Resource.mq_name i ∈ held then [Action.release (.mq_name i)] else [])
      ++ [.release .fft_child_args] else [])

/-! ## Worker thread: ticket and block layout -/

/-- C3: when worker `id` of `W >= 1` workers advances the ticket from the value
`id`, the new value is `(id + 1) mod W`; it lies in `[0, W)`, and it is 0 when
`W = 1`. -/
theorem ticket_advance_mod (W id : Nat) (hW : 1 ≤ W) (hid : id < W) :
    advanceTicket (id : Int) (id : Int) (W : Int) = (((id + 1) % W : Nat) : Int) ∧
    0 ≤ advanceTicket (id : Int) (id : Int) (W : Int) ∧
    advanceTicket (id : Int) (id : Int) (W : Int) < (W : Int) ∧
    (W = 1 → advanceTicket (id : Int) (id : Int) (W : Int) = 0) := by
  unfold advanceTicket increment
  by_cases h : (id : Int) = (W : Int) - 1
  · have h1 : id + 1 = W := by omega
    have h2 : (id + 1) % W = 0 := by rw [h1]; exact Nat.mod_self W
    rw [if_pos h, h2]
    refine ⟨by push_cast; ring, by linarith, by omega, fun _ => by ring⟩
  · have h1 : id + 1 < W := by omega
    have h2 : (id + 1) % W = id + 1 := Nat.mod_eq_of_lt h1
    rw [if_neg h, h2]
    refine ⟨by push_cast; ring, by omega, by omega, fun hw => by omega⟩

/-- Witness for C3: worker 2 of 3 wraps the ticket to 0. -/
theorem ticket_advance_mod_witness :
    advanceTicket ((2 : Nat) : Int) ((2 : Nat) : Int) ((3 : Nat) : Int)
        = (((2 + 1) % 3 : Nat) : Int) ∧
    0 ≤ advanceTicket ((2 : Nat) : Int) ((2 : Nat) : Int) ((3 : Nat) : Int) ∧
    advanceTicket ((2 : Nat) : Int) ((2 : Nat) : Int) ((3 : Nat) : Int) < ((3 : Nat) : Int) ∧
    (3 = 1 → advanceTicket ((2 : Nat) : Int) ((2 : Nat) : Int) ((3 : Nat) : Int) = 0) :=
  ticket_advance_mod 3 2 (by decide) (by decide)

/-- C9 at FFT size 3: for the magnitudes `[m0, m1, m2]` the two `fwrite` calls
append `[m1, m0]`, two floats instead of three; bin 2 is never written. -/
theorem written_block_odd_size {β : Type} (m0 m1 m2 : β) :
    writtenBlock 3 [m0, m1, m2] = [m1, m0] ∧
    (writtenBlock 3 [m0, m1, m2]).length = 2 := by
  constructor <;> rfl

/-- C10: for even `N > 0` and a magnitude vector `m` of length `N`, the last
`N/2` floats of the written block followed by its first `N/2` floats are `m`. -/
theorem half_swap_round_trip {β : Type} (N : Nat) (m : List β)
    (hN : 0 < N) (heven : N % 2 = 0) (hlen : m.length = N) :
    unswap N (writtenBlock N m) = m := by
  have h2 : N / 2 + N / 2 = N := by omega
  have hd : (m.drop (N / 2)).length = N / 2 := by rw [List.length_drop]; omega
  have ht : (m.take (N / 2)).length = N / 2 := by rw [List.length_take]; omega
  have hneg : negativeFreqs N m = m.drop (N / 2) := by
    unfold negativeFreqs
    exact List.take_of_length_le (by omega)
  unfold unswap writtenBlock positiveFreqs
  rw [hneg, List.drop_left' hd, List.take_left' hd]
  exact List.take_append_drop (N / 2) m

/-- Witness for C10 at `N = 4`. -/
theorem half_swap_round_trip_witness :
    unswap 4 (writtenBlock 4 [10, 20, 30, 40]) = [10, 20, 30, 40] :=
  half_swap_round_trip 4 [10, 20, 30, 40] (by decide) (by decide) rfl

/-! ## File dispatcher: frame count and frame content on concrete inputs -/

/-- C7 on the three end-to-end inputs: fftcompute dispatches no frame for
`N=8, O=1, L=8`, two frames for `N=4, O=2, L=8`, and no frame for
`N=4, O=1, L=6`. -/
theorem fftcompute_scenario_frame_counts :
    (fftcompute.calculateTask ⟨8, 1, 1⟩ (List.replicate 8 0) (List.range 8)).map
        (fun s => s.dispatched.length) = some 0 ∧
    (fftcompute.calculateTask ⟨4, 2, 3⟩ (List.replicate 4 0) (List.range 8)).map
        (fun s => s.dispatched.length) = some 2 ∧
    (fftcompute.calculateTask ⟨4, 1, 1⟩ (List.replicate 4 0) (List.range 6)).map
        (fun s => s.dispatched.length) = some 0 := by
  refine ⟨by decide, by decide, by decide⟩

/-- C5 at `N=4, O=2` on the input samples `0..7`: the two frames fftcompute
copies to the workers are `[4,5,0,1]` and `[0,1,6,7]`, neither of them a run of
consecutive input samples. -/
theorem fftcompute_first_frames_not_contiguous :
    (fftcompute.calculateTask ⟨4, 2, 3⟩ (List.replicate 4 0) (List.range 8)).map
        (fun s => s.dispatched.map (fun d => d.frame))
      = some [[4, 5, 0, 1], [0, 1, 6, 7]] := by
  decide

/-! ## Round-robin dispatch -/

/-- The update of `child_tracker` is the successor modulo the worker count. -/
theorem nextChild_mod (W n : Nat) (hW : 1 ≤ W) :
    nextChild W (n % W) = (n + 1) % W := by
  have hlt : n % W < W := Nat.mod_lt n (by omega)
  unfold nextChild
  by_cases h : ((n % W : Nat) : Int) = (W : Int) - 1
  · have h1 : n % W + 1 = W := by omega
    have h3 : (n + 1) % W = 0 := by
      rw [Nat.add_mod]
      rcases Nat.lt_or_ge 1 W with h2 | h2
      · rw [Nat.mod_eq_of_lt h2, h1, Nat.mod_self]
      · have : W = 1 := by omega
        subst this
        exact Nat.mod_one _
    rw [if_pos h, h3]
  · have h1 : n % W + 1 < W := by omega
    have h2 : 1 < W := by omega
    rw [if_neg h, Nat.add_mod, Nat.mod_eq_of_lt h2, Nat.mod_eq_of_lt h1]

/-- Posting one more START to the current worker keeps the rotation. -/
theorem RoundRobin.post {α : Type} {W : Nat} {l : List (Dispatch α)} {c : Nat}
    (hW : 1 ≤ W) (h : RoundRobin W l c) (f : List α) :
    RoundRobin W (l ++ [{ child := c, frame := f }]) (nextChild W c) := by
  obtain ⟨hc, hl⟩ := h
  refine ⟨?_, ?_⟩
  · rw [hc, nextChild_mod W l.length hW, List.length_append, List.length_singleton]
  · intro k hk
    rw [List.length_append, List.length_singleton] at hk
    rcases Nat.lt_or_ge k l.length with h1 | h1
    · have := hl k h1
      simp only [List.get_eq_getElem] at this ⊢
      rw [List.getElem_append_left h1]
      exact this
    · have hk2 : k = l.length := by omega
      subst hk2
      simp only [List.get_eq_getElem]
      rw [List.getElem_append_right (le_refl _)]
      simp [hc]

/-- The empty log with worker 0 next is in rotation. -/
theorem RoundRobin.nil {α : Type} (W : Nat) : RoundRobin W ([] : List (Dispatch α)) 0 := by
  refine ⟨by simp, ?_⟩
  intro k hk
  exact absurd hk (by simp)

/-- A property of the dispatcher state that survives the read, the early exit
and the loop body holds when the work loop of fftcompute ends. -/
theorem fftcompute.workLoop_induct {α : Type} (cfg : Config) (P : fftcompute.Dispatcher α → Prop)
    (hread : ∀ s, P s → P { s with
        inputFile := (fftcompute.fread cfg.fft_interval_size s.inputFile).2
        input_buffer := store s.input_buffer s.head
          (fftcompute.fread cfg.fft_interval_size s.inputFile).1 })
    (hbreak : ∀ s, P s → P { s with return_code := 0 })
    (hbody : ∀ s, P s → P (fftcompute.body cfg s)) :
    ∀ fuel s s', P s → fftcompute.workLoop cfg fuel s = some s' → P s' := by
  intro fuel
  induction fuel with
  | zero => intro s s' _ h; simp [fftcompute.workLoop] at h
  | succ n ih =>
    intro s s' hP h
    unfold fftcompute.workLoop at h
    split at h
    · simp only at h
      split at h
      · simp only [Option.some.injEq] at h
        subst h
        exact hbreak _ (hread s hP)
      · exact ih _ _ (hbody _ (hread s hP)) h
    · simp only [Option.some.injEq] at h
      subst h
      exact hP

/-- The loop body of fftcompute keeps the rotation of the dispatch log. -/
theorem fftcompute.body_roundRobin {α : Type} (cfg : Config) (hW : 1 ≤ cfg.max_children)
    (s : fftcompute.Dispatcher α)
    (h : RoundRobin cfg.max_children s.dispatched s.child_tracker) :
    RoundRobin cfg.max_children (fftcompute.body cfg s).dispatched
      (fftcompute.body cfg s).child_tracker := by
  unfold fftcompute.body
  split
  · split <;> exact h
  · exact h.post hW _

/-- The loop body of usrp-sensor keeps the rotation of the dispatch log. -/
theorem usrp_sensor.recv_body_roundRobin {α : Type} (cfg : Config) (hW : 1 ≤ cfg.max_children)
    (r : usrp_sensor.Recv α) (s : usrp_sensor.Dispatcher α)
    (h : RoundRobin cfg.max_children s.dispatched s.child_tracker) :
    RoundRobin cfg.max_children (usrp_sensor.body cfg r s).dispatched
      (usrp_sensor.body cfg r s).child_tracker := by
  unfold usrp_sensor.body
  simp only
  split
  · split
    · exact h.post hW _
    · exact h
  · exact h

/-- A property of the dispatcher state that survives the loop body holds when
the work loop of usrp-sensor ends. -/
theorem usrp_sensor.recvLoop_induct {α : Type} (cfg : Config) (M : Nat)
    (P : usrp_sensor.Dispatcher α → Prop)
    (hbody : ∀ r s, P s → P (usrp_sensor.body cfg r s)) :
    ∀ recvs s, P s → P (usrp_sensor.workLoop cfg M recvs s) := by
  intro recvs
  induction recvs with
  | nil => intro s h; exact h
  | cons r rs ih =>
    intro s h
    unfold usrp_sensor.workLoop
    split
    · exact ih _ (hbody r s h)
    · exact h

/-! ## File dispatcher: frame count -/

/-- Facts about the hop of a valid configuration: it is positive and `FFTSize`
is `FFTOverlap` hops. -/
theorem Config.hop_facts (cfg : Config) (hN : 0 < cfg.FFTSize) (hO : 1 ≤ cfg.FFTOverlap)
    (hdiv : cfg.FFTOverlap ∣ cfg.FFTSize) :
    0 < cfg.fft_interval_size ∧ cfg.FFTSize = cfg.FFTOverlap * cfg.fft_interval_size := by
  unfold Config.fft_interval_size
  have h1 : cfg.FFTOverlap ≤ cfg.FFTSize := Nat.le_of_dvd hN hdiv
  exact ⟨Nat.div_pos h1 (by omega), (Nat.mul_div_cancel' hdiv).symm⟩

/-- In a buffer that is `O` hops long, the slot after hop `j` is the end of the
buffer exactly when `j` is the last hop. -/
theorem hop_end_iff (O hop j : Nat) (hhop : 0 < hop) :
    j * hop + hop = O * hop ↔ j + 1 = O := by
  constructor
  · intro h
    have h1 : (j + 1) * hop = O * hop := by rw [Nat.add_mul, Nat.one_mul]; exact h
    exact Nat.eq_of_mul_eq_mul_right hhop h1
  · intro h
    rw [← h, Nat.add_mul, Nat.one_mul]

/-- The loop body of fftcompute on a full buffer posts one START. -/
theorem fftcompute.body_full {α : Type} (cfg : Config) (s : fftcompute.Dispatcher α)
    (h : s.isFull = true) :
    (fftcompute.body cfg s).dispatched.length = s.dispatched.length + 1 ∧
    (fftcompute.body cfg s).isFull = true ∧
    (fftcompute.body cfg s).inputFile = s.inputFile ∧
    (fftcompute.body cfg s).return_code = s.return_code := by
  simp [fftcompute.body, h]

/-- The loop body of fftcompute on the read that completes the buffer only sets
`isFull`. -/
theorem fftcompute.body_fill_last {α : Type} (cfg : Config) (s : fftcompute.Dispatcher α)
    (h : s.isFull = false) (hend : s.head + cfg.fft_interval_size = cfg.FFTSize) :
    fftcompute.body cfg s = { s with isFull := true } := by
  simp [fftcompute.body, h, hend]

/-- The loop body of fftcompute while the buffer is filling only moves `head`. -/
theorem fftcompute.body_fill_more {α : Type} (cfg : Config) (s : fftcompute.Dispatcher α)
    (h : s.isFull = false) (hend : ¬ (s.head + cfg.fft_interval_size = cfg.FFTSize)) :
    fftcompute.body cfg s = { s with head := s.head + cfg.fft_interval_size } := by
  simp [fftcompute.body, h, hend]

/-- A pass of the work loop of fftcompute whose read is short ends the loop. -/
theorem fftcompute.workLoop_short {α : Type} (cfg : Config) (n : Nat)
    (s : fftcompute.Dispatcher α) (heof : s.inputFile.eof = false) (hrc : s.return_code ≠ 0)
    (hshort : s.inputFile.rest.length < cfg.fft_interval_size) :
    ∃ s', fftcompute.workLoop cfg (n + 1) s = some s' ∧ s'.dispatched = s.dispatched := by
  have hlen : (fftcompute.fread cfg.fft_interval_size s.inputFile).1.length
      ≠ cfg.fft_interval_size := by
    simp only [fftcompute.fread, List.length_take]
    omega
  unfold fftcompute.workLoop
  rw [if_pos ⟨heof, hrc⟩]
  simp only
  rw [if_pos hlen]
  exact ⟨_, rfl, rfl⟩

/-- A pass of the work loop of fftcompute whose read is full runs the body and
goes on. -/
theorem fftcompute.workLoop_full {α : Type} (cfg : Config) (n : Nat)
    (s : fftcompute.Dispatcher α) (heof : s.inputFile.eof = false) (hrc : s.return_code ≠ 0)
    (hfull : cfg.fft_interval_size ≤ s.inputFile.rest.length) :
    fftcompute.workLoop cfg (n + 1) s
      = fftcompute.workLoop cfg n (fftcompute.body cfg (fftcompute.afterRead cfg s)) := by
  have hlen : (fftcompute.fread cfg.fft_interval_size s.inputFile).1.length
      = cfg.fft_interval_size := by
    simp only [fftcompute.fread, List.length_take]
    omega
  conv_lhs => unfold fftcompute.workLoop
  rw [if_pos ⟨heof, hrc⟩]
  simp only
  rw [if_neg (not_not.mpr hlen)]
  rfl

/-- Fields of the state after a full read. -/
theorem fftcompute.afterRead_fields {α : Type} (cfg : Config) (s : fftcompute.Dispatcher α)
    (heof : s.inputFile.eof = false)
    (hfull : cfg.fft_interval_size ≤ s.inputFile.rest.length) :
    (fftcompute.afterRead cfg s).inputFile.eof = false ∧
    (fftcompute.afterRead cfg s).inputFile.rest.length
      = s.inputFile.rest.length - cfg.fft_interval_size ∧
    (fftcompute.afterRead cfg s).isFull = s.isFull ∧
    (fftcompute.afterRead cfg s).head = s.head ∧
    (fftcompute.afterRead cfg s).return_code = s.return_code ∧
    (fftcompute.afterRead cfg s).dispatched = s.dispatched := by
  refine ⟨?_, by simp [fftcompute.afterRead, fftcompute.fread], rfl, rfl, rfl, rfl⟩
  simp only [fftcompute.afterRead, fftcompute.fread, heof, Bool.false_or,
    decide_eq_false_iff_not]
  omega

/-- The loop body of fftcompute does not touch the input file. -/
theorem fftcompute.body_inputFile {α : Type} (cfg : Config) (s : fftcompute.Dispatcher α) :
    (fftcompute.body cfg s).inputFile = s.inputFile := by
  unfold fftcompute.body
  split
  · split <;> rfl
  · rfl

/-- With a positive hop the work loop of fftcompute ends within one pass more
than the number of whole hops left in the file. -/
theorem fftcompute.workLoop_terminates {α : Type} (cfg : Config)
    (hhop : 0 < cfg.fft_interval_size) :
    ∀ (fuel : Nat) (s : fftcompute.Dispatcher α),
      s.inputFile.rest.length / cfg.fft_interval_size < fuel →
      ∃ s', fftcompute.workLoop cfg fuel s = some s' := by
  intro fuel
  induction fuel with
  | zero => intro s h; exact absurd h (Nat.not_lt_zero _)
  | succ n ih =>
    intro s hfuel
    by_cases hcond : s.inputFile.eof = false ∧ s.return_code ≠ 0
    · rcases Nat.lt_or_ge s.inputFile.rest.length cfg.fft_interval_size with hshort | hfull
      · obtain ⟨s', hs', _⟩ := fftcompute.workLoop_short cfg n s hcond.1 hcond.2 hshort
        exact ⟨s', hs'⟩
      · rw [fftcompute.workLoop_full cfg n s hcond.1 hcond.2 hfull]
        apply ih
        rw [fftcompute.body_inputFile,
          (fftcompute.afterRead_fields cfg s hcond.1 hfull).2.1]
        have hdiv := Nat.div_eq_sub_div hhop hfull
        omega
    · unfold fftcompute.workLoop
      rw [if_neg hcond]
      exact ⟨s, rfl⟩

/-- C4: in both dispatchers, for every worker count `W >= 1`, the k-th
dispatched frame (from 0) goes to worker `k mod W` and `child_tracker` is below
`W`, whatever the input and wherever the loop stops; with a positive hop the
loop of fftcompute does stop on every input. -/
theorem round_robin_dispatch {α : Type} (cfg : Config) (hW : 1 ≤ cfg.max_children) :
    (∀ (mem input : List α) (fuel : Nat) (s : fftcompute.Dispatcher α),
      fftcompute.workLoop cfg fuel (fftcompute.start mem input) = some s →
      s.child_tracker < cfg.max_children ∧
      ∀ k (h : k < s.dispatched.length),
        (s.dispatched.get ⟨k, h⟩).child = k % cfg.max_children) ∧
    (0 < cfg.fft_interval_size → ∀ (mem input : List α),
      ∃ s, fftcompute.calculateTask cfg mem input = some s) ∧
    (∀ (M : Nat) (mem : List α) (recvs : List (usrp_sensor.Recv α)),
      (usrp_sensor.calculateTask cfg M mem recvs).child_tracker < cfg.max_children ∧
      ∀ k (h : k < (usrp_sensor.calculateTask cfg M mem recvs).dispatched.length),
        ((usrp_sensor.calculateTask cfg M mem recvs).dispatched.get ⟨k, h⟩).child
          = k % cfg.max_children) := by
  have hpos : 0 < cfg.max_children := by omega
  refine ⟨?_, ?_, ?_⟩
  · intro mem input fuel s hs
    have h := fftcompute.workLoop_induct cfg
      (fun s => RoundRobin cfg.max_children s.dispatched s.child_tracker)
      (fun _ h => h) (fun _ h => h) (fftcompute.body_roundRobin cfg hW)
      fuel (fftcompute.start mem input) s (RoundRobin.nil _) hs
    exact ⟨h.1 ▸ Nat.mod_lt _ hpos, h.2⟩
  · intro hhop mem input
    exact fftcompute.workLoop_terminates cfg hhop (input.length + 1)
      (fftcompute.start mem input) (Nat.lt_succ_of_le (Nat.div_le_self _ _))
  · intro M mem recvs
    have h := usrp_sensor.recvLoop_induct cfg M
      (fun s => RoundRobin cfg.max_children s.dispatched s.child_tracker)
      (fun r s => usrp_sensor.recv_body_roundRobin cfg hW r s) recvs (usrp_sensor.start mem)
      (RoundRobin.nil _)
    exact ⟨h.1 ▸ Nat.mod_lt _ hpos, h.2⟩

/-- Number of frames the work loop of fftcompute adds from a state in the middle
of a run: one per full read once the buffer is full, and while it is filling
one per full read beyond the `O - j` that complete it. -/
theorem fftcompute.workLoop_count {α : Type} (cfg : Config)
    (hhop : 0 < cfg.fft_interval_size)
    (hNO : cfg.FFTSize = cfg.FFTOverlap * cfg.fft_interval_size) :
    ∀ (fuel : Nat) (s : fftcompute.Dispatcher α),
      s.inputFile.eof = false → s.return_code ≠ 0 →
      s.inputFile.rest.length / cfg.fft_interval_size < fuel →
      (s.isFull = true → ∃ s', fftcompute.workLoop cfg fuel s = some s' ∧
        s'.dispatched.length
          = s.dispatched.length + s.inputFile.rest.length / cfg.fft_interval_size) ∧
      (∀ j, s.isFull = false → j < cfg.FFTOverlap → s.head = j * cfg.fft_interval_size →
        ∃ s', fftcompute.workLoop cfg fuel s = some s' ∧
          s'.dispatched.length = s.dispatched.length +
            (s.inputFile.rest.length / cfg.fft_interval_size - (cfg.FFTOverlap - j))) := by
  intro fuel
  induction fuel with
  | zero => intro s _ _ h; exact absurd h (Nat.not_lt_zero _)
  | succ n ih =>
    intro s heof hrc hfuel
    rcases Nat.lt_or_ge s.inputFile.rest.length cfg.fft_interval_size with hshort | hfullread
    · -- the read is short: the loop ends here
      have hdiv0 : s.inputFile.rest.length / cfg.fft_interval_size = 0 :=
        Nat.div_eq_of_lt hshort
      obtain ⟨s', hs', hl⟩ := fftcompute.workLoop_short cfg n s heof hrc hshort
      refine ⟨fun _ => ⟨s', hs', by rw [hl, hdiv0]; rfl⟩,
        fun j _ _ _ => ⟨s', hs', by rw [hl, hdiv0]; simp⟩⟩
    · -- the read is full
      obtain ⟨heof2, hrest, hfull2, hhead2, hrc2, hdisp2⟩ :=
        fftcompute.afterRead_fields cfg s heof hfullread
      have hdiv1 : s.inputFile.rest.length / cfg.fft_interval_size
          = (s.inputFile.rest.length - cfg.fft_interval_size) / cfg.fft_interval_size + 1 :=
        Nat.div_eq_sub_div hhop hfullread
      rw [fftcompute.workLoop_full cfg n s heof hrc hfullread]
      rw [hdiv1] at hfuel ⊢
      rw [← hrest] at hfuel ⊢
      rw [← hdisp2]
      have hrc1 : (fftcompute.afterRead cfg s).return_code ≠ 0 := by rw [hrc2]; exact hrc
      generalize fftcompute.afterRead cfg s = s1 at *
      generalize hc : s1.inputFile.rest.length / cfg.fft_interval_size = c at *
      refine ⟨?_, ?_⟩
      · intro hfull
        obtain ⟨hb1, hb2, hb3, hb4⟩ := fftcompute.body_full cfg s1 (hfull2.trans hfull)
        have hb := ih (fftcompute.body cfg s1) (by rw [hb3]; exact heof2)
          (by rw [hb4]; exact hrc1) (by rw [hb3, hc]; omega)
        obtain ⟨s', hs', hl⟩ := hb.1 hb2
        refine ⟨s', hs', ?_⟩
        rw [hl, hb1, hb3, hc]
        omega
      · intro j hnotfull hj hhead
        have hnf1 : s1.isFull = false := hfull2.trans hnotfull
        by_cases hlast : j + 1 = cfg.FFTOverlap
        · -- this read completes the buffer
          have hend : s1.head + cfg.fft_interval_size = cfg.FFTSize := by
            rw [hhead2, hhead, hNO]; exact (hop_end_iff _ _ _ hhop).mpr hlast
          rw [fftcompute.body_fill_last cfg s1 hnf1 hend]
          have hb := ih { s1 with isFull := true } heof2 hrc1
            (by show s1.inputFile.rest.length / _ < n; rw [hc]; omega)
          obtain ⟨s', hs', hl⟩ := hb.1 rfl
          refine ⟨s', hs', ?_⟩
          have hl2 : s'.dispatched.length
              = s1.dispatched.length + s1.inputFile.rest.length / cfg.fft_interval_size := hl
          rw [hl2, hc]
          omega
        · -- the buffer is still filling
          have hend : ¬ (s1.head + cfg.fft_interval_size = cfg.FFTSize) := by
            rw [hhead2, hhead, hNO]; exact fun h => hlast ((hop_end_iff _ _ _ hhop).mp h)
          rw [fftcompute.body_fill_more cfg s1 hnf1 hend]
          have hb := ih { s1 with head := s1.head + cfg.fft_interval_size } heof2 hrc1
            (by show s1.inputFile.rest.length / _ < n; rw [hc]; omega)
          obtain ⟨s', hs', hl⟩ := hb.2 (j + 1) hnf1 (by omega)
            (by show s1.head + _ = _; rw [hhead2, hhead, Nat.add_mul, Nat.one_mul])
          refine ⟨s', hs', ?_⟩
          have hl2 : s'.dispatched.length
              = s1.dispatched.length + (s1.inputFile.rest.length / cfg.fft_interval_size
                - (cfg.FFTOverlap - (j + 1))) := hl
          rw [hl2, hc]
          omega

/-- C8: for `N > 0` and `O >= 1` dividing `N` (hop `= N/O`), on an input of `L`
samples fftcompute dispatches exactly `L/hop - O` frames (0 when that is
negative); for `L >= N` this is `(L - N)/hop + 1` less one, and once a frame has
been dispatched every further hop of input adds exactly one frame. -/
theorem fftcompute_frame_count {α : Type} (cfg : Config) (hN : 0 < cfg.FFTSize)
    (hO : 1 ≤ cfg.FFTOverlap) (hdiv : cfg.FFTOverlap ∣ cfg.FFTSize) (mem input : List α) :
    (fftcompute.calculateTask cfg mem input).map (fun s => s.dispatched.length)
      = some (input.length / cfg.fft_interval_size - cfg.FFTOverlap) ∧
    (cfg.FFTSize ≤ input.length →
      input.length / cfg.fft_interval_size - cfg.FFTOverlap
        = ((input.length - cfg.FFTSize) / cfg.fft_interval_size + 1) - 1) ∧
    (∀ extra : List α, extra.length = cfg.fft_interval_size →
      cfg.FFTSize + cfg.fft_interval_size ≤ input.length →
      (fftcompute.calculateTask cfg mem (input ++ extra)).map (fun s => s.dispatched.length)
        = some (input.length / cfg.fft_interval_size - cfg.FFTOverlap + 1)) := by
  obtain ⟨hhop, hNO⟩ := cfg.hop_facts hN hO hdiv
  have hcount : ∀ inp : List α,
      (fftcompute.calculateTask cfg mem inp).map (fun s => s.dispatched.length)
        = some (inp.length / cfg.fft_interval_size - cfg.FFTOverlap) := by
    intro inp
    have hfuel : inp.length / cfg.fft_interval_size < inp.length + 1 :=
      Nat.lt_succ_of_le (Nat.div_le_self _ _)
    obtain ⟨s', hs', hl⟩ := (fftcompute.workLoop_count cfg hhop hNO (inp.length + 1)
      (fftcompute.start mem inp) rfl (by simp [fftcompute.start]) hfuel).2 0 rfl (by omega)
      (by rw [Nat.zero_mul]; rfl)
    unfold fftcompute.calculateTask
    rw [hs', Option.map_some', hl]
    simp [fftcompute.start]
  refine ⟨hcount input, ?_, ?_⟩
  · intro hL
    rw [Nat.add_sub_cancel, hNO, Nat.mul_comm cfg.FFTOverlap, Nat.sub_mul_div]
    rw [← Nat.mul_comm cfg.FFTOverlap, ← hNO]
    exact hL
  · intro extra hlen hL
    rw [hcount (input ++ extra), List.length_append, hlen, Nat.add_div_right _ hhop]
    have h1 : cfg.FFTOverlap + 1 ≤ input.length / cfg.fft_interval_size := by
      rw [Nat.le_div_iff_mul_le hhop, Nat.add_mul, Nat.one_mul, ← hNO]
      exact hL
    congr 1
    omega

/-! ## Ring buffer -/

/-- Shape of one ring-buffer step on a buffer split at the write position:
`a` before it, `b` the hop being overwritten, `c` after it. -/
theorem ring_step_split {α : Type} (a b c got : List α) (N head hop : Nat)
    (ha : a.length = head) (hb : b.length = hop) (hgot : got.length = hop)
    (hN : N = head + hop + c.length) :
    store (a ++ b ++ c) head got = a ++ got ++ c ∧
    copyFrame N head (a ++ b ++ c) = b ++ c ++ a ∧
    copyFrame N (if head + hop = N then 0 else head + hop) (a ++ got ++ c)
      = c ++ a ++ got := by
  have hab : (a ++ b).length = head + got.length := by
    rw [List.length_append, ha, hb, hgot]
  have hag : (a ++ got).length = head + hop := by
    rw [List.length_append, ha, hgot]
  refine ⟨?_, ?_, ?_⟩
  · unfold store
    rw [List.drop_left' hab, List.append_assoc a b c, List.take_left' ha]
  · unfold copyFrame
    rw [List.append_assoc a b c, List.drop_left' ha, List.take_left' ha]
    congr 1
    apply List.take_of_length_le
    rw [List.length_append, hb]
    omega
  · unfold copyFrame
    by_cases hc : c.length = 0
    · have hc0 : c = [] := List.length_eq_zero.mp hc
      subst hc0
      rw [if_pos (by simp at hN; omega)]
      simp only [List.append_nil, List.drop_zero, List.take_zero, List.nil_append]
      apply List.take_of_length_le
      rw [hag]
      simp at hN
      omega
    · rw [if_neg (by omega), List.drop_left' hag, List.take_left' hag,
        List.take_of_length_le (by omega), List.append_assoc]

/-- One ring-buffer step: after `hop` new samples are stored at `head` and
`head` moves on by `hop` (wrapping at `N`), the buffer read from the new `head`
is the old reading without its first `hop` samples, followed by the new ones. -/
theorem ring_step {α : Type} (buf got : List α) (N head hop : Nat)
    (hbuf : buf.length = N) (hgot : got.length = hop)
    (hle : head + hop ≤ N) :
    (store buf head got).length = N ∧
    copyFrame N (if head + hop = N then 0 else head + hop) (store buf head got)
      = (copyFrame N head buf).drop hop ++ got := by
  have ha : (buf.take head).length = head := by rw [List.length_take]; omega
  have hb : ((buf.drop head).take hop).length = hop := by
    rw [List.length_take, List.length_drop]; omega
  have hsplit : buf.take head ++ (buf.drop head).take hop ++ buf.drop (head + hop) = buf := by
    rw [List.append_assoc, ← List.drop_drop, List.take_append_drop, List.take_append_drop]
  have hc : (buf.drop (head + hop)).length = N - (head + hop) := by
    rw [List.length_drop, hbuf]
  obtain ⟨h1, h2, h3⟩ := ring_step_split (buf.take head) ((buf.drop head).take hop)
    (buf.drop (head + hop)) got N head hop ha hb hgot (by rw [hc]; omega)
  rw [hsplit] at h1 h2
  rw [h1, h2, h3]
  constructor
  · rw [List.length_append, List.length_append, ha, hgot, hc]
    omega
  · rw [List.append_assoc (List.take hop (List.drop head buf)), List.drop_left' hb,
      List.append_assoc]

/-! ## SDR dispatcher: frame content -/

/-- The fields of the dispatcher state after a pass of the usrp-sensor loop
whose `recv` delivered a full hop without error. -/
theorem usrp_sensor.body_good {α : Type} (cfg : Config) (r : usrp_sensor.Recv α)
    (s : usrp_sensor.Dispatcher α) (hlen : r.samples.length = cfg.fft_interval_size)
    (herr : r.error_code = .ERROR_CODE_NONE) :
    (usrp_sensor.body cfg r s).input_buffer = store s.input_buffer s.head r.samples ∧
    (usrp_sensor.body cfg r s).head
      = (if s.head + cfg.fft_interval_size = cfg.FFTSize then 0
         else s.head + cfg.fft_interval_size) ∧
    (usrp_sensor.body cfg r s).samples_recorded
      = s.samples_recorded + cfg.fft_interval_size ∧
    (usrp_sensor.body cfg r s).isFull
      = (s.isFull || decide (s.head + cfg.fft_interval_size = cfg.FFTSize)) ∧
    (usrp_sensor.body cfg r s).return_code = s.return_code ∧
    (usrp_sensor.body cfg r s).dispatched
      = (if (s.isFull || decide (s.head + cfg.fft_interval_size = cfg.FFTSize)) = true then
          s.dispatched ++ [{ child := s.child_tracker,
                             frame := copyFrame cfg.FFTSize
                               (if s.head + cfg.fft_interval_size = cfg.FFTSize then 0
                                else s.head + cfg.fft_interval_size)
                               (store s.input_buffer s.head r.samples) }]
         else s.dispatched) := by
  unfold usrp_sensor.body
  simp only [hlen, herr, usrp_sensor.checkError, if_true]
  split <;> simp_all

/-- Reading the last `N` samples: with `N` slots of initial content in front of
a stream, dropping `n >= N` samples leaves the `N` stream samples before position
`n`. -/
theorem drop_initial_content {α : Type} (mem S : List α) (N n : Nat) (hmem : mem.length = N)
    (hn : N ≤ n) :
    (mem ++ S.take n).drop n = (S.drop (n - N)).take N := by
  rw [List.drop_append_eq_append_drop, List.drop_of_length_le (by omega), List.nil_append,
    hmem, List.drop_take]
  congr 1
  omega

/-- Dropping one more hop from the initial content followed by the stream read
so far, then appending the hop just received. -/
theorem drop_hop_append {α : Type} (mem S got : List α) (N n hop : Nat) (hmem : mem.length = N)
    (hhopN : hop ≤ N) (hn : n ≤ S.length) (hnext : S.take (n + hop) = S.take n ++ got) :
    ((mem ++ S.take n).drop n).drop hop ++ got = (mem ++ S.take (n + hop)).drop (n + hop) := by
  have hlen : n + hop ≤ (mem ++ S.take n).length := by
    rw [List.length_append, List.length_take, hmem]
    omega
  rw [hnext, List.drop_drop, ← List.append_assoc, List.drop_append_of_le_length hlen]

/-- A pass of the usrp-sensor loop with a full, error-free `recv` takes the
state for `j` hops to the state for `j + 1` hops. -/
theorem usrp_sensor.body_inv {α : Type} (cfg : Config) (hhop : 0 < cfg.fft_interval_size)
    (hNO : cfg.FFTSize = cfg.FFTOverlap * cfg.fft_interval_size)
    (mem S : List α) (hmem : mem.length = cfg.FFTSize) (j : Nat)
    (r : usrp_sensor.Recv α) (s : usrp_sensor.Dispatcher α)
    (h : usrp_sensor.Inv cfg mem S j s)
    (hlen : r.samples.length = cfg.fft_interval_size)
    (herr : r.error_code = .ERROR_CODE_NONE)
    (hnext : S.take (j * cfg.fft_interval_size + cfg.fft_interval_size)
      = S.take (j * cfg.fft_interval_size) ++ r.samples)
    (hin : j * cfg.fft_interval_size + cfg.fft_interval_size ≤ S.length) :
    usrp_sensor.Inv cfg mem S (j + 1) (usrp_sensor.body cfg r s) := by
  obtain ⟨hb1, hb2, hb3, hb4, _, hb6⟩ := usrp_sensor.body_good cfg r s hlen herr
  obtain ⟨i, hi, hhead⟩ := h.head_slot
  have hj1 : (j + 1) * cfg.fft_interval_size
      = j * cfg.fft_interval_size + cfg.fft_interval_size := by
    rw [Nat.add_mul, Nat.one_mul]
  have hle : s.head + cfg.fft_interval_size ≤ cfg.FFTSize := by
    rw [hhead, hNO, ← Nat.succ_mul]
    exact Nat.mul_le_mul_right _ hi
  have hhopN : cfg.fft_interval_size ≤ cfg.FFTSize := by
    rw [hNO]; exact Nat.le_mul_of_pos_left _ (by omega)
  obtain ⟨hr1, hr2⟩ := ring_step s.input_buffer r.samples cfg.FFTSize s.head
    cfg.fft_interval_size h.buf_len hlen hle
  have hring : copyFrame cfg.FFTSize
      (if s.head + cfg.fft_interval_size = cfg.FFTSize then 0
       else s.head + cfg.fft_interval_size) (store s.input_buffer s.head r.samples)
      = (mem ++ S.take ((j + 1) * cfg.fft_interval_size)).drop
          ((j + 1) * cfg.fft_interval_size) := by
    rw [hr2, h.ring, hj1]
    exact drop_hop_append mem S r.samples cfg.FFTSize _ _ hmem hhopN h.in_stream hnext
  have hslot : ∃ i', i' < cfg.FFTOverlap ∧
      (if s.head + cfg.fft_interval_size = cfg.FFTSize then 0
       else s.head + cfg.fft_interval_size) = i' * cfg.fft_interval_size := by
    by_cases hend : s.head + cfg.fft_interval_size = cfg.FFTSize
    · exact ⟨0, by omega, by rw [if_pos hend, Nat.zero_mul]⟩
    · refine ⟨i + 1, ?_, by rw [if_neg hend, hhead, Nat.add_mul, Nat.one_mul]⟩
      rw [hhead, hNO] at hend
      have := mt (hop_end_iff cfg.FFTOverlap _ i hhop).mpr hend
      omega
  have hflag : (s.isFull || decide (s.head + cfg.fft_interval_size = cfg.FFTSize)) = true
      ↔ cfg.FFTOverlap ≤ j + 1 := by
    cases hf : s.isFull with
    | true => simpa using Nat.le_succ_of_le (h.full hf)
    | false =>
      obtain ⟨hh, hjO⟩ := h.filling hf
      simp only [Bool.false_or, decide_eq_true_eq]
      rw [hh, hNO, hop_end_iff _ _ _ hhop]
      omega
  by_cases hO : cfg.FFTOverlap ≤ j + 1
  · -- a frame is dispatched in this pass
    have hf := hflag.mpr hO
    rw [if_pos hf] at hb6
    refine ⟨by rw [hb1]; exact hr1, by rw [hb3, h.recorded, hj1], by rw [hj1]; exact hin,
      by rw [hb1, hb2]; exact hring, ?_, fun _ => hO, by rw [hb2]; exact hslot, ?_, ?_⟩
    · intro hnf
      rw [hb4, hf] at hnf
      exact absurd hnf (by decide)
    · rw [hb6, List.length_append, List.length_singleton, h.count]
      omega
    · intro k d hk
      rw [hb6] at hk
      rcases Nat.lt_or_ge k s.dispatched.length with hlt | hge
      · rw [List.getElem?_append_left hlt] at hk
        exact h.frames k d hk
      · rw [List.getElem?_append_right hge] at hk
        have hk0 : k - s.dispatched.length = 0 := by
          by_contra hne
          rw [List.getElem?_eq_none (by simp; omega)] at hk
          exact Option.noConfusion hk
        rw [hk0] at hk
        simp only [List.getElem?_cons_zero, Option.some.injEq] at hk
        have hkeq : k = j + 1 - cfg.FFTOverlap := by rw [← h.count]; omega
        rw [← hk, hring, drop_initial_content mem S cfg.FFTSize _ hmem
          (by rw [hNO]; exact Nat.mul_le_mul_right _ hO)]
        rw [hkeq, Nat.sub_mul, ← hNO]
  · -- the buffer is still filling
    have hf : (s.isFull || decide (s.head + cfg.fft_interval_size = cfg.FFTSize)) = false := by
      cases hv : (s.isFull || decide (s.head + cfg.fft_interval_size = cfg.FFTSize)) with
      | true => exact absurd (hflag.mp hv) hO
      | false => rfl
    rw [hf] at hb6 hb4
    rw [if_neg (by decide)] at hb6
    have hsf : s.isFull = false := by
      cases hv : s.isFull with
      | true => rw [hv] at hf; exact absurd hf (by simp)
      | false => rfl
    obtain ⟨hh, _⟩ := h.filling hsf
    have hend : ¬ (s.head + cfg.fft_interval_size = cfg.FFTSize) := by
      rw [hsf] at hf
      simpa using hf
    refine ⟨by rw [hb1]; exact hr1, by rw [hb3, h.recorded, hj1], by rw [hj1]; exact hin,
      by rw [hb1, hb2]; exact hring, ?_, ?_, by rw [hb2]; exact hslot, ?_, ?_⟩
    · intro _
      rw [hb2, if_neg hend, hh, hj1]
      exact ⟨rfl, by omega⟩
    · intro hfl
      rw [hb4] at hfl
      exact absurd hfl (by decide)
    · rw [hb6, h.count]
      omega
    · intro k d hk
      rw [hb6] at hk
      exact h.frames k d hk

/-- The start state of usrp-sensor is the state for 0 hops. -/
theorem usrp_sensor.start_inv {α : Type} (cfg : Config) (hO : 1 ≤ cfg.FFTOverlap)
    (mem S : List α) (hmem : mem.length = cfg.FFTSize) :
    usrp_sensor.Inv cfg mem S 0 (usrp_sensor.start mem) := by
  refine ⟨hmem, by simp [usrp_sensor.start], by simp, ?_, fun _ => ⟨by simp [usrp_sensor.start], by omega⟩,
    fun h => by simp [usrp_sensor.start] at h, ⟨0, by omega, by simp [usrp_sensor.start]⟩,
    by simp [usrp_sensor.start]; omega, fun k d h => by simp [usrp_sensor.start] at h⟩
  simp only [usrp_sensor.start, copyFrame, Nat.zero_mul, List.drop_zero, List.take_zero,
    List.append_nil, Nat.sub_zero]
  exact List.take_of_length_le (by omega)

/-- Over `recv` calls that all deliver a full hop without error, the work loop
of usrp-sensor ends in the state for some number of hops of the stream. -/
theorem usrp_sensor.workLoop_inv {α : Type} (cfg : Config) (hhop : 0 < cfg.fft_interval_size)
    (hNO : cfg.FFTSize = cfg.FFTOverlap * cfg.fft_interval_size)
    (mem S : List α) (hmem : mem.length = cfg.FFTSize) (M : Nat) :
    ∀ (recvs : List (usrp_sensor.Recv α)) (j : Nat) (s : usrp_sensor.Dispatcher α),
      usrp_sensor.Inv cfg mem S j s →
      S.drop (j * cfg.fft_interval_size) = usrp_sensor.stream recvs →
      (∀ r ∈ recvs, r.samples.length = cfg.fft_interval_size ∧
        r.error_code = .ERROR_CODE_NONE) →
      ∃ j', usrp_sensor.Inv cfg mem S j' (usrp_sensor.workLoop cfg M recvs s) := by
  intro recvs
  induction recvs with
  | nil => intro j s h _ _; exact ⟨j, h⟩
  | cons r rs ih =>
    intro j s h hS hall
    unfold usrp_sensor.workLoop
    split
    · obtain ⟨hlen, herr⟩ := hall r (List.mem_cons_self _ _)
      have hS2 : S.drop (j * cfg.fft_interval_size) = r.samples ++ usrp_sensor.stream rs := by
        rw [hS]; simp [usrp_sensor.stream]
      have hnext : S.take (j * cfg.fft_interval_size + cfg.fft_interval_size)
          = S.take (j * cfg.fft_interval_size) ++ r.samples := by
        rw [List.take_add, hS2, List.take_left' hlen]
      have hin : j * cfg.fft_interval_size + cfg.fft_interval_size ≤ S.length := by
        have h1 := congrArg List.length hS2
        rw [List.length_drop, List.length_append, hlen] at h1
        have h2 := h.in_stream
        omega
      refine ih (j + 1) _ (usrp_sensor.body_inv cfg hhop hNO mem S hmem j r s h hlen herr
        hnext hin) ?_ (fun r' hr' => hall r' (List.mem_cons_of_mem _ hr'))
      rw [Nat.add_mul, Nat.one_mul, ← List.drop_drop, hS2, List.drop_left' hlen]
    · exact ⟨j, h⟩

/-- C6: in usrp-sensor, for `N > 0` and `O >= 1` dividing `N` (hop `= N/O`), when
every `recv` returns exactly hop samples without error, the k-th dispatched
frame (from 0) is the received samples at positions `[k*hop, k*hop + N)` in
order, and once the buffer is full the ring read from `head` is the last `N`
samples received, oldest first. -/
theorem sensor_frame_content {α : Type} (cfg : Config) (hN : 0 < cfg.FFTSize)
    (hO : 1 ≤ cfg.FFTOverlap) (hdiv : cfg.FFTOverlap ∣ cfg.FFTSize)
    (maximum_samples : Nat) (mem : List α) (hmem : mem.length = cfg.FFTSize)
    (recvs : List (usrp_sensor.Recv α))
    (hall : ∀ r ∈ recvs, r.samples.length = cfg.fft_interval_size ∧
      r.error_code = .ERROR_CODE_NONE) :
    (∀ k (h : k < (usrp_sensor.calculateTask cfg maximum_samples mem recvs).dispatched.length),
      k * cfg.fft_interval_size + cfg.FFTSize ≤ (usrp_sensor.stream recvs).length ∧
      ((usrp_sensor.calculateTask cfg maximum_samples mem recvs).dispatched.get ⟨k, h⟩).frame
        = ((usrp_sensor.stream recvs).drop (k * cfg.fft_interval_size)).take cfg.FFTSize) ∧
    ((usrp_sensor.calculateTask cfg maximum_samples mem recvs).isFull = true →
      copyFrame cfg.FFTSize (usrp_sensor.calculateTask cfg maximum_samples mem recvs).head
          (usrp_sensor.calculateTask cfg maximum_samples mem recvs).input_buffer
        = ((usrp_sensor.stream recvs).take
            (usrp_sensor.calculateTask cfg maximum_samples mem recvs).samples_recorded).drop
            ((usrp_sensor.calculateTask cfg maximum_samples mem recvs).samples_recorded
              - cfg.FFTSize)) := by
  obtain ⟨hhop, hNO⟩ := cfg.hop_facts hN hO hdiv
  obtain ⟨j, hj⟩ := usrp_sensor.workLoop_inv cfg hhop hNO mem (usrp_sensor.stream recvs) hmem
    maximum_samples recvs 0 (usrp_sensor.start mem)
    (usrp_sensor.start_inv cfg hO mem _ hmem) (by rw [Nat.zero_mul]; rfl) hall
  change usrp_sensor.Inv cfg mem (usrp_sensor.stream recvs) j
    (usrp_sensor.calculateTask cfg maximum_samples mem recvs) at hj
  generalize usrp_sensor.calculateTask cfg maximum_samples mem recvs = s at hj ⊢
  constructor
  · intro k h
    constructor
    · have hc := hj.count
      have h1 : k + cfg.FFTOverlap ≤ j := by omega
      have h2 := Nat.mul_le_mul_right cfg.fft_interval_size h1
      rw [Nat.add_mul, ← hNO] at h2
      exact h2.trans hj.in_stream
    · exact hj.frames k _ (List.getElem?_eq_getElem h)
  · intro hfull
    have hOj := hj.full hfull
    have hNj : cfg.FFTSize ≤ j * cfg.fft_interval_size := by
      rw [hNO]; exact Nat.mul_le_mul_right _ hOj
    rw [hj.ring, hj.recorded, List.drop_append_eq_append_drop,
      List.drop_of_length_le (by omega), List.nil_append, hmem]

/-- Witness for C4: with 3 workers, N = 4 and O = 2, three hops from the radio
leave `child_tracker` below 3 and send dispatch 1 to worker 1. -/
theorem round_robin_dispatch_witness :
    1 ≤ (Config.mk 4 2 3).max_children ∧
    (usrp_sensor.calculateTask (Config.mk 4 2 3) 100 [0, 0, 0, 0]
        [⟨[1, 2], .ERROR_CODE_NONE⟩, ⟨[3, 4], .ERROR_CODE_NONE⟩,
         ⟨[5, 6], .ERROR_CODE_NONE⟩]).child_tracker < (Config.mk 4 2 3).max_children ∧
    ((usrp_sensor.calculateTask (Config.mk 4 2 3) 100 [0, 0, 0, 0]
        [⟨[1, 2], .ERROR_CODE_NONE⟩, ⟨[3, 4], .ERROR_CODE_NONE⟩,
         ⟨[5, 6], .ERROR_CODE_NONE⟩]).dispatched.get ⟨1, by decide⟩).child
      = 1 % (Config.mk 4 2 3).max_children :=
  ⟨by decide,
   ((round_robin_dispatch (Config.mk 4 2 3) (by decide)).2.2 100 [0, 0, 0, 0]
      [⟨[1, 2], .ERROR_CODE_NONE⟩, ⟨[3, 4], .ERROR_CODE_NONE⟩,
       ⟨[5, 6], .ERROR_CODE_NONE⟩]).1,
   ((round_robin_dispatch (Config.mk 4 2 3) (by decide)).2.2 100 [0, 0, 0, 0]
      [⟨[1, 2], .ERROR_CODE_NONE⟩, ⟨[3, 4], .ERROR_CODE_NONE⟩,
       ⟨[5, 6], .ERROR_CODE_NONE⟩]).2 1 (by decide)⟩

/-- Witness for C8: with N = 4 and O = 2 (hop 2), the 13 samples `0..12` give
`13/2 - 2 = 4` frames. -/
theorem fftcompute_frame_count_witness :
    0 < (Config.mk 4 2 3).FFTSize ∧ 1 ≤ (Config.mk 4 2 3).FFTOverlap ∧
    (Config.mk 4 2 3).FFTOverlap ∣ (Config.mk 4 2 3).FFTSize ∧
    (fftcompute.calculateTask (Config.mk 4 2 3) [0, 0, 0, 0] (List.range 13)).map
        (fun s => s.dispatched.length)
      = some ((List.range 13).length / (Config.mk 4 2 3).fft_interval_size
          - (Config.mk 4 2 3).FFTOverlap) :=
  ⟨by decide, by decide, by decide,
   (fftcompute_frame_count (Config.mk 4 2 3) (by decide) (by decide) (by decide)
      [0, 0, 0, 0] (List.range 13)).1⟩

/-- Witness for C6: with N = 4 and O = 2 (hop 2), after three hops `1..6` from
the radio the frame of index 1 is the stream from position 2, four samples
long. -/
theorem sensor_frame_content_witness :
    0 < (Config.mk 4 2 3).FFTSize ∧ 1 ≤ (Config.mk 4 2 3).FFTOverlap ∧
    (Config.mk 4 2 3).FFTOverlap ∣ (Config.mk 4 2 3).FFTSize ∧
    ([0, 0, 0, 0] : List Nat).length = (Config.mk 4 2 3).FFTSize ∧
    (1 * (Config.mk 4 2 3).fft_interval_size + (Config.mk 4 2 3).FFTSize
        ≤ (usrp_sensor.stream
            [(⟨[1, 2], .ERROR_CODE_NONE⟩ : usrp_sensor.Recv Nat), ⟨[3, 4], .ERROR_CODE_NONE⟩,
             ⟨[5, 6], .ERROR_CODE_NONE⟩]).length ∧
      ((usrp_sensor.calculateTask (Config.mk 4 2 3) 100 [0, 0, 0, 0]
        [⟨[1, 2], .ERROR_CODE_NONE⟩, ⟨[3, 4], .ERROR_CODE_NONE⟩,
         ⟨[5, 6], .ERROR_CODE_NONE⟩]).dispatched.get ⟨1, by decide⟩).frame
      = ((usrp_sensor.stream
            [(⟨[1, 2], .ERROR_CODE_NONE⟩ : usrp_sensor.Recv Nat), ⟨[3, 4], .ERROR_CODE_NONE⟩,
             ⟨[5, 6], .ERROR_CODE_NONE⟩]).drop
          (1 * (Config.mk 4 2 3).fft_interval_size)).take (Config.mk 4 2 3).FFTSize) :=
  ⟨by decide, by decide, by decide, rfl,
   (sensor_frame_content (Config.mk 4 2 3) (by decide) (by decide) (by decide) 100
      [0, 0, 0, 0] rfl
      [⟨[1, 2], .ERROR_CODE_NONE⟩, ⟨[3, 4], .ERROR_CODE_NONE⟩, ⟨[5, 6], .ERROR_CODE_NONE⟩]
      (by decide)).1 1 (by decide)⟩

/-! ## Ticket protocol -/

/-- From the value `id`, worker `id` of `W` takes the ticket to `(id + 1) mod W`. -/
theorem advanceTicket_succ_mod (W id : Nat) (hid : id < W) :
    advanceTicket (id : Int) (id : Int) (W : Int) = (((id + 1) % W : Nat) : Int) := by
  unfold advanceTicket increment
  by_cases h : (id : Int) = (W : Int) - 1
  · have h1 : id + 1 = W := by omega
    have h2 : (id + 1) % W = 0 := by rw [h1]; exact Nat.mod_self W
    rw [if_pos h, h2]
    push_cast; ring
  · have h1 : id + 1 < W := by omega
    rw [if_neg h, Nat.mod_eq_of_lt h1]
    push_cast; ring

/-- A program point with writes ahead of the ticket is past the spin. -/
theorem WorkerPc.inCritical_of_ahead (p : WorkerPc) (h : p.ahead ≠ 0) : p.inCritical = true := by
  cases p <;> simp_all [WorkerPc.ahead, WorkerPc.inCritical]

/-- Steps that leave the ticket and the output alone and move at most worker
`i`, without changing its count of writes and without taking it past the spin
unless the ticket is `i`, keep the ticket invariant. -/
theorem Pool.TicketInv.of_local {α β : Type} {cfg : PoolConfig α β} {s s' : Pool α β}
    (h : s.TicketInv cfg) (i : Nat)
    (htc : s'.thread_control = s.thread_control) (hout : s'.outputFile = s.outputFile)
    (hpc : ∀ k, k ≠ i → (s'.fft_child_args k).pc = (s.fft_child_args k).pc)
    (hahead : (s'.fft_child_args i).pc.ahead = (s.fft_child_args i).pc.ahead)
    (hcrit : (s'.fft_child_args i).pc.inCritical = true →
      (s.fft_child_args i).pc.inCritical = true ∨ s.thread_control = (i : Int)) :
    s'.TicketInv cfg := by
  obtain ⟨t, q, ht, htk, hq, hlen, hhold, hwr⟩ := h
  refine ⟨t, q, ht, htc.trans htk, hq, ?_, ?_, ?_⟩
  · rw [hout, hlen]
    by_cases hti : t = i
    · rw [hti, hahead]
    · rw [hpc t hti]
  · intro k hk hc
    by_cases hki : k = i
    · subst hki
      rcases hcrit hc with h1 | h1
      · exact hhold k hk h1
      · rw [htk] at h1
        exact (Int.ofNat_inj.mp h1).symm
    · rw [hpc k hki] at hc
      exact hhold k hk hc
  · rw [hout]; exact hwr

/-- An `fwrite` by a worker that has made `a < 2` writes since the spin keeps
the ticket invariant. -/
theorem Pool.TicketInv.of_write {α β : Type} {cfg : PoolConfig α β} {s s' : Pool α β}
    (h : s.TicketInv cfg) (i : Nat) (hi : i < cfg.max_children) (floats : List β)
    (hcr : (s.fft_child_args i).pc.inCritical = true)
    (ha : (s.fft_child_args i).pc.ahead < 2)
    (htc : s'.thread_control = s.thread_control)
    (hout : s'.outputFile = s.outputFile ++ [{ writer := i, floats := floats }])
    (hpc : ∀ k, k ≠ i → (s'.fft_child_args k).pc = (s.fft_child_args k).pc)
    (hahead : (s'.fft_child_args i).pc.ahead = (s.fft_child_args i).pc.ahead + 1) :
    s'.TicketInv cfg := by
  obtain ⟨t, q, ht, htk, hq, hlen, hhold, hwr⟩ := h
  have hit : i = t := hhold i hi hcr
  subst hit
  refine ⟨i, q, ht, htc.trans htk, hq, ?_, ?_, ?_⟩
  · rw [hout, List.length_append, List.length_singleton, hlen, hahead]
    omega
  · intro k hk hc
    by_cases hki : k = i
    · exact hki
    · rw [hpc k hki] at hc
      exact hhold k hk hc
  · intro k c hk
    rw [hout] at hk
    rcases Nat.lt_or_ge k s.outputFile.length with hlt | hge
    · rw [List.getElem?_append_left hlt] at hk
      exact hwr k c hk
    · rw [List.getElem?_append_right hge] at hk
      have hk0 : k - s.outputFile.length = 0 := by
        by_contra hne
        rw [List.getElem?_eq_none (by simp; omega)] at hk
        exact Option.noConfusion hk
      rw [hk0] at hk
      simp only [List.getElem?_cons_zero, Option.some.injEq] at hk
      have hkq : k / 2 = q := by omega
      rw [← hk, hkq, hq]

/-- Advancing the ticket after the second `fwrite` keeps the ticket invariant. -/
theorem Pool.TicketInv.of_advance {α β : Type} {cfg : PoolConfig α β} {s s' : Pool α β}
    (h : s.TicketInv cfg) (i : Nat) (hi : i < cfg.max_children)
    (hpci : (s.fft_child_args i).pc = .advance)
    (htc : s'.thread_control = advanceTicket s.thread_control i cfg.max_children)
    (hout : s'.outputFile = s.outputFile)
    (hpc : ∀ k, k ≠ i → (s'.fft_child_args k).pc = (s.fft_child_args k).pc)
    (hpci' : (s'.fft_child_args i).pc = .unlock) :
    s'.TicketInv cfg := by
  obtain ⟨t, q, ht, htk, hq, hlen, hhold, hwr⟩ := h
  have hit : i = t := hhold i hi (by rw [hpci]; rfl)
  subst hit
  have hnone : ∀ k, k < cfg.max_children → (s'.fft_child_args k).pc.inCritical = true → False := by
    intro k hk hc
    by_cases hki : k = i
    · rw [hki, hpci'] at hc
      exact absurd hc (by decide)
    · rw [hpc k hki] at hc
      exact hki (hhold k hk hc)
  refine ⟨(i + 1) % cfg.max_children, q + 1, Nat.mod_lt _ (by omega), ?_, ?_, ?_, ?_, ?_⟩
  · rw [htc, htk]
    exact advanceTicket_succ_mod cfg.max_children i ht
  · have hm := Nat.mod_add_mod q cfg.max_children 1
    rw [hq] at hm
    exact hm.symm
  · rw [hout, hlen, hpci]
    have h0 : (s'.fft_child_args ((i + 1) % cfg.max_children)).pc.ahead = 0 := by
      by_contra hne
      exact hnone _ (Nat.mod_lt _ (by omega)) (WorkerPc.inCritical_of_ahead _ hne)
    rw [h0]
    simp only [WorkerPc.ahead]
    omega
  · intro k hk hc
    exact absurd hc (fun hc => hnone k hk hc)
  · rw [hout]; exact hwr

/-- Replacing the data of worker `i` changes the program point of worker `i`
only. -/
theorem Pool.setChild_pc {α β : Type} (s : Pool α β) (i : Nat) (d : fft_thread_data α β)
    (k : Nat) :
    ((s.setChild i d).fft_child_args k).pc
      = if k = i then d.pc else (s.fft_child_args k).pc := by
  unfold Pool.setChild
  by_cases h : k = i
  · subst h; simp
  · simp [Function.update_noteq h, h]

/-- A dispatcher step keeps the ticket invariant: it changes no program point of
a worker, nor the ticket, nor the output. -/
theorem Pool.TicketInv.dispatcher_step {α β : Type} {cfg : PoolConfig α β} {s s' : Pool α β}
    (h : s.TicketInv cfg) (hstep : s.stepDispatcher cfg = some s') : s'.TicketInv cfg := by
  unfold Pool.stepDispatcher at hstep
  split at hstep
  · exact Option.noConfusion hstep
  · split at hstep
    · dsimp only at hstep
      split at hstep <;> simp only [Option.some.injEq] at hstep <;> subst hstep
      · exact h
      · exact h.of_local 0 rfl rfl (fun _ _ => rfl) rfl (fun hc => Or.inl hc)
    · simp only [Option.some.injEq] at hstep
      subst hstep
      refine h.of_local s.child_tracker rfl rfl ?_ ?_ ?_
      · intro k hk
        simp [Pool.setChild_pc, hk]
      · simp [Pool.setChild_pc]
      · intro hc
        left
        simpa [Pool.setChild_pc] using hc
    · dsimp only at hstep
      split at hstep
      · exact Option.noConfusion hstep
      · simp only [Option.some.injEq] at hstep
        subst hstep
        refine h.of_local s.child_tracker rfl rfl ?_ ?_ ?_
        · intro k hk
          simp [Pool.setChild_pc, hk]
        · simp [Pool.setChild_pc]
        · intro hc
          left
          simpa [Pool.setChild_pc] using hc

/-- A worker step keeps the ticket invariant. -/
theorem Pool.TicketInv.worker_step {α β : Type} {cfg : PoolConfig α β} {s s' : Pool α β}
    (h : s.TicketInv cfg) (i : Nat) (hi : i < cfg.max_children)
    (hstep : s.stepWorker cfg i = some s') : s'.TicketInv cfg := by
  unfold Pool.stepWorker at hstep
  dsimp only at hstep
  split at hstep
  · -- receive
    rename_i hpc
    split at hstep
    · exact Option.noConfusion hstep
    · split at hstep
      · simp only [Option.some.injEq] at hstep
        subst hstep
        refine h.of_local i rfl rfl (fun k hk => by simp [Pool.setChild_pc, hk])
          (by simp [Pool.setChild_pc, hpc, WorkerPc.ahead])
          (fun hc => by simp [Pool.setChild_pc, WorkerPc.inCritical] at hc)
      · split at hstep <;> simp only [Option.some.injEq] at hstep <;> subst hstep
        · refine h.of_local i rfl rfl (fun k hk => by simp [Pool.setChild_pc, hk])
            (by simp [Pool.setChild_pc, hpc, WorkerPc.ahead])
            (fun hc => by simp [Pool.setChild_pc, WorkerPc.inCritical] at hc)
        · refine h.of_local i rfl rfl (fun k hk => by simp [Pool.setChild_pc, hk])
            (by simp [Pool.setChild_pc, hpc, WorkerPc.ahead])
            (fun hc => by simp [Pool.setChild_pc, hpc, WorkerPc.inCritical] at hc)
  · -- setRunning
    rename_i hpc
    simp only [Option.some.injEq] at hstep
    subst hstep
    refine h.of_local i rfl rfl (fun k hk => by simp [Pool.setChild_pc, hk])
      (by simp [Pool.setChild_pc, hpc, WorkerPc.ahead])
      (fun hc => by simp [Pool.setChild_pc, WorkerPc.inCritical] at hc)
  · -- compute
    rename_i hpc
    simp only [Option.some.injEq] at hstep
    subst hstep
    refine h.of_local i rfl rfl (fun k hk => by simp [Pool.setChild_pc, hk])
      (by simp [Pool.setChild_pc, hpc, WorkerPc.ahead])
      (fun hc => by simp [Pool.setChild_pc, WorkerPc.inCritical] at hc)
  · -- waitTurn
    rename_i hpc
    split at hstep <;> simp only [Option.some.injEq] at hstep <;> subst hstep
    · exact h
    · rename_i hturn
      refine h.of_local i rfl rfl (fun k hk => by simp [Pool.setChild_pc, hk])
        (by simp [Pool.setChild_pc, hpc, WorkerPc.ahead])
        (fun _ => Or.inr (not_not.mp hturn))
  · -- lock
    rename_i hpc
    split at hstep
    · exact Option.noConfusion hstep
    · simp only [Option.some.injEq] at hstep
      subst hstep
      refine h.of_local i rfl rfl (fun k hk => by simp [Pool.setChild_pc, hk])
        (by simp [Pool.setChild_pc, hpc, WorkerPc.ahead])
        (fun _ => Or.inl (by rw [hpc]; rfl))
  · -- writeNeg
    rename_i hpc
    simp only [Option.some.injEq] at hstep
    subst hstep
    refine h.of_write i hi _ (by rw [hpc]; rfl) (by rw [hpc]; decide) rfl rfl
      (fun k hk => by simp [Pool.setChild_pc, hk])
      (by simp [Pool.setChild_pc, hpc, WorkerPc.ahead])
  · -- writePos
    rename_i hpc
    simp only [Option.some.injEq] at hstep
    subst hstep
    refine h.of_write i hi _ (by rw [hpc]; rfl) (by rw [hpc]; decide) rfl rfl
      (fun k hk => by simp [Pool.setChild_pc, hk])
      (by simp [Pool.setChild_pc, hpc, WorkerPc.ahead])
  · -- advance
    rename_i hpc
    simp only [Option.some.injEq] at hstep
    subst hstep
    exact h.of_advance i hi hpc rfl rfl (fun k hk => by simp [Pool.setChild_pc, hk])
      (by simp [Pool.setChild_pc])
  · -- unlock
    rename_i hpc
    simp only [Option.some.injEq] at hstep
    subst hstep
    refine h.of_local i rfl rfl (fun k hk => by simp [Pool.setChild_pc, hk])
      (by simp [Pool.setChild_pc, hpc, WorkerPc.ahead])
      (fun hc => by simp [Pool.setChild_pc, WorkerPc.inCritical] at hc)
  · -- clearRunning
    rename_i hpc
    simp only [Option.some.injEq] at hstep
    subst hstep
    refine h.of_local i rfl rfl (fun k hk => by simp [Pool.setChild_pc, hk])
      (by simp [Pool.setChild_pc, hpc, WorkerPc.ahead])
      (fun hc => by simp [Pool.setChild_pc, WorkerPc.inCritical] at hc)
  · exact Option.noConfusion hstep

/-- A worker step leaves the dispatcher's bookkeeping alone. -/
theorem Pool.stepWorker_posted {α β : Type} {cfg : PoolConfig α β} {s s' : Pool α β}
    (i : Nat) (hstep : s.stepWorker cfg i = some s') :
    s'.posted = s.posted ∧ s'.child_tracker = s.child_tracker := by
  unfold Pool.stepWorker at hstep
  dsimp only at hstep
  split at hstep
  · split at hstep
    · exact Option.noConfusion hstep
    · split at hstep
      · simp only [Option.some.injEq] at hstep; subst hstep; exact ⟨rfl, rfl⟩
      · split at hstep <;> simp only [Option.some.injEq] at hstep <;> subst hstep <;>
          exact ⟨rfl, rfl⟩
  · simp only [Option.some.injEq] at hstep; subst hstep; exact ⟨rfl, rfl⟩
  · simp only [Option.some.injEq] at hstep; subst hstep; exact ⟨rfl, rfl⟩
  · split at hstep <;> simp only [Option.some.injEq] at hstep <;> subst hstep <;>
      exact ⟨rfl, rfl⟩
  · split at hstep
    · exact Option.noConfusion hstep
    · simp only [Option.some.injEq] at hstep; subst hstep; exact ⟨rfl, rfl⟩
  · simp only [Option.some.injEq] at hstep; subst hstep; exact ⟨rfl, rfl⟩
  · simp only [Option.some.injEq] at hstep; subst hstep; exact ⟨rfl, rfl⟩
  · simp only [Option.some.injEq] at hstep; subst hstep; exact ⟨rfl, rfl⟩
  · simp only [Option.some.injEq] at hstep; subst hstep; exact ⟨rfl, rfl⟩
  · simp only [Option.some.injEq] at hstep; subst hstep; exact ⟨rfl, rfl⟩
  · exact Option.noConfusion hstep

/-- A dispatcher step keeps the rotation of the posted STARTs. -/
theorem Pool.PostedInv.posted_step {α β : Type} {cfg : PoolConfig α β} {s s' : Pool α β}
    (hW : 1 ≤ cfg.max_children) (h : s.PostedInv cfg)
    (hstep : s.stepDispatcher cfg = some s') : s'.PostedInv cfg := by
  unfold Pool.stepDispatcher at hstep
  split at hstep
  · exact Option.noConfusion hstep
  · split at hstep
    · dsimp only at hstep
      split at hstep <;> simp only [Option.some.injEq] at hstep <;> subst hstep <;> exact h
    · simp only [Option.some.injEq] at hstep
      subst hstep
      exact h
    · dsimp only at hstep
      split at hstep
      · exact Option.noConfusion hstep
      · simp only [Option.some.injEq] at hstep
        subst hstep
        obtain ⟨hct, hrot⟩ := h
        refine ⟨?_, ?_⟩
        · show nextChild cfg.max_children s.child_tracker = (s.posted ++ [s.child_tracker]).length % _
          rw [hct, nextChild_mod _ _ hW, List.length_append, List.length_singleton]
        · intro k w hk
          change (s.posted ++ [s.child_tracker])[k]? = some w at hk
          rcases Nat.lt_or_ge k s.posted.length with hlt | hge
          · rw [List.getElem?_append_left hlt] at hk
            exact hrot k w hk
          · rw [List.getElem?_append_right hge] at hk
            have hk0 : k - s.posted.length = 0 := by
              by_contra hne
              rw [List.getElem?_eq_none (by simp; omega)] at hk
              exact Option.noConfusion hk
            rw [hk0] at hk
            simp only [List.getElem?_cons_zero, Option.some.injEq] at hk
            have hkl : k = s.posted.length := by omega
            rw [← hk, hct, hkl]

/-- Every step keeps both invariants. -/
theorem Pool.invariants_step {α β : Type} {cfg : PoolConfig α β} {s s' : Pool α β}
    (hW : 1 ≤ cfg.max_children) (t : Thread)
    (h : s.TicketInv cfg ∧ s.PostedInv cfg) (hstep : s.step cfg t = some s') :
    s'.TicketInv cfg ∧ s'.PostedInv cfg := by
  cases t with
  | dispatcher =>
    exact ⟨h.1.dispatcher_step hstep, h.2.posted_step hW hstep⟩
  | worker i =>
    simp only [Pool.step] at hstep
    split at hstep
    · rename_i hi
      obtain ⟨hp, hc⟩ := Pool.stepWorker_posted i hstep
      refine ⟨h.1.worker_step i hi hstep, ?_⟩
      unfold Pool.PostedInv
      rw [hp, hc]
      exact h.2
    · exact Option.noConfusion hstep

/-- Both invariants hold at the start. -/
theorem Pool.invariants_start {α β : Type} (cfg : PoolConfig α β) (hW : 1 ≤ cfg.max_children)
    (frames : List (List α)) :
    (Pool.start frames : Pool α β).TicketInv cfg ∧ (Pool.start frames : Pool α β).PostedInv cfg := by
  constructor
  · refine ⟨0, 0, by omega, rfl, Nat.zero_mod _, rfl, ?_, ?_⟩
    · intro i _ hc
      simp [Pool.start, WorkerPc.inCritical] at hc
    · intro k c hk
      simp [Pool.start] at hk
  · refine ⟨by simp [Pool.start], ?_⟩
    intro k w hk
    simp [Pool.start] at hk

/-- Both invariants hold in every reachable state. -/
theorem Pool.invariants_reachable {α β : Type} (cfg : PoolConfig α β)
    (hW : 1 ≤ cfg.max_children) (frames : List (List α)) (s : Pool α β)
    (hs : Pool.Reachable cfg frames s) : s.TicketInv cfg ∧ s.PostedInv cfg := by
  induction hs with
  | start => exact Pool.invariants_start cfg hW frames
  | step t s s' _ hstep ih => exact Pool.invariants_step hW t ih hstep

/-- Running a schedule from a reachable state ends in a reachable state. -/
theorem Pool.Reachable.run {α β : Type} (cfg : PoolConfig α β) (frames : List (List α)) :
    ∀ (sched : List Thread) (s : Pool α β), Pool.Reachable cfg frames s →
      Pool.Reachable cfg frames (Pool.run cfg sched s) := by
  intro sched
  induction sched with
  | nil => intro s hs; exact hs
  | cons t ts ih =>
    intro s hs
    unfold Pool.run
    apply ih
    cases hstep : s.step cfg t with
    | none => exact hs
    | some s' => exact Pool.Reachable.step t s s' hs hstep

/-- C2: with `W >= 1` workers and the ticket starting at 0, in every reachable
state a worker at one of its two `fwrite` calls holds the ticket
(`*next_thread == my_id`), the two `fwrite` calls of the n-th block (from 0) were
made by worker `n mod W`, and the k-th START was posted to worker `k mod W`. -/
theorem ordered_writer_rotation {α β : Type} (cfg : PoolConfig α β)
    (hW : 1 ≤ cfg.max_children) (frames : List (List α)) (s : Pool α β)
    (hs : Pool.Reachable cfg frames s) :
    (∀ i, i < cfg.max_children →
      ((s.fft_child_args i).pc = .writeNeg ∨ (s.fft_child_args i).pc = .writePos) →
      s.thread_control = (i : Int)) ∧
    (∀ n c, (s.outputFile[2 * n]? = some c ∨ s.outputFile[2 * n + 1]? = some c) →
      c.writer = n % cfg.max_children) ∧
    (∀ k w, s.posted[k]? = some w → w = k % cfg.max_children) := by
  obtain ⟨⟨t, q, _, htk, _, _, hhold, hwr⟩, _, hrot⟩ :=
    Pool.invariants_reachable cfg hW frames s hs
  refine ⟨?_, ?_, hrot⟩
  · intro i hi hpc
    have hc : (s.fft_child_args i).pc.inCritical = true := by
      rcases hpc with h | h <;> rw [h] <;> rfl
    rw [htk, hhold i hi hc]
  · intro n c hc
    rcases hc with h | h
    · have := hwr _ c h
      rw [this]
      congr 1
      omega
    · have := hwr _ c h
      rw [this]
      congr 1
      omega

/-- C1 with one worker and two frames `f0`, `f1`, for every kernel, FFT size and
window: under the schedule in which the dispatcher copies `f1` before the
worker has taken the START for `f0`, the run ends with both frames dispatched
and the worker idle, the dispatcher copied `f0` then `f1`, and the output holds
two blocks of which the first is the block of `f1`, not of `f0`, and the second
the block of `f1` windowed twice. -/
theorem overtaking_run_loses_first_frame {α β : Type} (K : Kernel α β) (fft_size : Nat)
    (window : List β) (f0 f1 : List α) :
    Pool.Reachable ⟨K, fft_size, 1, window⟩ [f0, f1]
      (Pool.run ⟨K, fft_size, 1, window⟩ overtakingSchedule (Pool.start [f0, f1])) ∧
    (Pool.run ⟨K, fft_size, 1, window⟩ overtakingSchedule (Pool.start [f0, f1])).Quiescent
      ⟨K, fft_size, 1, window⟩ ∧
    (Pool.run ⟨K, fft_size, 1, window⟩ overtakingSchedule (Pool.start [f0, f1])).copied
      = [{ child := 0, frame := f0 }, { child := 0, frame := f1 }] ∧
    ((Pool.run ⟨K, fft_size, 1, window⟩ overtakingSchedule (Pool.start [f0, f1])).outputFile.map
        (fun c => c.floats)).flatten
      = frameBlock K fft_size window f1
        ++ frameBlock K fft_size window (applyWindow K fft_size f1 window) := by
  refine ⟨Pool.Reachable.run _ _ _ _ Pool.Reachable.start, ⟨?_, ?_⟩, ?_, ?_⟩
  · simp [Pool.run, overtakingSchedule, Pool.step, Pool.stepDispatcher, Pool.stepWorker,
      Pool.start, Pool.setChild, nextChild, advanceTicket, increment, FFT_THREAD_START,
      FFT_THREAD_KILL]
  · intro i hi
    have h0 : i = 0 := by
      have : i < 1 := hi
      omega
    subst h0
    simp [Pool.run, overtakingSchedule, Pool.step, Pool.stepDispatcher, Pool.stepWorker,
      Pool.start, Pool.setChild, nextChild, advanceTicket, increment, FFT_THREAD_START,
      FFT_THREAD_KILL]
  · simp [Pool.run, overtakingSchedule, Pool.step, Pool.stepDispatcher, Pool.stepWorker,
      Pool.start, Pool.setChild, nextChild, advanceTicket, increment, FFT_THREAD_START,
      FFT_THREAD_KILL]
  · simp [Pool.run, overtakingSchedule, Pool.step, Pool.stepDispatcher, Pool.stepWorker,
      Pool.start, Pool.setChild, frameBlock, writtenBlock, computeMagnitude, nextChild,
      advanceTicket, increment, FFT_THREAD_START, FFT_THREAD_KILL]

/-- Witness for C2: one worker, two frames of two integer samples, the whole
overtaking schedule run: the state is reachable, the worker is not at an
`fwrite`, and the four `fwrite` calls and two STARTs all belong to worker 0. -/
theorem ordered_writer_rotation_witness :
    1 ≤ (PoolConfig.mk (Kernel.mk (fun (a b : Int) => a * b) (fun l => l) (fun a => a))
          2 1 [1, 1]).max_children ∧
    Pool.Reachable
      (PoolConfig.mk (Kernel.mk (fun (a b : Int) => a * b) (fun l => l) (fun a => a)) 2 1 [1, 1])
      [[1, 0], [1, 1]]
      (Pool.run
        (PoolConfig.mk (Kernel.mk (fun (a b : Int) => a * b) (fun l => l) (fun a => a)) 2 1 [1, 1])
        overtakingSchedule (Pool.start [[1, 0], [1, 1]])) ∧
    (∀ k w,
      (Pool.run
        (PoolConfig.mk (Kernel.mk (fun (a b : Int) => a * b) (fun l => l) (fun a => a)) 2 1 [1, 1])
        overtakingSchedule (Pool.start [[1, 0], [1, 1]])).posted[k]? = some w →
      w = k % (PoolConfig.mk (Kernel.mk (fun (a b : Int) => a * b) (fun l => l) (fun a => a))
          2 1 [1, 1]).max_children) :=
  ⟨by decide, Pool.Reachable.run _ _ _ _ Pool.Reachable.start,
   (ordered_writer_rotation _ (by decide) [[1, 0], [1, 1]] _
      (Pool.Reachable.run _ _ _ _ Pool.Reachable.start)).2.2⟩

/-! ## Window table and the checks of `main` -/

/-- A byte length below `2^31` is stored in an `int` unchanged. -/
theorem toInt32_of_lt (n : Nat) (h : n < 2 ^ 31) : toInt32 n = (n : Int) := by
  unfold toInt32
  rw [Nat.mod_eq_of_lt (by omega)]
  push_cast
  omega

/-- The byte length div 4 is the number of complete floats in the file. -/
theorem WindowFile.ftell_div {β : Type} (f : WindowFile β) :
    f.ftell / 4 = f.floats.length := by
  unfold WindowFile.ftell FLOAT_SIZE
  have := f.extra_bytes.isLt
  omega

/-- For a window file shorter than `2^31` bytes, `window_size` is the number of
complete floats in the file. -/
theorem WindowFile.window_size_eq {β : Type} (f : WindowFile β) (h : f.ftell < 2 ^ 31) :
    f.window_size = (f.floats.length : Int) := by
  unfold WindowFile.window_size WindowFile.window_file_size
  rw [toInt32_of_lt _ h, ← f.ftell_div]
  exact (Int.ofNat_tdiv f.ftell 4).symm

/-- The table built from a window file shorter than `2^31` bytes that fits: the
floats of the file, then zeros up to `FFTSize`. -/
theorem windowTable_of_file {β : Type} [Zero β] [One β] (FFTSize : Nat) (mem : Nat → β)
    (f : WindowFile β) (hfit : f.floats.length ≤ FFTSize) (hsmall : f.ftell < 2 ^ 31) :
    windowTable FFTSize mem (some f)
      = .table (f.floats ++ List.replicate (FFTSize - f.floats.length) 0) := by
  have hlen : ((List.range FFTSize).map mem).length = FFTSize := by simp
  simp only [windowTable]
  rw [f.window_size_eq hsmall, if_neg (by omega), if_neg (by omega), Int.toNat_ofNat,
    List.take_of_length_le (le_refl _)]
  simp only [store, List.take_zero, List.nil_append, Nat.zero_add]
  by_cases hlt : f.floats.length < FFTSize
  · rw [if_pos (by omega), List.take_left]
  · have heq : f.floats.length = FFTSize := by omega
    rw [if_neg (by omega), List.drop_of_length_le (by omega), heq, Nat.sub_self]
    rfl

/-- Reading at most `FFTSize` floats into the front of the freshly allocated
`window` array leaves it `FFTSize` long. -/
theorem store_front_length {β : Type} (FFTSize : Nat) (mem : Nat → β) (floats : List β)
    (n : Nat) (hn : n ≤ FFTSize) :
    (store ((List.range FFTSize).map mem) 0 (floats.take n)).length = FFTSize := by
  unfold store
  rw [List.take_zero, List.nil_append, Nat.zero_add, List.length_append, List.length_drop,
    List.length_map, List.length_range, List.length_take]
  omega

/-- Every table the window section hands on has `FFTSize` entries. -/
theorem windowTable_length {β : Type} [Zero β] [One β] (FFTSize : Nat) (mem : Nat → β)
    (window_file : Option (WindowFile β)) (window : List β)
    (h : windowTable FFTSize mem window_file = .table window) : window.length = FFTSize := by
  cases window_file with
  | none =>
    simp only [windowTable, WindowResult.table.injEq] at h
    rw [← h]
    simp
  | some f =>
    simp only [windowTable] at h
    by_cases hgt : f.window_size > (FFTSize : Int)
    · rw [if_pos hgt] at h
      exact WindowResult.noConfusion h
    · rw [if_neg hgt] at h
      by_cases hneg : f.window_size < 0
      · rw [if_pos hneg] at h
        exact WindowResult.noConfusion h
      · rw [if_neg hneg] at h
        have hws : f.window_size.toNat ≤ FFTSize := by omega
        have hst : (store ((List.range FFTSize).map mem) 0
            (f.floats.take f.window_size.toNat)).length = FFTSize :=
          store_front_length FFTSize mem f.floats _ hws
        by_cases hlt : f.window_size < (FFTSize : Int)
        · rw [if_pos hlt] at h
          simp only [WindowResult.table.injEq] at h
          rw [← h, List.length_append, List.length_take, List.length_replicate, hst]
          omega
        · rw [if_neg hlt] at h
          simp only [WindowResult.table.injEq] at h
          rw [← h, hst]

/-- A window file of exactly `2^31` bytes has `window_size = -2^29`: the `int`
holding the byte length is `-2^31`. -/
theorem WindowFile.window_size_of_two_gib {β : Type} (f : WindowFile β)
    (h : f.ftell = 2 ^ 31) : f.window_size = -(2 ^ 29) := by
  unfold WindowFile.window_size WindowFile.window_file_size toInt32
  rw [h]
  decide

/-- The byte length of a window file of `n` equal floats. -/
theorem WindowFile.ftell_replicate {β : Type} (n : Nat) (x : β) :
    (WindowFile.mk (List.replicate n x) 0).ftell = 4 * n := by
  simp [WindowFile.ftell, FLOAT_SIZE]

/-- With a negative `window_size` the window section neither rejects the file
nor builds a table. -/
theorem windowTable_negative_size {β : Type} [Zero β] [One β] (FFTSize : Nat)
    (mem : Nat → β) (f : WindowFile β) (h : f.window_size < 0) :
    windowTable FFTSize mem (some f) = .overrun := by
  simp only [windowTable]
  rw [if_neg (by omega), if_pos h]

/-- C12 fails for `N >= 2^29`: a window file of `2^29` floats is `2^31` bytes
long, the `int` holding that length is `-2^31` and `window_size` is `-2^29`, so
with `N = 2^29` the file holds `M <= N` floats, yet the size test passes on a
negative size and no table of the file's floats is built, whatever the memory
held. -/
theorem window_size_wraps_at_two_gib :
    (WindowFile.mk (List.replicate (2 ^ 29) (0 : Int)) 0).floats.length ≤ 2 ^ 29 ∧
    (WindowFile.mk (List.replicate (2 ^ 29) (0 : Int)) 0).ftell / 4 = 2 ^ 29 ∧
    (WindowFile.mk (List.replicate (2 ^ 29) (0 : Int)) 0).window_size = -(2 ^ 29) ∧
    (∀ mem : Nat → Int,
      windowTable (2 ^ 29) mem (some (WindowFile.mk (List.replicate (2 ^ 29) (0 : Int)) 0))
        = .overrun) := by
  have hft : (WindowFile.mk (List.replicate (2 ^ 29) (0 : Int)) 0).ftell = 2 ^ 31 := by
    rw [WindowFile.ftell_replicate]
    decide
  have hws := WindowFile.window_size_of_two_gib _ hft
  refine ⟨le_of_eq (List.length_replicate _ _), by rw [hft]; decide, hws, ?_⟩
  intro mem
  exact windowTable_negative_size _ mem _ (by rw [hws]; decide)

/-- C12 as amended: for every `N < 2^29`, when the window file cannot be opened
the table is `N` ones; when it holds `M <= N` floats (`M` the byte length div 4)
the table has length `N`, starts with the `M` floats of the file in order and
ends with `N - M` zeros; so a window of `M < N` floats gives the same table as
the window of `N` floats made of it and `N - M` zeros. -/
theorem window_table_construction {β : Type} [Zero β] [One β] (N : Nat) (hN : N < 2 ^ 29)
    (mem : Nat → β) :
    windowTable N mem none = .table (List.replicate N 1) ∧
    (∀ f : WindowFile β, f.ftell / 4 = f.floats.length) ∧
    (∀ f : WindowFile β, f.floats.length ≤ N →
      ∃ table, windowTable N mem (some f) = .table table ∧ table.length = N ∧
        table.take f.floats.length = f.floats ∧
        table.drop f.floats.length = List.replicate (N - f.floats.length) 0) ∧
    (∀ f : WindowFile β, f.floats.length < N →
      windowTable N mem (some f)
        = windowTable N mem
            (some ⟨f.floats ++ List.replicate (N - f.floats.length) 0, 0⟩)) := by
  have hsmall : ∀ f : WindowFile β, f.floats.length ≤ N → f.ftell < 2 ^ 31 := by
    intro f hf
    unfold WindowFile.ftell FLOAT_SIZE
    have := f.extra_bytes.isLt
    omega
  refine ⟨?_, fun f => f.ftell_div, ?_, ?_⟩
  · simp only [windowTable, List.map_map, WindowResult.table.injEq]
    apply List.ext_getElem
    · simp
    · intro i h1 h2
      simp
  · intro f hfit
    refine ⟨_, windowTable_of_file N mem f hfit (hsmall f hfit), ?_, List.take_left _ _,
      List.drop_left _ _⟩
    rw [List.length_append, List.length_replicate]
    omega
  · intro f hlt
    have hpad : (f.floats ++ List.replicate (N - f.floats.length) (0 : β)).length = N := by
      rw [List.length_append, List.length_replicate]
      omega
    rw [windowTable_of_file N mem f (by omega) (hsmall f (by omega)),
      windowTable_of_file N mem ⟨f.floats ++ List.replicate (N - f.floats.length) 0, 0⟩
        (by rw [hpad]) (hsmall _ (by rw [hpad]))]
    simp only [hpad, Nat.sub_self, List.replicate_zero, List.append_nil]

/-- Witness for C12 as amended: `N = 4` and a window file of the two floats
`5, 6` followed by one stray byte. -/
theorem window_table_construction_witness :
    4 < 2 ^ 29 ∧
    windowTable 4 (fun _ => (9 : Int)) none = .table [1, 1, 1, 1] ∧
    (∃ table, windowTable 4 (fun _ => (9 : Int)) (some ⟨[5, 6], 1⟩) = .table table ∧
      table.length = 4 ∧ table.take 2 = [5, 6] ∧ table.drop 2 = [0, 0]) :=
  ⟨by decide,
   (window_table_construction 4 (by decide) (fun _ => (9 : Int))).1,
   (window_table_construction 4 (by decide) (fun _ => (9 : Int))).2.2.1 ⟨[5, 6], 1⟩
     (by decide)⟩

/-- The checks of `main` hand `calculateTask` the three integers unchanged, with
`N >= 0`, `O != 0`, `W >= 1`, the C remainder of `N` by `O` equal to 0 and a window
table of `N` entries. -/
theorem mainChecks_proceed {β : Type} [Zero β] [One β] (expected_argc : Int)
    (a : MainArgs β) (N O W : Int) (window : List β)
    (h : mainChecks expected_argc a = .proceed N O W window) :
    N = a.FFTSize ∧ O = a.FFTOverlap ∧ W = a.max_children ∧
    0 ≤ N ∧ O ≠ 0 ∧ 1 ≤ W ∧ N.tmod O = 0 ∧
    windowTable N.toNat a.window_mem a.window_file = .table window := by
  unfold mainChecks at h
  split at h
  · exact Checked.noConfusion h
  · split at h
    · exact Checked.noConfusion h
    · split at h
      · exact Checked.noConfusion h
      · rename_i hO
        split at h
        · exact Checked.noConfusion h
        · rename_i hmod
          split at h
          · exact Checked.noConfusion h
          · rename_i hW
            split at h
            · exact Checked.noConfusion h
            · rename_i hN
              split at h
              · exact Checked.noConfusion h
              · exact Checked.noConfusion h
              · rename_i w hw
                injection h with h1 h2 h3 h4
                subst h1 h2 h3 h4
                exact ⟨rfl, rfl, rfl, by omega, hO, by omega, not_not.mp hmod, hw⟩

/-- When the argument checks pass and `N >= 0`, an overrun of the window section
is how the part of `main` before `calculateTask` ends. -/
theorem mainChecks_overrun {β : Type} [Zero β] [One β] (expected_argc : Int)
    (a : MainArgs β) (hargc : a.argc = expected_argc) (hopt : a.getopt_ok = true)
    (hO : a.FFTOverlap ≠ 0) (hmod : a.FFTSize.tmod a.FFTOverlap = 0)
    (hW : 1 ≤ a.max_children) (hN : 0 ≤ a.FFTSize)
    (hwt : windowTable a.FFTSize.toNat a.window_mem a.window_file = .overrun) :
    mainChecks expected_argc a = .overrun := by
  unfold mainChecks
  rw [if_neg (not_not.mpr hargc), if_neg (by rw [hopt]; decide), if_neg hO,
    if_neg (not_not.mpr hmod), if_neg (by omega), if_neg (by omega), hwt]

/-- When the part of `main` before `calculateTask` ends in an exception or in a
write outside the window array, fftcompute's `main` returns no code. -/
theorem fftcompute.main_no_code {α β : Type} [Zero β] [One β] (a : MainArgs β)
    (h : mainChecks 11 a = .bad_alloc ∨ mainChecks 11 a = .overrun)
    (openFiles_ok initializeThreads_ok : Bool) (mem input : List α) :
    fftcompute.main a openFiles_ok initializeThreads_ok mem input = none := by
  unfold fftcompute.main
  rcases h with h | h <;> rw [h]

/-- C13 fails as stated: with `(N, O, W) = (-4, 2, 1)` and a window file of one
float, `O != 0` and the file holds more than `N` floats, but the allocation
`new float[N]` throws before the size test and `main` returns no code; with
`(8, 2, 1)` and a window file of `2^29` floats (`2^31` bytes) the size test is
made on the wrapped size `-2^29`, the window is not rejected and the window
section writes outside its array. -/
theorem rejection_misses_negative_sizes :
    ((MainArgs.mk 11 true (-4) 2 1 (some ⟨[7], 0⟩) (fun _ => (0 : Int))).FFTOverlap ≠ 0 ∧
      (MainArgs.mk 11 true (-4) 2 1 (some ⟨[7], 0⟩) (fun _ => (0 : Int))).FFTSize
        < (([7] : List Int).length : Int) ∧
      mainChecks 11 (MainArgs.mk 11 true (-4) 2 1 (some ⟨[7], 0⟩) (fun _ => (0 : Int)))
        = .bad_alloc ∧
      ∀ (ok1 ok2 : Bool) (mem input : List Int),
        fftcompute.main (MainArgs.mk 11 true (-4) 2 1 (some ⟨[7], 0⟩) (fun _ => (0 : Int)))
          ok1 ok2 mem input = none) ∧
    ((8 : Int) < ((List.replicate (2 ^ 29) (0 : Int)).length : Int) ∧
      mainChecks 11
          (MainArgs.mk 11 true 8 2 1 (some ⟨List.replicate (2 ^ 29) 0, 0⟩) (fun _ => (0 : Int)))
        = .overrun ∧
      ∀ (ok1 ok2 : Bool) (mem input : List Int),
        fftcompute.main
          (MainArgs.mk 11 true 8 2 1 (some ⟨List.replicate (2 ^ 29) 0, 0⟩) (fun _ => (0 : Int)))
          ok1 ok2 mem input = none) := by
  have h1 : mainChecks 11
      (MainArgs.mk 11 true (-4) 2 1 (some ⟨[7], 0⟩) (fun _ => (0 : Int))) = .bad_alloc := by
    simp [mainChecks, (by decide : Int.tmod (-4) 2 = 0)]
  have hft : (WindowFile.mk (List.replicate (2 ^ 29) (0 : Int)) 0).ftell = 2 ^ 31 := by
    rw [WindowFile.ftell_replicate]
    decide
  have hwt : windowTable (8 : Int).toNat (fun _ => (0 : Int))
      (some (WindowFile.mk (List.replicate (2 ^ 29) (0 : Int)) 0)) = .overrun :=
    windowTable_negative_size _ _ _
      (by rw [WindowFile.window_size_of_two_gib _ hft]; decide)
  have h2 : mainChecks 11
      (MainArgs.mk 11 true 8 2 1 (some ⟨List.replicate (2 ^ 29) 0, 0⟩) (fun _ => (0 : Int)))
      = .overrun :=
    mainChecks_overrun 11 _ rfl rfl (by decide) (by decide) (by decide) (by decide) hwt
  refine ⟨⟨by decide, by decide, h1, ?_⟩,
    ⟨by rw [List.length_replicate]; decide, h2, ?_⟩⟩
  · intro ok1 ok2 mem input
    exact fftcompute.main_no_code _ (Or.inl h1) ok1 ok2 mem input
  · intro ok1 ok2 mem input
    exact fftcompute.main_no_code _ (Or.inr h2) ok1 ok2 mem input

/-- C13 as amended: in fftcompute's `main`, for every configuration with
`O != 0`, if the C remainder of `N` by `O` is not 0, or `W < 1`, or `N >= 0` and
the window file is shorter than `2^31` bytes and holds more than `N` floats,
`main` returns a non-zero code without calling `calculateTask`, whatever the
input file would have held. -/
theorem rejection_before_output {α β : Type} [Zero β] [One β] (a : MainArgs β)
    (hO : a.FFTOverlap ≠ 0)
    (h : a.FFTSize.tmod a.FFTOverlap ≠ 0 ∨ a.max_children < 1 ∨
      (0 ≤ a.FFTSize ∧
        ∃ f, a.window_file = some f ∧ f.ftell < 2 ^ 31 ∧
          a.FFTSize < (f.floats.length : Int))) :
    (∀ N O W window, mainChecks 11 a ≠ .proceed N O W window) ∧
    ∃ code : Int, code ≠ 0 ∧ mainChecks 11 a = .exit code ∧
      ∀ (openFiles_ok initializeThreads_ok : Bool) (mem input : List α),
        fftcompute.main a openFiles_ok initializeThreads_ok mem input = some code := by
  have hexit : ∃ code : Int, code ≠ 0 ∧ mainChecks 11 a = .exit code := by
    unfold mainChecks
    by_cases h1 : a.argc ≠ 11
    · exact ⟨-1, by decide, if_pos h1⟩
    · rw [if_neg h1]
      by_cases h2 : a.getopt_ok = false
      · exact ⟨-1, by decide, if_pos h2⟩
      · rw [if_neg h2, if_neg hO]
        by_cases hmod : a.FFTSize.tmod a.FFTOverlap ≠ 0
        · exact ⟨-1, by decide, if_pos hmod⟩
        · rw [if_neg hmod]
          by_cases hW : a.max_children < 1
          · exact ⟨-1, by decide, if_pos hW⟩
          · rw [if_neg hW]
            rcases h with h | h | ⟨hN, f, hf, hsmall, hlt⟩
            · exact absurd h hmod
            · exact absurd h hW
            · have hnn : ¬ a.FFTSize < 0 := by omega
              have hbig : f.window_size > ((a.FFTSize.toNat : Nat) : Int) := by
                rw [f.window_size_eq hsmall, Int.toNat_of_nonneg hN]
                exact hlt
              have hwt : windowTable a.FFTSize.toNat a.window_mem a.window_file
                  = .too_large := by
                rw [hf]
                simp only [windowTable]
                rw [if_pos hbig]
              rw [if_neg hnn, hwt]
              exact ⟨1, by decide, rfl⟩
  obtain ⟨code, hc, he⟩ := hexit
  refine ⟨?_, code, hc, he, ?_⟩
  · intro N O W window hp
    rw [he] at hp
    exact Checked.noConfusion hp
  · intro ok1 ok2 mem input
    unfold fftcompute.main
    rw [he]

/-- Witness for C13 as amended: with `N = 2` and a window file of three floats
`main` returns 1 at the size test. -/
theorem rejection_before_output_witness :
    (MainArgs.mk 11 true 2 1 1 (some ⟨[5, 6, 7], 0⟩) (fun _ => (0 : Int))).FFTOverlap ≠ 0 ∧
    (∀ N O W window,
      mainChecks 11 (MainArgs.mk 11 true 2 1 1 (some ⟨[5, 6, 7], 0⟩) (fun _ => (0 : Int)))
        ≠ .proceed N O W window) ∧
    ∃ code : Int, code ≠ 0 ∧
      mainChecks 11 (MainArgs.mk 11 true 2 1 1 (some ⟨[5, 6, 7], 0⟩) (fun _ => (0 : Int)))
        = .exit code ∧
      ∀ (openFiles_ok initializeThreads_ok : Bool) (mem input : List Nat),
        fftcompute.main (MainArgs.mk 11 true 2 1 1 (some ⟨[5, 6, 7], 0⟩) (fun _ => (0 : Int)))
          openFiles_ok initializeThreads_ok mem input = some code :=
  ⟨by decide,
   @rejection_before_output Nat Int _ _
     (MainArgs.mk 11 true 2 1 1 (some ⟨[5, 6, 7], 0⟩) (fun _ => (0 : Int)))
     (by decide)
     (Or.inr (Or.inr ⟨by decide, ⟨[5, 6, 7], 0⟩, rfl, by decide, by decide⟩))⟩

/-- C14 fails as stated: some configuration passes the checks of fftcompute's
`main` and reaches `calculateTask` without `N > 0` and `O >= 1`; `(0, 1, 1)`
does. -/
theorem config_invariants_not_checked :
    ¬ (∀ (a : MainArgs Int) (N O W : Int) (window : List Int),
        mainChecks 11 a = .proceed N O W window →
        0 < N ∧ 1 ≤ O ∧ 1 ≤ W ∧ N.tmod O = 0) := by
  intro h
  have h0 := h (MainArgs.mk 11 true 0 1 1 none (fun _ => 0)) 0 1 1 []
    (by simp [mainChecks, windowTable])
  exact absurd h0.1 (by decide)

/-- C14 as amended: a configuration `(N, O, W)` that passes the checks of
fftcompute's `main` and reaches `calculateTask` satisfies `N >= 0`, `O != 0`,
`W >= 1` and has C remainder of `N` by `O` equal to 0, and the window table has
`N` entries. -/
theorem config_checked_invariants {β : Type} [Zero β] [One β] (a : MainArgs β)
    (N O W : Int) (window : List β)
    (h : mainChecks 11 a = .proceed N O W window) :
    0 ≤ N ∧ O ≠ 0 ∧ 1 ≤ W ∧ N.tmod O = 0 ∧ window.length = N.toNat := by
  obtain ⟨hN, _, _, hN0, hO, hW, hmod, hwin⟩ := mainChecks_proceed 11 a N O W window h
  exact ⟨hN0, hO, hW, hmod, windowTable_length _ _ _ _ hwin⟩

/-- Witness for C14 as amended: `(8, 2, 3)` with no window file passes the
checks. -/
theorem config_checked_invariants_witness :
    mainChecks 11 (MainArgs.mk 11 true 8 2 3 none (fun _ => (0 : Int)))
      = .proceed 8 2 3 [1, 1, 1, 1, 1, 1, 1, 1] ∧
    (0 ≤ (8 : Int) ∧ (2 : Int) ≠ 0 ∧ 1 ≤ (3 : Int) ∧ (8 : Int).tmod 2 = 0 ∧
      ([1, 1, 1, 1, 1, 1, 1, 1] : List Int).length = (8 : Int).toNat) :=
  ⟨by simp [mainChecks, windowTable, List.range, List.range.loop, (by decide : Int.tmod 8 2 = 0)],
   config_checked_invariants (MainArgs.mk 11 true 8 2 3 none (fun _ => (0 : Int))) 8 2 3
     [1, 1, 1, 1, 1, 1, 1, 1] (by simp [mainChecks, windowTable, List.range, List.range.loop, (by decide : Int.tmod 8 2 = 0)])⟩

/-! ## Return values and diagnostics -/

/-- When the work loop of fftcompute ends after starting with the end-of-file
indicator clear, `return_code` is 0: the only way out is the short read. -/
theorem fftcompute.workLoop_return_code {α : Type} (cfg : Config) :
    ∀ (fuel : Nat) (s s' : fftcompute.Dispatcher α), s.inputFile.eof = false →
      fftcompute.workLoop cfg fuel s = some s' → s'.return_code = 0 := by
  intro fuel
  induction fuel with
  | zero => intro s s' _ h; simp [fftcompute.workLoop] at h
  | succ n ih =>
    intro s s' heof h
    by_cases hrc : s.return_code ≠ 0
    · rcases Nat.lt_or_ge s.inputFile.rest.length cfg.fft_interval_size with hshort | hfull
      · unfold fftcompute.workLoop at h
        rw [if_pos ⟨heof, hrc⟩] at h
        simp only at h
        rw [if_pos (by simp only [fftcompute.fread, List.length_take]; omega)] at h
        simp only [Option.some.injEq] at h
        rw [← h]
      · rw [fftcompute.workLoop_full cfg n s heof hrc hfull] at h
        refine ih _ s' ?_ h
        rw [fftcompute.body_inputFile]
        exact (fftcompute.afterRead_fields cfg s heof hfull).1
    · unfold fftcompute.workLoop at h
      rw [if_neg (fun hc => hrc hc.2)] at h
      simp only [Option.some.injEq] at h
      rw [← h]
      exact not_not.mp hrc

/-- The loop body of fftcompute does not touch `return_code`. -/
theorem fftcompute.body_return_code {α : Type} (cfg : Config) (s : fftcompute.Dispatcher α) :
    (fftcompute.body cfg s).return_code = s.return_code := by
  unfold fftcompute.body
  split
  · split <;> rfl
  · rfl

/-- With a hop of 0 the work loop of fftcompute never ends: `fread` is asked for
0 samples, so it never comes up short and never sets the end-of-file indicator;
whatever the number of passes allowed, the loop is still running. -/
theorem fftcompute.workLoop_zero_hop {α : Type} (cfg : Config)
    (hhop : cfg.fft_interval_size = 0) :
    ∀ (fuel : Nat) (s : fftcompute.Dispatcher α), s.inputFile.eof = false →
      s.return_code ≠ 0 → fftcompute.workLoop cfg fuel s = none := by
  intro fuel
  induction fuel with
  | zero => intro s _ _; rfl
  | succ n ih =>
    intro s heof hrc
    have hfull : cfg.fft_interval_size ≤ s.inputFile.rest.length := by rw [hhop]; omega
    rw [fftcompute.workLoop_full cfg n s heof hrc hfull]
    obtain ⟨h1, _, _, _, h5, _⟩ := fftcompute.afterRead_fields cfg s heof hfull
    exact ih _ (by rw [fftcompute.body_inputFile]; exact h1)
      (by rw [fftcompute.body_return_code, h5]; exact hrc)

/-- C17 fails as stated: `(N, O, W) = (0, 1, 1)` passes every check of `main`;
the hop is 0, and once `openFiles` and `initializeThreads` have succeeded the
work loop is still running after any number of passes, on every input, so
`calculateTask` does not return 1 and `main` does not exit. -/
theorem zero_size_loop_never_ends :
    mainChecks 11 (MainArgs.mk 11 true 0 1 1 none (fun _ => (0 : Int)))
      = .proceed 0 1 1 [] ∧
    (∀ (fuel : Nat) (mem input : List Int),
      fftcompute.workLoop (Config.mk 0 1 1) fuel (fftcompute.start mem input) = none) ∧
    (∀ (mem input : List Int),
      fftcompute.calculateTaskResult true true (Config.mk 0 1 1) mem input = none) ∧
    (∀ (mem input : List Int),
      fftcompute.main (MainArgs.mk 11 true 0 1 1 none (fun _ => (0 : Int))) true true
        mem input = none) := by
  have hchk : mainChecks 11 (MainArgs.mk 11 true 0 1 1 none (fun _ => (0 : Int)))
      = .proceed 0 1 1 [] := by
    simp [mainChecks, windowTable]
  have hloop : ∀ (fuel : Nat) (mem input : List Int),
      fftcompute.workLoop (Config.mk 0 1 1) fuel (fftcompute.start mem input) = none :=
    fun fuel mem input =>
      fftcompute.workLoop_zero_hop (Config.mk 0 1 1) rfl fuel _ rfl (by simp [fftcompute.start])
  have hres : ∀ (mem input : List Int),
      fftcompute.calculateTaskResult true true (Config.mk 0 1 1) mem input = none := by
    intro mem input
    simp only [fftcompute.calculateTaskResult, fftcompute.calculateTask, hloop]
    rfl
  refine ⟨hchk, hloop, hres, ?_⟩
  intro mem input
  unfold fftcompute.main
  rw [hchk]
  simp only
  rw [if_neg (by decide)]
  exact congrArg (Option.map _) (hres mem input)

/-- C17 as amended: a configuration that passed the checks of `main` with
`N > 0` and `O >= 1`: for every input sample sequence, once `openFiles` and
`initializeThreads` have succeeded, `calculateTask` of fftcompute returns 1 and
`main` exits with code 0. -/
theorem tail_underrun_exit_code {α β : Type} [Zero β] [One β] (a : MainArgs β)
    (N O W : Int) (window : List β) (hchk : mainChecks 11 a = .proceed N O W window)
    (hN : 0 < N) (hO : 1 ≤ O) (mem input : List α) :
    (fftcompute.calculateTaskResult true true ⟨N.toNat, O.toNat, W.toNat⟩ mem input).map
        (fun r => r.returned) = some 1 ∧
    fftcompute.main a true true mem input = some 0 := by
  obtain ⟨_, _, _, _, _, _, hmod, _⟩ := mainChecks_proceed 11 a N O W window hchk
  have hdvd : O.toNat ∣ N.toNat := by
    have h1 : O ∣ N := Int.dvd_of_tmod_eq_zero hmod
    rw [← Int.toNat_of_nonneg (show 0 ≤ O by omega),
      ← Int.toNat_of_nonneg (show 0 ≤ N by omega)] at h1
    exact Int.ofNat_dvd.mp h1
  obtain ⟨hhop, _⟩ := Config.hop_facts ⟨N.toNat, O.toNat, W.toNat⟩ (by show 0 < N.toNat; omega)
    (by show 1 ≤ O.toNat; omega) hdvd
  obtain ⟨s, hs⟩ := fftcompute.workLoop_terminates ⟨N.toNat, O.toNat, W.toNat⟩ hhop
    (input.length + 1) (fftcompute.start mem input) (Nat.lt_succ_of_le (Nat.div_le_self _ _))
  have hres : (fftcompute.calculateTaskResult true true ⟨N.toNat, O.toNat, W.toNat⟩ mem
      input).map (fun r => r.returned) = some 1 := by
    simp only [fftcompute.calculateTaskResult, fftcompute.calculateTask, hs]
    simp
  refine ⟨hres, ?_⟩
  have htd : ¬ N.tdiv O < 0 := not_lt.mpr (Int.tdiv_nonneg (by omega) (by omega))
  unfold fftcompute.main
  rw [hchk]
  simp only
  rw [if_neg htd]
  simp only [fftcompute.calculateTaskResult, fftcompute.calculateTask, hs]
  simp

/-- Witness for C17 as amended: `N = 4`, `O = 1`, one worker, no window file, six
input samples (one hop and a tail of two). -/
theorem tail_underrun_exit_code_witness :
    mainChecks 11 (MainArgs.mk 11 true 4 1 1 none (fun _ => (0 : Int)))
      = .proceed 4 1 1 [1, 1, 1, 1] ∧ (0 : Int) < 4 ∧ (1 : Int) ≤ 1 ∧
    fftcompute.main (MainArgs.mk 11 true 4 1 1 none (fun _ => (0 : Int))) true true
      [0, 0, 0, 0] (List.range 6) = some 0 :=
  ⟨by simp [mainChecks, windowTable, List.range, List.range.loop, (by decide : Int.tmod 4 1 = 0)],
   by decide, by decide,
   (tail_underrun_exit_code (MainArgs.mk 11 true 4 1 1 none (fun _ => (0 : Int))) 4 1 1
      [1, 1, 1, 1]
      (by simp [mainChecks, windowTable, List.range, List.range.loop,
        (by decide : Int.tmod 4 1 = 0)])
      (by decide) (by decide) [0, 0, 0, 0] (List.range 6)).2⟩

/-- Whatever the input, when `calculateTask` of fftcompute gets past
initialisation and returns, it has printed the unaligned-data message. -/
theorem fftcompute.unaligned_message_always {α : Type} (cfg : Config) (mem input : List α) :
    (fftcompute.calculateTaskResult true true cfg mem input).map
      (fun r => r.unaligned_message) ≠ some false := by
  simp only [fftcompute.calculateTaskResult, fftcompute.calculateTask]
  cases h : fftcompute.workLoop cfg (input.length + 1) (fftcompute.start mem input) with
  | none => simp
  | some s =>
    have := fftcompute.workLoop_return_code cfg _ _ s rfl h
    simp [this]

/-- C18 on an aligned input: with `N = 4`, `O = 1` (hop 4) and 8 input samples,
a multiple of the hop, fftcompute dispatches one frame, loses no sample and
still prints "Input data terminated with unaligned data". -/
theorem unaligned_message_on_aligned_input :
    (List.range 8).length % (Config.mk 4 1 1).fft_interval_size = 0 ∧
    (fftcompute.calculateTaskResult true true (Config.mk 4 1 1) [0, 0, 0, 0]
        (List.range 8)).map (fun r => r.unaligned_message) = some true ∧
    (fftcompute.calculateTask (Config.mk 4 1 1) [0, 0, 0, 0] (List.range 8)).map
        (fun s => (s.inputFile.rest, s.return_code)) = some ([], 0) := by
  refine ⟨by decide, by decide, by decide⟩

/-- C19: in the work loop of usrp-sensor, a `recv` with error code overflow
leaves `return_code` as it was, so with the sample cap not reached the loop
goes on to the next `recv`; a `recv` with error code timeout or any other
non-none code sets `return_code` to 0, so the loop ends with this pass and no
further `recv` result is used. -/
theorem sdr_error_classes {α : Type} (cfg : Config) (maximum_samples : Nat)
    (r : usrp_sensor.Recv α) (rs : List (usrp_sensor.Recv α))
    (s : usrp_sensor.Dispatcher α) :
    (r.error_code = .ERROR_CODE_OVERFLOW →
      (usrp_sensor.body cfg r s).return_code = s.return_code ∧
      (s.samples_recorded < maximum_samples ∧ s.return_code ≠ 0 →
        usrp_sensor.workLoop cfg maximum_samples (r :: rs) s
          = usrp_sensor.workLoop cfg maximum_samples rs (usrp_sensor.body cfg r s))) ∧
    ((r.error_code = .ERROR_CODE_TIMEOUT ∨ r.error_code = .ERROR_CODE_OTHER) →
      (usrp_sensor.body cfg r s).return_code = 0 ∧
      (s.samples_recorded < maximum_samples ∧ s.return_code ≠ 0 →
        usrp_sensor.workLoop cfg maximum_samples (r :: rs) s = usrp_sensor.body cfg r s)) := by
  have hrc : (usrp_sensor.body cfg r s).return_code
      = usrp_sensor.checkError r.error_code s.return_code := by
    unfold usrp_sensor.body
    dsimp only
    split
    · split <;> rfl
    · rfl
  have hstep : s.samples_recorded < maximum_samples ∧ s.return_code ≠ 0 →
      usrp_sensor.workLoop cfg maximum_samples (r :: rs) s
        = usrp_sensor.workLoop cfg maximum_samples rs (usrp_sensor.body cfg r s) := by
    intro hc
    conv_lhs => unfold usrp_sensor.workLoop
    rw [if_pos hc]
  constructor
  · intro he
    refine ⟨by rw [hrc, he]; rfl, hstep⟩
  · intro he
    have h0 : (usrp_sensor.body cfg r s).return_code = 0 := by
      rw [hrc]
      rcases he with he | he <;> rw [he] <;> rfl
    refine ⟨h0, fun hc => ?_⟩
    rw [hstep hc]
    cases rs with
    | nil => rfl
    | cons r' rs' =>
      unfold usrp_sensor.workLoop
      rw [if_neg (fun h => h.2 h0)]

/-- Once past initialisation, `calculateTask` of usrp-sensor returns 1 whatever
the `recv` calls reported. -/
theorem usrp_sensor.calculateTask_returns_one {α : Type} (cfg : Config) (maximum_samples : Nat)
    (mem : List α) (recvs : List (usrp_sensor.Recv α)) :
    (usrp_sensor.calculateTaskResult true true cfg maximum_samples mem recvs).returned = 1 := by
  simp [usrp_sensor.calculateTaskResult]

/-- C20 on a timeout: with `N = 4`, `O = 2`, one worker and a first `recv` that
reports a timeout, the work loop of usrp-sensor ends with `return_code = 0`, yet
`calculateTask` returns 1 and `main` exits with code 0. -/
theorem sdr_timeout_exits_zero :
    (usrp_sensor.calculateTask (Config.mk 4 2 1) 100 [0, 0, 0, 0]
        [⟨[], .ERROR_CODE_TIMEOUT⟩]).return_code = 0 ∧
    (usrp_sensor.calculateTaskResult true true (Config.mk 4 2 1) 100 [0, 0, 0, 0]
        [⟨[], .ERROR_CODE_TIMEOUT⟩]).returned = 1 ∧
    usrp_sensor.main (MainArgs.mk 19 true 4 2 1 none (fun _ => (0 : Int))) true true true 100
        [0, 0, 0, 0] [⟨[], .ERROR_CODE_TIMEOUT⟩] = some 0 := by
  refine ⟨by decide, by decide, ?_⟩
  simp [usrp_sensor.main, mainChecks, windowTable, usrp_sensor.calculateTaskResult,
    (by decide : Int.tmod 4 2 = 0), (by decide : ¬ Int.tdiv 4 2 < 0)]

/-- When `fft_interval_size = FFTSize / FFTOverlap` (the division of C) is not
negative, for `FFTSize >= 0`, it is the hop of the `Config` built from the
integers. -/
theorem Config.hop_eq_tdiv (N O : Int) (W : Nat) (hN : 0 ≤ N) (h : 0 ≤ N.tdiv O) :
    (Config.mk N.toNat O.toNat W).fft_interval_size = (N.tdiv O).toNat := by
  unfold Config.fft_interval_size
  show N.toNat / O.toNat = (N.tdiv O).toNat
  obtain ⟨n, rfl⟩ := Int.eq_ofNat_of_zero_le hN
  rcases Int.lt_or_le O 0 with hO | hO
  · have h0 : O.toNat = 0 := Int.toNat_eq_zero.mpr (by omega)
    have hneg : (n : Int).tdiv O ≤ 0 := by
      have h1 : (n : Int).tdiv O = -((n : Int).tdiv (-O)) := by
        rw [Int.tdiv_neg, neg_neg]
      have h2 : 0 ≤ (n : Int).tdiv (-O) := Int.tdiv_nonneg (by omega) (by omega)
      omega
    have hz : (n : Int).tdiv O = 0 := by omega
    rw [h0, hz]
    simp
  · obtain ⟨o, rfl⟩ := Int.eq_ofNat_of_zero_le hO
    rw [← Int.ofNat_tdiv]
    exact (Int.toNat_ofNat (n / o)).symm

/-- The run of fftcompute's `main` with `(N, O, W) = (4, -2, 1)`: the checks
pass with the hop `-2`; with three input samples the first `fread` takes them
all, comes up short and `main` returns 0; with five input samples the read goes
past the four slots of `input_buffer`. -/
theorem fftcompute.main_negative_overlap :
    mainChecks 11 (MainArgs.mk 11 true 4 (-2) 1 none (fun _ => (0 : Int)))
      = .proceed 4 (-2) 1 [1, 1, 1, 1] ∧
    fftcompute.main (MainArgs.mk 11 true 4 (-2) 1 none (fun _ => (0 : Int))) true true
      [0, 0, 0, 0] [1, 2, 3] = some 0 ∧
    fftcompute.main (MainArgs.mk 11 true 4 (-2) 1 none (fun _ => (0 : Int))) true true
      [0, 0, 0, 0] [1, 2, 3, 4, 5] = none := by
  have hchk : mainChecks 11 (MainArgs.mk 11 true 4 (-2) 1 none (fun _ => (0 : Int)))
      = .proceed 4 (-2) 1 [1, 1, 1, 1] := by
    simp [mainChecks, windowTable, List.range, List.range.loop,
      (by decide : Int.tmod 4 (-2) = 0)]
  refine ⟨hchk, ?_, ?_⟩
  · unfold fftcompute.main
    rw [hchk]
    simp only
    rw [if_pos (by decide)]
    rfl
  · unfold fftcompute.main
    rw [hchk]
    simp only
    rw [if_pos (by decide)]
    rfl
/-! ## The sequential schedule -/

/-- One turn of a thread that neither spins nor blocks. -/
theorem Pool.runNoWait_cons {α β : Type} (cfg : PoolConfig α β) (t : Thread)
    (ts : List Thread) (s s' : Pool α β) (hsp : s.spinning t = false)
    (hstep : s.step cfg t = some s') :
    Pool.runNoWait cfg (t :: ts) s = Pool.runNoWait cfg ts s' := by
  rw [Pool.runNoWait, hsp, hstep]
  rfl

/-- A worker in the middle of a frame spins only at its wait for the ticket, and
only when the ticket is not its id. -/
theorem Pool.spinning_during {α β : Type} (s : Pool α β) (i : Nat)
    (d : fft_thread_data α β) (ticket : Int) (mutex : Option Nat) (out : List (Chunk β)) :
    (s.during i d ticket mutex out).spinning (.worker i)
      = (decide (d.pc = .waitTurn) && decide (ticket ≠ (i : Int))) := by
  simp [Pool.spinning, Pool.during]

/-- The ten steps of worker `i` on one START, each from the state the one before
left: receive, raise `is_running`, compute, pass the ticket spin, lock, the two
`fwrite` calls, advance the ticket, unlock, clear `is_running`. -/
theorem Pool.step_during {α β : Type} (cfg : PoolConfig α β) (s : Pool α β) (i : Nat)
    (hi : i < cfg.max_children) (run : Bool) (inp : List α) (mag : List β) (ticket : Int)
    (mutex : Option Nat) (out : List (Chunk β)) :
    (s.during i ⟨.receive, run, inp, mag, some FFT_THREAD_START⟩ ticket mutex out).step cfg
        (.worker i)
      = some (s.during i ⟨.setRunning, run, inp, mag, none⟩ ticket mutex out) ∧
    (s.during i ⟨.setRunning, run, inp, mag, none⟩ ticket mutex out).step cfg (.worker i)
      = some (s.during i ⟨.compute, true, inp, mag, none⟩ ticket mutex out) ∧
    (s.during i ⟨.compute, run, inp, mag, none⟩ ticket mutex out).step cfg (.worker i)
      = some (s.during i ⟨.waitTurn, run, applyWindow cfg.kernel cfg.fft_size inp cfg.window,
          computeMagnitude cfg.kernel cfg.fft_size cfg.window inp, none⟩ ticket mutex out) ∧
    (s.during i ⟨.waitTurn, run, inp, mag, none⟩ (i : Int) mutex out).step cfg (.worker i)
      = some (s.during i ⟨.lock, run, inp, mag, none⟩ (i : Int) mutex out) ∧
    (s.during i ⟨.lock, run, inp, mag, none⟩ ticket none out).step cfg (.worker i)
      = some (s.during i ⟨.writeNeg, run, inp, mag, none⟩ ticket (some i) out) ∧
    (s.during i ⟨.writeNeg, run, inp, mag, none⟩ ticket mutex out).step cfg (.worker i)
      = some (s.during i ⟨.writePos, run, inp, mag, none⟩ ticket mutex
          (out ++ [⟨i, negativeFreqs cfg.fft_size mag⟩])) ∧
    (s.during i ⟨.writePos, run, inp, mag, none⟩ ticket mutex out).step cfg (.worker i)
      = some (s.during i ⟨.advance, run, inp, mag, none⟩ ticket mutex
          (out ++ [⟨i, positiveFreqs cfg.fft_size mag⟩])) ∧
    (s.during i ⟨.advance, run, inp, mag, none⟩ ticket mutex out).step cfg (.worker i)
      = some (s.during i ⟨.unlock, run, inp, mag, none⟩
          (advanceTicket ticket i cfg.max_children) mutex out) ∧
    (s.during i ⟨.unlock, run, inp, mag, none⟩ ticket mutex out).step cfg (.worker i)
      = some (s.during i ⟨.clearRunning, run, inp, mag, none⟩ ticket none out) ∧
    (s.during i ⟨.clearRunning, run, inp, mag, none⟩ ticket mutex out).step cfg (.worker i)
      = some (s.during i ⟨.receive, false, inp, mag, none⟩ ticket mutex out) := by
  refine ⟨?_, ?_, ?_, ?_, ?_, ?_, ?_, ?_, ?_, ?_⟩ <;>
    simp [Pool.step, Pool.stepWorker, Pool.during, Pool.setChild, hi, FFT_THREAD_START,
      FFT_THREAD_KILL, computeMagnitude]

/-- The worker's part of one frame in the sequential schedule: from the START in
its queue to its return to `mq_receive`, without waiting. -/
theorem Pool.runNoWait_worker {α β : Type} (cfg : PoolConfig α β) (s : Pool α β) (i : Nat)
    (hi : i < cfg.max_children) (inp : List α) (mag : List β) (out : List (Chunk β)) :
    Pool.runNoWait cfg (List.replicate 10 (.worker i))
        (s.during i ⟨.receive, false, inp, mag, some FFT_THREAD_START⟩ (i : Int) none out)
      = some (s.during i
          ⟨.receive, false, applyWindow cfg.kernel cfg.fft_size inp cfg.window,
            computeMagnitude cfg.kernel cfg.fft_size cfg.window inp, none⟩
          (advanceTicket (i : Int) (i : Int) cfg.max_children) none
          (out ++ [⟨i, negativeFreqs cfg.fft_size
                (computeMagnitude cfg.kernel cfg.fft_size cfg.window inp)⟩]
            ++ [⟨i, positiveFreqs cfg.fft_size
                (computeMagnitude cfg.kernel cfg.fft_size cfg.window inp)⟩])) := by
  have h := fun run inp mag ticket mutex out =>
    Pool.step_during cfg s i hi run inp mag ticket mutex out
  simp only [List.replicate]
  rw [Pool.runNoWait_cons cfg _ _ _ _ (by simp [Pool.spinning_during])
      (h false inp mag (i : Int) none out).1,
    Pool.runNoWait_cons cfg _ _ _ _ (by simp [Pool.spinning_during])
      (h false inp mag (i : Int) none out).2.1,
    Pool.runNoWait_cons cfg _ _ _ _ (by simp [Pool.spinning_during])
      (h true inp mag (i : Int) none out).2.2.1,
    Pool.runNoWait_cons cfg _ _ _ _ (by simp [Pool.spinning_during])
      (h true (applyWindow cfg.kernel cfg.fft_size inp cfg.window)
        (computeMagnitude cfg.kernel cfg.fft_size cfg.window inp) (i : Int) none
        out).2.2.2.1,
    Pool.runNoWait_cons cfg _ _ _ _ (by simp [Pool.spinning_during])
      (h true (applyWindow cfg.kernel cfg.fft_size inp cfg.window)
        (computeMagnitude cfg.kernel cfg.fft_size cfg.window inp) (i : Int) none
        out).2.2.2.2.1,
    Pool.runNoWait_cons cfg _ _ _ _ (by simp [Pool.spinning_during])
      (h true (applyWindow cfg.kernel cfg.fft_size inp cfg.window)
        (computeMagnitude cfg.kernel cfg.fft_size cfg.window inp) (i : Int) (some i)
        out).2.2.2.2.2.1,
    Pool.runNoWait_cons cfg _ _ _ _ (by simp [Pool.spinning_during])
      (h true (applyWindow cfg.kernel cfg.fft_size inp cfg.window)
        (computeMagnitude cfg.kernel cfg.fft_size cfg.window inp) (i : Int) (some i)
        _).2.2.2.2.2.2.1,
    Pool.runNoWait_cons cfg _ _ _ _ (by simp [Pool.spinning_during])
      (h true (applyWindow cfg.kernel cfg.fft_size inp cfg.window)
        (computeMagnitude cfg.kernel cfg.fft_size cfg.window inp) (i : Int) (some i)
        _).2.2.2.2.2.2.2.1,
    Pool.runNoWait_cons cfg _ _ _ _ (by simp [Pool.spinning_during])
      (h true (applyWindow cfg.kernel cfg.fft_size inp cfg.window)
        (computeMagnitude cfg.kernel cfg.fft_size cfg.window inp) _ (some i)
        _).2.2.2.2.2.2.2.2.1,
    Pool.runNoWait_cons cfg _ _ _ _ (by simp [Pool.spinning_during])
      (h true (applyWindow cfg.kernel cfg.fft_size inp cfg.window)
        (computeMagnitude cfg.kernel cfg.fft_size cfg.window inp) _ none
        _).2.2.2.2.2.2.2.2.2]
  rfl

/-- The dispatcher's part of one frame in the sequential schedule: from the pool
at rest it checks, copies the frame and posts START without waiting. -/
theorem Pool.runNoWait_dispatch {α β : Type} (cfg : PoolConfig α β) (s : Pool α β) (i : Nat)
    (f : List α) (rest : List (List α)) (hfr : s.frames = f :: rest)
    (hct : s.child_tracker = i) (hdpc : s.dpc = .check)
    (hpc : (s.fft_child_args i).pc = .receive)
    (hrun : (s.fft_child_args i).is_running = false)
    (hq : (s.fft_child_args i).queue = none) :
    Pool.runNoWait cfg [.dispatcher, .dispatcher, .dispatcher] s
      = some (Pool.during
          { s with
            dpc := .check
            copied := s.copied ++ [{ child := i, frame := f }]
            posted := s.posted ++ [i]
            child_tracker := nextChild cfg.max_children i
            frames := rest }
          i ⟨.receive, false, f, (s.fft_child_args i).magnitude, some FFT_THREAD_START⟩
          s.thread_control s.output_mutex s.outputFile) := by
  simp [Pool.runNoWait, Pool.spinning, Pool.step, Pool.stepDispatcher, Pool.setChild,
    Pool.during, hfr, hct, hdpc, hpc, hrun, hq]

/-- C16 with one worker and two frames `f0`, `f1`, for every kernel, FFT size and
window: after the dispatcher's first four steps the state is reachable, the
dispatcher is at its copy into worker 0, and worker 0 has `is_running = false`
but its queue still holds the START for `f0`, whose samples are in its input
scratch; the dispatcher's next step overwrites them with `f1`. -/
theorem copy_while_start_pending {α β : Type} (K : Kernel α β) (fft_size : Nat)
    (window : List β) (f0 f1 : List α) :
    Pool.Reachable ⟨K, fft_size, 1, window⟩ [f0, f1]
      (Pool.run ⟨K, fft_size, 1, window⟩ handoffSchedule (Pool.start [f0, f1])) ∧
    (Pool.run ⟨K, fft_size, 1, window⟩ handoffSchedule (Pool.start [f0, f1])).dpc = .copy ∧
    (Pool.run ⟨K, fft_size, 1, window⟩ handoffSchedule (Pool.start [f0, f1])).child_tracker
      = 0 ∧
    ((Pool.run ⟨K, fft_size, 1, window⟩ handoffSchedule
      (Pool.start [f0, f1])).fft_child_args 0).is_running = false ∧
    ((Pool.run ⟨K, fft_size, 1, window⟩ handoffSchedule
      (Pool.start [f0, f1])).fft_child_args 0).queue = some FFT_THREAD_START ∧
    ((Pool.run ⟨K, fft_size, 1, window⟩ handoffSchedule
      (Pool.start [f0, f1])).fft_child_args 0).inputData = f0 ∧
    ((Pool.run ⟨K, fft_size, 1, window⟩ (handoffSchedule ++ [.dispatcher])
      (Pool.start [f0, f1])).fft_child_args 0).inputData = f1 ∧
    ((Pool.run ⟨K, fft_size, 1, window⟩ (handoffSchedule ++ [.dispatcher])
      (Pool.start [f0, f1])).fft_child_args 0).queue = some FFT_THREAD_START := by
  refine ⟨Pool.Reachable.run _ _ _ _ Pool.Reachable.start, ?_, ?_, ?_, ?_, ?_, ?_, ?_⟩ <;>
    simp [Pool.run, handoffSchedule, Pool.step, Pool.stepDispatcher, Pool.start,
      Pool.setChild, nextChild, FFT_THREAD_START]

/-! ## Window application in exact arithmetic -/

/-- Scaling by an all-zeros window gives zeros. -/
theorem zipWith_scale_zero (l : List ℂ) (n : Nat) :
    List.zipWith (exactKernel n).scale l (List.replicate n (0 : ℝ))
      = List.replicate (min l.length n) 0 := by
  have h : ∀ (m : Nat) (l : List ℂ),
      List.zipWith (fun (z : ℂ) (w : ℝ) => z * (w : ℂ)) l (List.replicate m (0 : ℝ))
        = List.replicate (min l.length m) 0 := by
    intro m
    induction m with
    | zero => intro l; simp
    | succ m ih =>
      intro l
      cases l with
      | nil => simp
      | cons a l =>
        simp only [List.replicate_succ, List.zipWith_cons_cons, List.length_cons,
          Nat.add_min_add_right, ih l]
        simp
  exact h n l

/-- Scaling by an all-ones window changes nothing. -/
theorem zipWith_scale_one (l : List ℂ) (n : Nat) :
    List.zipWith (exactKernel n).scale l (List.replicate n (1 : ℝ)) = l.take n := by
  have h : ∀ (m : Nat) (l : List ℂ),
      List.zipWith (fun (z : ℂ) (w : ℝ) => z * (w : ℂ)) l (List.replicate m (1 : ℝ))
        = l.take m := by
    intro m
    induction m with
    | zero => intro l; simp
    | succ m ih =>
      intro l
      cases l with
      | nil => simp
      | cons a l =>
        simp only [List.replicate_succ, List.zipWith_cons_cons, List.take_succ_cons, ih l]
        simp
  exact h n l

/-- The exact transform of an input whose first `N` samples are 0 is `N` zeros. -/
theorem exactDFT_zero (N : Nat) (x : List ℂ) (h : ∀ k, k < N → x.getD k 0 = 0) :
    exactDFT N x = List.replicate N 0 := by
  unfold exactDFT
  apply List.ext_getElem
  · simp
  · intro j h1 h2
    simp only [List.getElem_map, List.getElem_range, List.getElem_replicate]
    apply Finset.sum_eq_zero
    intro k hk
    rw [h k (Finset.mem_range.mp hk), zero_mul]

/-- C11: with the worker's numeric calls in exact real and complex arithmetic,
for every frame an all-zeros window makes the written block `2 * (N / 2)` floats
that are all 0, and an all-ones window makes the block the half-swapped
magnitudes of the exact DFT of the raw frame. -/
theorem window_application_exact (N : Nat) (frame : List ℂ) :
    (frameBlock (exactKernel N) N (List.replicate N 0) frame
      = List.replicate (2 * (N / 2)) 0) ∧
    (∀ v ∈ frameBlock (exactKernel N) N (List.replicate N 0) frame, v = 0) ∧
    frameBlock (exactKernel N) N (List.replicate N 1) frame
      = writtenBlock N ((exactDFT N frame).map (fun z => Complex.abs z)) := by
  have hzero : frameBlock (exactKernel N) N (List.replicate N 0) frame
      = List.replicate (2 * (N / 2)) 0 := by
    have hin : ∀ k, k < N →
        (applyWindow (exactKernel N) N frame (List.replicate N 0)).getD k 0 = 0 := by
      intro k hk
      unfold applyWindow
      rw [List.take_replicate, Nat.min_self, zipWith_scale_zero, List.length_take]
      rw [List.getD_eq_getElem?_getD]
      by_cases hkl : k < min (min N frame.length) N
      · rw [List.getElem?_append_left (by simpa using hkl)]
        simp [hkl]
      · rw [List.getElem?_append_right (by simp; omega),
          List.getElem?_eq_none (by simp; omega)]
        rfl
    have hmag : computeMagnitude (exactKernel N) N (List.replicate N 0) frame
        = List.replicate N 0 := by
      unfold computeMagnitude magnitudeOf
      show ((exactDFT N _).take N).map _ = _
      rw [exactDFT_zero N _ hin]
      simp [exactKernel]
    unfold frameBlock writtenBlock negativeFreqs positiveFreqs
    rw [hmag, List.drop_replicate, List.take_replicate, List.take_replicate,
      ← List.replicate_add]
    congr 1
    omega
  refine ⟨hzero, ?_, ?_⟩
  · intro v hv
    rw [hzero] at hv
    exact List.eq_of_mem_replicate hv
  · have hin : applyWindow (exactKernel N) N frame (List.replicate N 1) = frame := by
      unfold applyWindow
      rw [List.take_replicate, Nat.min_self, zipWith_scale_one, List.take_take,
        Nat.min_self, List.take_append_drop]
    unfold frameBlock computeMagnitude magnitudeOf
    rw [hin]
    show writtenBlock N (((exactDFT N frame).take N).map _) = _
    rw [List.take_of_length_le (by simp [exactDFT])]
    rfl

/-! ## energycalculator -/

/-- A pass of the loop of energycalculator that reads a whole sample. -/
theorem energycalculator.body_sample {R : Type} [Semiring R] (b : Int)
    (s : energycalculator.Task R) (x y : R) (rest : List R)
    (hrest : s.inputFile.rest = x :: y :: rest) :
    energycalculator.body b s =
      (if s.iterator + 1 = b then
        { inputFile := { rest := rest, eof := s.inputFile.eof }, i := x, q := y, mag := 0,
          iterator := 0, written := s.written ++ [s.mag + (x ^ 2 + y ^ 2)] }
      else
        { inputFile := { rest := rest, eof := s.inputFile.eof }, i := x, q := y,
          mag := s.mag + (x ^ 2 + y ^ 2), iterator := s.iterator + 1,
          written := s.written }) := by
  simp [energycalculator.body, energycalculator.fread, hrest]

/-- A pass of the loop of energycalculator at the end of the file: both reads
fail, the sample read last is counted once more and the end-of-file indicator is
set. -/
theorem energycalculator.body_at_end {R : Type} [Semiring R] (b : Int)
    (s : energycalculator.Task R) (hrest : s.inputFile.rest = []) :
    energycalculator.body b s =
      (if s.iterator + 1 = b then
        { inputFile := { rest := [], eof := true }, i := s.i, q := s.q, mag := 0,
          iterator := 0, written := s.written ++ [s.mag + (s.i ^ 2 + s.q ^ 2)] }
      else
        { inputFile := { rest := [], eof := true }, i := s.i, q := s.q,
          mag := s.mag + (s.i ^ 2 + s.q ^ 2), iterator := s.iterator + 1,
          written := s.written }) := by
  simp [energycalculator.body, energycalculator.fread, hrest]

/-- What the loop of energycalculator writes from any state on a file of whole
samples: the bins of the energies of the samples left, followed by the energy of
the sample read last (the one in `i`, `q` when the file is exhausted). -/
theorem energycalculator.workLoop_written {R : Type} [Semiring R] (b : Int) :
    ∀ (xs : List (R × R)) (fuel : Nat) (s : energycalculator.Task R),
      s.inputFile.rest = energycalculator.samplesFile xs → s.inputFile.eof = false →
      xs.length + 2 ≤ fuel →
      ∃ s', energycalculator.workLoop b fuel s = some s' ∧
        s'.written = s.written ++ energycalculator.bins b s.iterator s.mag
          (energycalculator.energies (xs ++ [(xs.getLast?.getD (s.i, s.q))])) := by
  intro xs
  induction xs with
  | nil =>
    intro fuel s hrest heof hfuel
    obtain ⟨n, rfl⟩ : ∃ n, fuel = n + 2 := ⟨fuel - 2, by simp at hfuel; omega⟩
    have hrest0 : s.inputFile.rest = [] := by simpa [energycalculator.samplesFile] using hrest
    unfold energycalculator.workLoop
    rw [if_pos heof, energycalculator.body_at_end b s hrest0]
    unfold energycalculator.workLoop
    by_cases hit : s.iterator + 1 = b
    · simp [hit, energycalculator.energies, energycalculator.bins]
    · simp [hit, energycalculator.energies, energycalculator.bins]
  | cons x xs ih =>
    intro fuel s hrest heof hfuel
    obtain ⟨n, rfl⟩ : ∃ n, fuel = n + 1 := ⟨fuel - 1, by simp at hfuel; omega⟩
    have hrest1 : s.inputFile.rest = x.1 :: x.2 :: energycalculator.samplesFile xs := by
      simpa [energycalculator.samplesFile] using hrest
    unfold energycalculator.workLoop
    rw [if_pos heof, energycalculator.body_sample b s x.1 x.2 _ hrest1]
    have hlast : ((x :: xs).getLast?.getD (s.i, s.q)) = xs.getLast?.getD (x.1, x.2) := by
      cases xs with
      | nil => rfl
      | cons y ys =>
        rw [List.getLast?_cons_cons, List.getLast?_eq_getLast _ (List.cons_ne_nil y ys)]
        rfl
    rw [hlast]
    by_cases hit : s.iterator + 1 = b
    · rw [if_pos hit]
      obtain ⟨s', hs', hw⟩ := ih n
        { inputFile := { rest := energycalculator.samplesFile xs, eof := s.inputFile.eof },
          i := x.1, q := x.2, mag := 0, iterator := 0,
          written := s.written ++ [s.mag + (x.1 ^ 2 + x.2 ^ 2)] } rfl heof
        (by simp at hfuel ⊢; omega)
      refine ⟨s', hs', ?_⟩
      rw [hw]
      simp [energycalculator.energies, energycalculator.bins, hit]
    · rw [if_neg hit]
      obtain ⟨s', hs', hw⟩ := ih n
        { inputFile := { rest := energycalculator.samplesFile xs, eof := s.inputFile.eof },
          i := x.1, q := x.2, mag := s.mag + (x.1 ^ 2 + x.2 ^ 2), iterator := s.iterator + 1,
          written := s.written } rfl heof
        (by simp at hfuel ⊢; omega)
      refine ⟨s', hs', ?_⟩
      rw [hw]
      simp [energycalculator.energies, energycalculator.bins, hit]

/-- While fewer energies are left than the current bin still needs, nothing is
written. -/
theorem energycalculator.bins_short {R : Type} [Semiring R] (b : Nat) :
    ∀ (es : List R) (it : Nat) (mag : R), it + es.length < b →
      energycalculator.bins (b : Int) (it : Int) mag es = [] := by
  intro es
  induction es with
  | nil => intro it mag _; rfl
  | cons e es ih =>
    intro it mag h
    simp only [List.length_cons] at h
    unfold energycalculator.bins
    rw [if_neg (by omega)]
    exact_mod_cast ih (it + 1) (mag + e) (by omega)

/-- The energies that complete the current bin produce one value, the partial
sum plus their sum, and the next bin starts from zero. -/
theorem energycalculator.bins_complete {R : Type} [Semiring R] (b : Nat) (rest : List R) :
    ∀ (pre : List R) (it : Nat) (mag : R), pre ≠ [] → it + pre.length = b →
      energycalculator.bins (b : Int) (it : Int) mag (pre ++ rest)
        = (mag + pre.sum) :: energycalculator.bins (b : Int) 0 0 rest := by
  intro pre
  induction pre with
  | nil => intro it mag h _; exact absurd rfl h
  | cons e pre ih =>
    intro it mag _ hlen
    simp only [List.length_cons] at hlen
    rw [List.cons_append]
    conv_lhs => unfold energycalculator.bins
    by_cases hp : pre = []
    · subst hp
      simp only [List.length_nil] at hlen
      rw [if_pos (by omega)]
      simp
    · have hpos : 0 < pre.length := List.length_pos.mpr hp
      rw [if_neg (by omega)]
      have h := ih (it + 1) (mag + e) hp (by omega)
      rw [List.sum_cons, ← add_assoc]
      exact_mod_cast h

/-- From an empty bin, the values written are the sums of the successive
groups of `b` energies: one value per complete group. -/
theorem energycalculator.bins_groups {R : Type} [Semiring R] (b : Nat) (hb : 1 ≤ b) :
    ∀ (n : Nat) (es : List R), es.length = n →
      (energycalculator.bins (b : Int) 0 0 es).length = es.length / b ∧
      ∀ j, j < es.length / b →
        (energycalculator.bins (b : Int) 0 0 es)[j]?
          = some ((es.drop (j * b)).take b).sum := by
  intro n
  induction n using Nat.strong_induction_on with
  | _ n ih =>
    intro es hn
    rcases Nat.lt_or_ge es.length b with hlt | hge
    · have h0 : es.length / b = 0 := Nat.div_eq_of_lt hlt
      have hb0 := energycalculator.bins_short b es 0 (0 : R) (by omega)
      rw [Nat.cast_zero] at hb0
      rw [hb0, h0]
      exact ⟨rfl, fun j hj => absurd hj (Nat.not_lt_zero _)⟩
    · have htake : (es.take b).length = b := by rw [List.length_take]; omega
      have hne : es.take b ≠ [] := by
        intro h
        rw [h] at htake
        simp at htake
        omega
      have hsplit := energycalculator.bins_complete b (es.drop b) (es.take b) 0 (0 : R) hne
        (by omega)
      rw [List.take_append_drop, Nat.cast_zero, zero_add] at hsplit
      have hdrop : (es.drop b).length = es.length - b := List.length_drop _ _
      obtain ⟨hl, hg⟩ := ih (es.length - b) (by omega) (es.drop b) hdrop
      have hdiv : es.length / b = (es.length - b) / b + 1 :=
        Nat.div_eq_sub_div (by omega) hge
      rw [hsplit]
      constructor
      · rw [List.length_cons, hl, hdrop, hdiv]
      · intro j hj
        cases j with
        | zero => simp
        | succ j =>
          rw [List.getElem?_cons_succ, hg j (by rw [hdrop]; omega), List.drop_drop]
          congr 3
          rw [Nat.add_mul, Nat.one_mul, Nat.add_comm]

/-- The values energycalculator writes for a file of whole samples are the bins
of the energies of the samples followed by the energy of the last sample once
more (of `(0, 0)` for an empty file): the pass on which both reads fail still
adds `i^2 + q^2` and counts a sample. -/
theorem energycalculator.calculateTask_written {R : Type} [Semiring R] (b : Int)
    (xs : List (R × R)) :
    energycalculator.calculateTask b (energycalculator.samplesFile xs)
      = some (energycalculator.bins b 0 0
          (energycalculator.energies (xs ++ [xs.getLast?.getD (0, 0)]))) := by
  have hlen : (energycalculator.samplesFile xs).length = 2 * xs.length := by
    induction xs with
    | nil => rfl
    | cons x xs ih =>
      simp only [energycalculator.samplesFile, List.flatMap_cons, List.length_append,
        List.length_cons, List.length_nil] at ih ⊢
      omega
  obtain ⟨s', hs', hw⟩ := energycalculator.workLoop_written b xs
    ((energycalculator.samplesFile xs).length + 2)
    (energycalculator.start (energycalculator.samplesFile xs)) rfl rfl (by omega)
  unfold energycalculator.calculateTask
  rw [hs', Option.map_some', hw]
  rfl

/-- Number of values energycalculator writes for `L` whole samples and a bin
size `b >= 1`: `(L + 1) / b`, the pass at the end of the file counting as one
more sample. -/
theorem energycalculator.written_count {R : Type} [Semiring R] (b : Nat) (hb : 1 ≤ b)
    (xs : List (R × R)) :
    (energycalculator.calculateTask (b : Int) (energycalculator.samplesFile xs)).map
      List.length = some ((xs.length + 1) / b) := by
  rw [energycalculator.calculateTask_written, Option.map_some',
    (energycalculator.bins_groups b hb _ _ rfl).1]
  simp [energycalculator.energies]

/-- C21: in `calculateTask` of energycalculator, for every bin size `b >= 1` and
every input of `L` complex samples, the run ends and for each `j < L / b` the
j-th value written is the sum of `i^2 + q^2` over the samples at positions
`[j*b, (j+1)*b)`, in exact arithmetic; with `b = 4` the input
`(1,0),(0,1),(1,1),(2,0)` writes 8 first. -/
theorem energy_bin_values {R : Type} [Semiring R] (b : Nat) (hb : 1 ≤ b)
    (xs : List (R × R)) :
    (∃ out, energycalculator.calculateTask (b : Int) (energycalculator.samplesFile xs)
        = some out ∧
      ∀ j, j < xs.length / b →
        out[j]? = some (((xs.drop (j * b)).take b).map (fun s => s.1 ^ 2 + s.2 ^ 2)).sum) ∧
    (energycalculator.calculateTask 4
        (energycalculator.samplesFile [((1 : ℚ), (0 : ℚ)), (0, 1), (1, 1), (2, 0)])).map
      List.head? = some (some 8) := by
  constructor
  · refine ⟨_, energycalculator.calculateTask_written (b : Int) xs, ?_⟩
    intro j hj
    have hle : j * b + b ≤ xs.length := by
      have h1 : (j + 1) * b ≤ xs.length := (Nat.le_div_iff_mul_le (by omega)).mp hj
      rw [Nat.add_mul, Nat.one_mul] at h1
      exact h1
    have hj2 : j < (energycalculator.energies (xs ++ [xs.getLast?.getD (0, 0)])).length / b := by
      simp only [energycalculator.energies, List.length_map, List.length_append,
        List.length_singleton]
      exact lt_of_lt_of_le hj (Nat.div_le_div_right (Nat.le_succ _))
    rw [(energycalculator.bins_groups b hb _ _ rfl).2 j hj2]
    congr 2
    unfold energycalculator.energies
    rw [← List.map_drop, ← List.map_take, List.drop_append_of_le_length (by omega),
      List.take_append_of_le_length (by rw [List.length_drop]; omega)]
  · rw [energycalculator.calculateTask_written]
    simp [energycalculator.energies, energycalculator.bins]
    norm_num

/-- Witness for C21: bin size 2 on the three samples `(1,2),(3,4),(5,6)`. -/
theorem energy_bin_values_witness :
    1 ≤ 2 ∧
    ∃ out, energycalculator.calculateTask ((2 : Nat) : Int)
        (energycalculator.samplesFile [((1 : Int), (2 : Int)), (3, 4), (5, 6)]) = some out ∧
      ∀ j, j < [((1 : Int), (2 : Int)), (3, 4), (5, 6)].length / 2 →
        out[j]? = some ((([((1 : Int), (2 : Int)), (3, 4), (5, 6)].drop (j * 2)).take 2).map
          (fun s => s.1 ^ 2 + s.2 ^ 2)).sum :=
  ⟨by decide, (energy_bin_values 2 (by decide) [((1 : Int), (2 : Int)), (3, 4), (5, 6)]).1⟩

/-- C22 fails: the loop tests `feof` before reading, so after the last sample it
runs once more; both reads fail, `i` and `q` keep the last sample, its energy is
added again and `iterator` advances.  With bin size 1 the single sample `(3,4)`
gives two values where there is one complete bin, and with bin size 2 it gives
the value 50 where there is no complete bin. -/
theorem energy_extra_pass_at_eof :
    energycalculator.calculateTask 1 (energycalculator.samplesFile [((3 : Int), (4 : Int))])
      = some [25, 25] ∧
    [((3 : Int), (4 : Int))].length / 1 = 1 ∧
    energycalculator.calculateTask 2 (energycalculator.samplesFile [((3 : Int), (4 : Int))])
      = some [50] ∧
    [((3 : Int), (4 : Int))].length / 2 = 0 := by
  refine ⟨?_, rfl, ?_, rfl⟩ <;> decide

/-! ## Ring access and the two-segment copy -/

/-- The two-segment copy of a ring of length `N` from a head inside it has
length `N`. -/
theorem copyFrame_length {α : Type} (N h : Nat) (ring : List α) (hlen : ring.length = N)
    (hh : h ≤ N) : (copyFrame N h ring).length = N := by
  unfold copyFrame
  rw [List.length_append, List.length_take, List.length_take, List.length_drop, hlen]
  omega

/-- Element `j` of the two-segment copy is element `(h + j) mod N` of the
ring. -/
theorem copyFrame_getElem {α : Type} (N h : Nat) (ring : List α) (hlen : ring.length = N)
    (hh : h < N) (j : Nat) (hj : j < N) :
    (copyFrame N h ring)[j]? = ring[(h + j) % N]? := by
  unfold copyFrame
  have h1 : ((ring.drop h).take (N - h)).length = N - h := by
    rw [List.length_take, List.length_drop, hlen]; omega
  rcases Nat.lt_or_ge j (N - h) with hlt | hge
  · rw [List.getElem?_append_left (by rw [h1]; exact hlt), List.getElem?_take_of_lt hlt,
      List.getElem?_drop, Nat.mod_eq_of_lt (by omega)]
  · rw [List.getElem?_append_right (by rw [h1]; exact hge), h1,
      List.getElem?_take_of_lt (by omega)]
    congr 1
    rw [Nat.mod_eq_sub_mod (by omega), Nat.mod_eq_of_lt (by omega)]
    omega

/-- The two-segment copy from head 0 is the ring itself. -/
theorem copyFrame_zero {α : Type} (N : Nat) (ring : List α) (hlen : ring.length = N) :
    copyFrame N 0 ring = ring := by
  unfold copyFrame
  rw [List.drop_zero, List.take_zero, List.append_nil, Nat.sub_zero]
  exact List.take_of_length_le (by omega)

/-- The loop body of fftcompute keeps `head` at the start of one of the `O`
hops of the buffer. -/
theorem fftcompute.body_head_slot {α : Type} (cfg : Config) (hhop : 0 < cfg.fft_interval_size)
    (hNO : cfg.FFTSize = cfg.FFTOverlap * cfg.fft_interval_size)
    (s : fftcompute.Dispatcher α)
    (h : ∃ i, i < cfg.FFTOverlap ∧ s.head = i * cfg.fft_interval_size) :
    ∃ i, i < cfg.FFTOverlap ∧ (fftcompute.body cfg s).head = i * cfg.fft_interval_size := by
  obtain ⟨i, hi, hhead⟩ := h
  have hnext : ¬ (s.head + cfg.fft_interval_size = cfg.FFTSize) → i + 1 < cfg.FFTOverlap := by
    intro hend
    rw [hhead, hNO] at hend
    have := mt (hop_end_iff cfg.FFTOverlap _ i hhop).mpr hend
    omega
  have hsucc : s.head + cfg.fft_interval_size = (i + 1) * cfg.fft_interval_size := by
    rw [hhead, Nat.add_mul, Nat.one_mul]
  unfold fftcompute.body
  split
  · split
    · exact ⟨i, hi, hhead⟩
    · rename_i hend
      exact ⟨i + 1, hnext hend, hsucc⟩
  · simp only
    split
    · split
      · exact ⟨0, by omega, by rw [Nat.zero_mul]⟩
      · rename_i hend
        exact ⟨i + 1, hnext hend, hsucc⟩
    · exact ⟨i, hi, hhead⟩

/-- The loop body of usrp-sensor keeps `head` at the start of one of the `O`
hops of the buffer, whatever `recv` returned. -/
theorem usrp_sensor.recv_body_head_slot {α : Type} (cfg : Config)
    (hhop : 0 < cfg.fft_interval_size)
    (hNO : cfg.FFTSize = cfg.FFTOverlap * cfg.fft_interval_size)
    (r : usrp_sensor.Recv α) (s : usrp_sensor.Dispatcher α)
    (h : ∃ i, i < cfg.FFTOverlap ∧ s.head = i * cfg.fft_interval_size) :
    ∃ i, i < cfg.FFTOverlap ∧ (usrp_sensor.body cfg r s).head = i * cfg.fft_interval_size := by
  obtain ⟨i, hi, hhead⟩ := h
  have hnew : ∃ i', i' < cfg.FFTOverlap ∧
      (if s.head + cfg.fft_interval_size = cfg.FFTSize then 0
       else s.head + cfg.fft_interval_size) = i' * cfg.fft_interval_size := by
    by_cases hend : s.head + cfg.fft_interval_size = cfg.FFTSize
    · exact ⟨0, by omega, by rw [if_pos hend, Nat.zero_mul]⟩
    · refine ⟨i + 1, ?_, by rw [if_neg hend, hhead, Nat.add_mul, Nat.one_mul]⟩
      rw [hhead, hNO] at hend
      have := mt (hop_end_iff cfg.FFTOverlap _ i hhop).mpr hend
      omega
  unfold usrp_sensor.body
  simp only
  split
  · split
    · exact hnew
    · exact hnew
  · exact ⟨i, hi, hhead⟩

/-- What a head at the start of one of the `O` hops gives: it is a multiple of
the hop, the hop read at it ends inside the buffer, and the two lengths of the
copy add up to `N`. -/
theorem head_slot_bounds (cfg : Config)
    (hNO : cfg.FFTSize = cfg.FFTOverlap * cfg.fft_interval_size) (head : Nat)
    (h : ∃ i, i < cfg.FFTOverlap ∧ head = i * cfg.fft_interval_size) :
    cfg.fft_interval_size ∣ head ∧ head + cfg.fft_interval_size ≤ cfg.FFTSize ∧
    (cfg.FFTSize - head) + head = cfg.FFTSize := by
  obtain ⟨i, hi, hhead⟩ := h
  have hle : head + cfg.fft_interval_size ≤ cfg.FFTSize := by
    rw [hhead, hNO, ← Nat.succ_mul]
    exact Nat.mul_le_mul_right _ hi
  exact ⟨⟨i, by rw [hhead, Nat.mul_comm]⟩, hle, by omega⟩

/-- C26: in both dispatchers, for `N > 0` and `O >= 1` dividing `N` (hop `= N/O`),
after any number of passes of the loop body (from the start state, whatever was
read or received) `head` is a multiple of the hop with `head + hop <= N`, so the
hop stored at `head` lies inside the `N`-sample ring, and the two lengths of the
copy, `N - head` and `head`, add up to `N`. -/
theorem head_invariant_in_bounds {α : Type} (cfg : Config) (hN : 0 < cfg.FFTSize)
    (hO : 1 ≤ cfg.FFTOverlap) (hdiv : cfg.FFTOverlap ∣ cfg.FFTSize) (mem : List α) :
    (∀ (input : List α) (n : Nat),
      cfg.fft_interval_size ∣
        ((fun s => fftcompute.body cfg (fftcompute.afterRead cfg s))^[n]
          (fftcompute.start mem input)).head ∧
      ((fun s => fftcompute.body cfg (fftcompute.afterRead cfg s))^[n]
          (fftcompute.start mem input)).head + cfg.fft_interval_size ≤ cfg.FFTSize ∧
      (cfg.FFTSize - ((fun s => fftcompute.body cfg (fftcompute.afterRead cfg s))^[n]
          (fftcompute.start mem input)).head)
        + ((fun s => fftcompute.body cfg (fftcompute.afterRead cfg s))^[n]
          (fftcompute.start mem input)).head = cfg.FFTSize) ∧
    (∀ recvs : List (usrp_sensor.Recv α),
      cfg.fft_interval_size ∣
        (recvs.foldl (fun s r => usrp_sensor.body cfg r s) (usrp_sensor.start mem)).head ∧
      (recvs.foldl (fun s r => usrp_sensor.body cfg r s) (usrp_sensor.start mem)).head
        + cfg.fft_interval_size ≤ cfg.FFTSize ∧
      (cfg.FFTSize
          - (recvs.foldl (fun s r => usrp_sensor.body cfg r s) (usrp_sensor.start mem)).head)
        + (recvs.foldl (fun s r => usrp_sensor.body cfg r s) (usrp_sensor.start mem)).head
        = cfg.FFTSize) := by
  obtain ⟨hhop, hNO⟩ := cfg.hop_facts hN hO hdiv
  constructor
  · intro input n
    apply head_slot_bounds cfg hNO
    induction n with
    | zero => exact ⟨0, by omega, by simp [fftcompute.start]⟩
    | succ n ih =>
      rw [Function.iterate_succ_apply']
      exact fftcompute.body_head_slot cfg hhop hNO _ ih
  · intro recvs
    apply head_slot_bounds cfg hNO
    have hgen : ∀ (rs : List (usrp_sensor.Recv α)) (s : usrp_sensor.Dispatcher α),
        (∃ i, i < cfg.FFTOverlap ∧ s.head = i * cfg.fft_interval_size) →
        ∃ i, i < cfg.FFTOverlap ∧
          (rs.foldl (fun s r => usrp_sensor.body cfg r s) s).head
            = i * cfg.fft_interval_size := by
      intro rs
      induction rs with
      | nil => intro s h; exact h
      | cons r rs ih =>
        intro s h
        exact ih _ (usrp_sensor.recv_body_head_slot cfg hhop hNO r s h)
    exact hgen recvs _ ⟨0, by omega, by simp [usrp_sensor.start]⟩

/-- Witness for C26: `N = 4`, `O = 2`; three passes of fftcompute over `0..12`
and two hops from the radio. -/
theorem head_invariant_in_bounds_witness :
    0 < (Config.mk 4 2 3).FFTSize ∧ 1 ≤ (Config.mk 4 2 3).FFTOverlap ∧
    (Config.mk 4 2 3).FFTOverlap ∣ (Config.mk 4 2 3).FFTSize ∧
    ((fun s => fftcompute.body (Config.mk 4 2 3) (fftcompute.afterRead (Config.mk 4 2 3) s))^[3]
        (fftcompute.start [0, 0, 0, 0] (List.range 13))).head
      + (Config.mk 4 2 3).fft_interval_size ≤ (Config.mk 4 2 3).FFTSize ∧
    (([⟨[1, 2], .ERROR_CODE_NONE⟩, ⟨[3, 4], .ERROR_CODE_NONE⟩] :
          List (usrp_sensor.Recv Nat)).foldl
        (fun s r => usrp_sensor.body (Config.mk 4 2 3) r s)
        (usrp_sensor.start [0, 0, 0, 0])).head
      + (Config.mk 4 2 3).fft_interval_size ≤ (Config.mk 4 2 3).FFTSize :=
  ⟨by decide, by decide, by decide,
   ((head_invariant_in_bounds (Config.mk 4 2 3) (by decide) (by decide) (by decide)
      [0, 0, 0, 0]).1 (List.range 13) 3).2.1,
   ((head_invariant_in_bounds (Config.mk 4 2 3) (by decide) (by decide) (by decide)
      [0, 0, 0, 0]).2 [⟨[1, 2], .ERROR_CODE_NONE⟩, ⟨[3, 4], .ERROR_CODE_NONE⟩]).2.1⟩

/-- C27: for a ring of length `N` and a head `h < N`, the frame built by copying
`ring[h..N)` to the front and `ring[0..h)` behind it has length `N` and its
element `j` is `ring[(h + j) mod N]` for every `j < N`; for `h = 0` the frame is
the ring unchanged, and with `O = 1` the loop body of either dispatcher leaves
`head` at 0. -/
theorem two_segment_copy_rotation {α : Type} (N h : Nat) (ring : List α)
    (hlen : ring.length = N) (hh : h < N) :
    (copyFrame N h ring).length = N ∧
    (∀ j, j < N → (copyFrame N h ring)[j]? = ring[(h + j) % N]?) ∧
    copyFrame N 0 ring = ring ∧
    (∀ (W : Nat) (s : fftcompute.Dispatcher α), s.head = 0 →
      (fftcompute.body (Config.mk N 1 W) s).head = 0) ∧
    (∀ (W : Nat) (r : usrp_sensor.Recv α) (s : usrp_sensor.Dispatcher α), s.head = 0 →
      (usrp_sensor.body (Config.mk N 1 W) r s).head = 0) := by
  refine ⟨copyFrame_length N h ring hlen (by omega),
    fun j hj => copyFrame_getElem N h ring hlen hh j hj, copyFrame_zero N ring hlen, ?_, ?_⟩
  · intro W s hs
    have hhop : (Config.mk N 1 W).fft_interval_size = N := by
      simp [Config.fft_interval_size]
    obtain ⟨i, hi, hhead⟩ := fftcompute.body_head_slot (Config.mk N 1 W)
      (by rw [hhop]; omega) (by rw [hhop]; simp) s ⟨0, by simp, by rw [hs, Nat.zero_mul]⟩
    have hi0 : i = 0 := by
      have : i < 1 := hi
      omega
    rw [hhead, hi0, Nat.zero_mul]
  · intro W r s hs
    have hhop : (Config.mk N 1 W).fft_interval_size = N := by
      simp [Config.fft_interval_size]
    obtain ⟨i, hi, hhead⟩ := usrp_sensor.recv_body_head_slot (Config.mk N 1 W)
      (by rw [hhop]; omega) (by rw [hhop]; simp) r s ⟨0, by simp, by rw [hs, Nat.zero_mul]⟩
    have hi0 : i = 0 := by
      have : i < 1 := hi
      omega
    rw [hhead, hi0, Nat.zero_mul]

/-- Witness for C27: the ring `10, 11, 12, 13` read from head 1. -/
theorem two_segment_copy_rotation_witness :
    ([10, 11, 12, 13] : List Nat).length = 4 ∧ 1 < 4 ∧
    (copyFrame 4 1 [10, 11, 12, 13]).length = 4 ∧
    (∀ j, j < 4 → (copyFrame 4 1 [10, 11, 12, 13])[j]? = [10, 11, 12, 13][(1 + j) % 4]?) :=
  ⟨rfl, by decide,
   (two_segment_copy_rotation 4 1 [10, 11, 12, 13] rfl (by decide)).1,
   (two_segment_copy_rotation 4 1 [10, 11, 12, 13] rfl (by decide)).2.1⟩

/-- C30: in the work loop of usrp-sensor, a pass whose `recv` returns a sample
count different from the hop leaves the ring buffer, `head`, `isFull`,
`child_tracker`, `samples_recorded` and the dispatch log as they were; only
`return_code` may change, through the error code. -/
theorem short_recv_is_noop {α : Type} (cfg : Config) (r : usrp_sensor.Recv α)
    (s : usrp_sensor.Dispatcher α) (h : r.samples.length ≠ cfg.fft_interval_size) :
    usrp_sensor.body cfg r s
      = { s with return_code := usrp_sensor.checkError r.error_code s.return_code } ∧
    (usrp_sensor.body cfg r s).input_buffer = s.input_buffer ∧
    (usrp_sensor.body cfg r s).head = s.head ∧
    (usrp_sensor.body cfg r s).isFull = s.isFull ∧
    (usrp_sensor.body cfg r s).child_tracker = s.child_tracker ∧
    (usrp_sensor.body cfg r s).samples_recorded = s.samples_recorded ∧
    (usrp_sensor.body cfg r s).dispatched = s.dispatched := by
  have hb : usrp_sensor.body cfg r s
      = { s with return_code := usrp_sensor.checkError r.error_code s.return_code } := by
    unfold usrp_sensor.body
    simp only
    rw [if_neg h]
  rw [hb]
  exact ⟨rfl, rfl, rfl, rfl, rfl, rfl, rfl⟩

/-- Witness for C30: with hop 2, a `recv` of one sample flagged as overflow. -/
theorem short_recv_is_noop_witness :
    (⟨[7], .ERROR_CODE_OVERFLOW⟩ : usrp_sensor.Recv Nat).samples.length
      ≠ (Config.mk 4 2 3).fft_interval_size ∧
    usrp_sensor.body (Config.mk 4 2 3) ⟨[7], .ERROR_CODE_OVERFLOW⟩
        (usrp_sensor.start [0, 0, 0, 0])
      = { usrp_sensor.start [0, 0, 0, 0] with
          return_code := usrp_sensor.checkError .ERROR_CODE_OVERFLOW
            (usrp_sensor.start ([0, 0, 0, 0] : List Nat)).return_code } :=
  ⟨by decide,
   (short_recv_is_noop (Config.mk 4 2 3) ⟨[7], .ERROR_CODE_OVERFLOW⟩
      (usrp_sensor.start [0, 0, 0, 0]) (by decide)).1⟩

/-! ## SDR dispatcher: sample cap -/

/-- The number of hops needed to reach `M` samples: `j` hops fall short of `M`
exactly when `j` is below `ceil(M / hop)`, and that many hops overshoot by less
than a hop. -/
theorem ceil_hops (M hop : Nat) (hhop : 0 < hop) :
    (∀ j, j * hop < M ↔ j < (M + hop - 1) / hop) ∧
    M ≤ (M + hop - 1) / hop * hop ∧ (M + hop - 1) / hop * hop < M + hop := by
  refine ⟨?_, ?_, ?_⟩
  · intro j
    rw [Nat.lt_iff_add_one_le (m := j), Nat.le_div_iff_mul_le hhop, Nat.add_mul, Nat.one_mul]
    omega
  · have h1 := Nat.div_add_mod (M + hop - 1) hop
    have h2 := Nat.mod_lt (M + hop - 1) hhop
    rw [Nat.mul_comm] at h1
    omega
  · have h := Nat.div_mul_le_self (M + hop - 1) hop
    omega

/-- Over `recv` calls that all deliver a full hop without error, the work loop
of usrp-sensor started after `j` hops runs until `ceil(M / hop)` hops have been
recorded, one `recv` call per hop. -/
theorem usrp_sensor.workLoop_cap {α : Type} (cfg : Config) (hhop : 0 < cfg.fft_interval_size)
    (hNO : cfg.FFTSize = cfg.FFTOverlap * cfg.fft_interval_size)
    (mem S : List α) (hmem : mem.length = cfg.FFTSize) (M : Nat) :
    ∀ (recvs : List (usrp_sensor.Recv α)) (j : Nat) (s : usrp_sensor.Dispatcher α),
      usrp_sensor.Inv cfg mem S j s → s.return_code ≠ 0 →
      S.drop (j * cfg.fft_interval_size) = usrp_sensor.stream recvs →
      (∀ r ∈ recvs, r.samples.length = cfg.fft_interval_size ∧
        r.error_code = .ERROR_CODE_NONE) →
      j ≤ (M + cfg.fft_interval_size - 1) / cfg.fft_interval_size →
      (M + cfg.fft_interval_size - 1) / cfg.fft_interval_size ≤ j + recvs.length →
      usrp_sensor.Inv cfg mem S ((M + cfg.fft_interval_size - 1) / cfg.fft_interval_size)
        (usrp_sensor.workLoop cfg M recvs s) ∧
      usrp_sensor.recvCalls cfg M recvs s
        = (M + cfg.fft_interval_size - 1) / cfg.fft_interval_size - j := by
  obtain ⟨hceil, _, _⟩ := ceil_hops M cfg.fft_interval_size hhop
  generalize (M + cfg.fft_interval_size - 1) / cfg.fft_interval_size = c at hceil ⊢
  intro recvs
  induction recvs with
  | nil =>
    intro j s h _ _ _ hj hc
    have hjc : j = c := by simp at hc; omega
    subst hjc
    exact ⟨h, by simp [usrp_sensor.recvCalls]⟩
  | cons r rs ih =>
    intro j s h hrc hS hall hj hc
    unfold usrp_sensor.workLoop usrp_sensor.recvCalls
    by_cases hlt : j < c
    · have hcond : s.samples_recorded < M ∧ s.return_code ≠ 0 := by
        refine ⟨?_, hrc⟩
        rw [h.recorded]
        exact (hceil j).mpr hlt
      rw [if_pos hcond, if_pos hcond]
      obtain ⟨hlen, herr⟩ := hall r (List.mem_cons_self _ _)
      have hS2 : S.drop (j * cfg.fft_interval_size) = r.samples ++ usrp_sensor.stream rs := by
        rw [hS]; simp [usrp_sensor.stream]
      have hnext : S.take (j * cfg.fft_interval_size + cfg.fft_interval_size)
          = S.take (j * cfg.fft_interval_size) ++ r.samples := by
        rw [List.take_add, hS2, List.take_left' hlen]
      have hin : j * cfg.fft_interval_size + cfg.fft_interval_size ≤ S.length := by
        have h1 := congrArg List.length hS2
        rw [List.length_drop, List.length_append, hlen] at h1
        have h2 := h.in_stream
        omega
      obtain ⟨hI, hcalls⟩ := ih (j + 1) _
        (usrp_sensor.body_inv cfg hhop hNO mem S hmem j r s h hlen herr hnext hin)
        (by rw [(usrp_sensor.body_good cfg r s hlen herr).2.2.2.2.1]; exact hrc)
        (by rw [Nat.add_mul, Nat.one_mul, ← List.drop_drop, hS2, List.drop_left' hlen])
        (fun r' hr' => hall r' (List.mem_cons_of_mem _ hr')) hlt
        (by simp at hc; omega)
      exact ⟨hI, by rw [hcalls]; omega⟩
    · have hjc : j = c := by omega
      subst hjc
      have hcond : ¬ (s.samples_recorded < M ∧ s.return_code ≠ 0) := by
        intro hcnd
        rw [h.recorded] at hcnd
        exact hlt ((hceil j).mp hcnd.1)
      rw [if_neg hcond, if_neg hcond]
      exact ⟨h, by simp⟩

/-- C29: in usrp-sensor, for a cap `M` (0 included) and a hop `>= 1` (of a configuration
with `O` dividing `N`, as `main` has checked), when every `recv` returns exactly
hop samples without error the work loop issues exactly `ceil(M / hop)` `recv`
calls, ends with `M <= samples_recorded < M + hop`, and dispatches exactly
`max(0, ceil(M / hop) - O + 1)` frames. -/
theorem sample_cap_recv_count {α : Type} (cfg : Config) (M : Nat)
    (hhop : 1 ≤ cfg.fft_interval_size) (hdiv : cfg.FFTOverlap ∣ cfg.FFTSize)
    (mem : List α) (hmem : mem.length = cfg.FFTSize)
    (recvs : List (usrp_sensor.Recv α))
    (hall : ∀ r ∈ recvs, r.samples.length = cfg.fft_interval_size ∧
      r.error_code = .ERROR_CODE_NONE)
    (hlen : (M + cfg.fft_interval_size - 1) / cfg.fft_interval_size ≤ recvs.length) :
    usrp_sensor.recvCalls cfg M recvs (usrp_sensor.start mem)
      = (M + cfg.fft_interval_size - 1) / cfg.fft_interval_size ∧
    M ≤ (usrp_sensor.calculateTask cfg M mem recvs).samples_recorded ∧
    (usrp_sensor.calculateTask cfg M mem recvs).samples_recorded
      < M + cfg.fft_interval_size ∧
    (usrp_sensor.calculateTask cfg M mem recvs).dispatched.length
      = (M + cfg.fft_interval_size - 1) / cfg.fft_interval_size + 1 - cfg.FFTOverlap := by
  have hNO : cfg.FFTSize = cfg.FFTOverlap * cfg.fft_interval_size := by
    unfold Config.fft_interval_size
    exact (Nat.mul_div_cancel' hdiv).symm
  have hO : 1 ≤ cfg.FFTOverlap := by
    by_contra hO0
    have h0 : cfg.FFTOverlap = 0 := by omega
    unfold Config.fft_interval_size at hhop
    rw [h0, Nat.div_zero] at hhop
    exact absurd hhop (by decide)
  obtain ⟨_, hge, hlt⟩ := ceil_hops M cfg.fft_interval_size hhop
  obtain ⟨hI, hcalls⟩ := usrp_sensor.workLoop_cap cfg hhop hNO mem (usrp_sensor.stream recvs)
    hmem M recvs 0 (usrp_sensor.start mem) (usrp_sensor.start_inv cfg hO mem _ hmem)
    (by simp [usrp_sensor.start]) (by rw [Nat.zero_mul]; rfl) hall (Nat.zero_le _)
    (by rw [Nat.zero_add]; exact hlen)
  change usrp_sensor.Inv cfg mem (usrp_sensor.stream recvs) _
    (usrp_sensor.calculateTask cfg M mem recvs) at hI
  refine ⟨by rw [hcalls, Nat.sub_zero], ?_, ?_, hI.count⟩
  · rw [hI.recorded]; exact hge
  · rw [hI.recorded]; exact hlt

/-- Witness for C29: `N = 4`, `O = 2` (hop 2) and a cap of 5 samples: three
`recv` calls, 6 samples recorded, 2 frames. -/
theorem sample_cap_recv_count_witness :
    usrp_sensor.recvCalls (Config.mk 4 2 3) 5
        [⟨[1, 2], .ERROR_CODE_NONE⟩, ⟨[3, 4], .ERROR_CODE_NONE⟩, ⟨[5, 6], .ERROR_CODE_NONE⟩,
         ⟨[7, 8], .ERROR_CODE_NONE⟩] (usrp_sensor.start [0, 0, 0, 0])
      = (5 + (Config.mk 4 2 3).fft_interval_size - 1) / (Config.mk 4 2 3).fft_interval_size ∧
    5 ≤ (usrp_sensor.calculateTask (Config.mk 4 2 3) 5 [0, 0, 0, 0]
        [⟨[1, 2], .ERROR_CODE_NONE⟩, ⟨[3, 4], .ERROR_CODE_NONE⟩, ⟨[5, 6], .ERROR_CODE_NONE⟩,
         ⟨[7, 8], .ERROR_CODE_NONE⟩]).samples_recorded ∧
    (usrp_sensor.calculateTask (Config.mk 4 2 3) 5 [0, 0, 0, 0]
        [⟨[1, 2], .ERROR_CODE_NONE⟩, ⟨[3, 4], .ERROR_CODE_NONE⟩, ⟨[5, 6], .ERROR_CODE_NONE⟩,
         ⟨[7, 8], .ERROR_CODE_NONE⟩]).samples_recorded
      < 5 + (Config.mk 4 2 3).fft_interval_size ∧
    (usrp_sensor.calculateTask (Config.mk 4 2 3) 5 [0, 0, 0, 0]
        [⟨[1, 2], .ERROR_CODE_NONE⟩, ⟨[3, 4], .ERROR_CODE_NONE⟩, ⟨[5, 6], .ERROR_CODE_NONE⟩,
         ⟨[7, 8], .ERROR_CODE_NONE⟩]).dispatched.length
      = (5 + (Config.mk 4 2 3).fft_interval_size - 1) / (Config.mk 4 2 3).fft_interval_size
          + 1 - (Config.mk 4 2 3).FFTOverlap :=
  sample_cap_recv_count (Config.mk 4 2 3) 5 (by decide) (by decide)
    [0, 0, 0, 0] rfl
    [⟨[1, 2], .ERROR_CODE_NONE⟩, ⟨[3, 4], .ERROR_CODE_NONE⟩, ⟨[5, 6], .ERROR_CODE_NONE⟩,
     ⟨[7, 8], .ERROR_CODE_NONE⟩] (by decide) (by decide)

/-! ## File dispatcher: steady state -/

/-- A run of the work loop of fftcompute that ends either leaves the dispatch
log as it was or starts with a pass whose read is full. -/
theorem fftcompute.workLoop_pass {α : Type} (cfg : Config) (n : Nat)
    (s s' : fftcompute.Dispatcher α) (h : fftcompute.workLoop cfg (n + 1) s = some s') :
    s'.dispatched = s.dispatched ∨
    (s.inputFile.eof = false ∧ cfg.fft_interval_size ≤ s.inputFile.rest.length ∧
      fftcompute.workLoop cfg n (fftcompute.body cfg (fftcompute.afterRead cfg s)) = some s') := by
  by_cases hcond : s.inputFile.eof = false ∧ s.return_code ≠ 0
  · rcases Nat.lt_or_ge s.inputFile.rest.length cfg.fft_interval_size with hshort | hfull
    · obtain ⟨t, ht, hd⟩ := fftcompute.workLoop_short cfg n s hcond.1 hcond.2 hshort
      rw [h] at ht
      cases ht
      exact Or.inl hd
    · rw [fftcompute.workLoop_full cfg n s hcond.1 hcond.2 hfull] at h
      exact Or.inr ⟨hcond.1, hfull, h⟩
  · unfold fftcompute.workLoop at h
    rw [if_neg hcond] at h
    cases h
    exact Or.inl rfl

/-- The state after a full read at a head inside the buffer: the hop read, the
buffer and the rest of the file. -/
theorem fftcompute.afterRead_full {α : Type} (cfg : Config) (hhop : 0 < cfg.fft_interval_size)
    (s : fftcompute.Dispatcher α)
    (X : List α) (p : Nat) (hrest : s.inputFile.rest = X.drop p)
    (hfull : cfg.fft_interval_size ≤ s.inputFile.rest.length) :
    (fftcompute.afterRead cfg s).input_buffer
      = store s.input_buffer s.head ((X.drop p).take cfg.fft_interval_size) ∧
    ((X.drop p).take cfg.fft_interval_size).length = cfg.fft_interval_size ∧
    (fftcompute.afterRead cfg s).inputFile.rest = X.drop (p + cfg.fft_interval_size) ∧
    p + cfg.fft_interval_size ≤ X.length ∧
    (fftcompute.afterRead cfg s).head = s.head ∧
    (fftcompute.afterRead cfg s).isFull = s.isFull ∧
    (fftcompute.afterRead cfg s).isFirst = s.isFirst ∧
    (fftcompute.afterRead cfg s).child_tracker = s.child_tracker ∧
    (fftcompute.afterRead cfg s).dispatched = s.dispatched := by
  have hl : cfg.fft_interval_size ≤ (X.drop p).length := by rw [← hrest]; exact hfull
  have hl2 := hl
  rw [List.length_drop] at hl2
  refine ⟨?_, ?_, ?_, ?_, rfl, rfl, rfl, rfl, rfl⟩
  · simp only [fftcompute.afterRead, fftcompute.fread, hrest]
  · rw [List.length_take]; omega
  · simp only [fftcompute.afterRead, fftcompute.fread, hrest, List.drop_drop]
  · omega

/-- The loop body of fftcompute on a full buffer: the head moves on (except on
the first dispatch) and the ring read from the new head is dispatched. -/
theorem fftcompute.body_dispatch {α : Type} (cfg : Config) (s : fftcompute.Dispatcher α)
    (h : s.isFull = true) :
    (fftcompute.body cfg s).input_buffer = s.input_buffer ∧
    (fftcompute.body cfg s).inputFile = s.inputFile ∧
    (fftcompute.body cfg s).isFull = true ∧
    (fftcompute.body cfg s).isFirst = false ∧
    (fftcompute.body cfg s).head
      = (if s.isFirst = false then
          (if s.head + cfg.fft_interval_size = cfg.FFTSize then 0
           else s.head + cfg.fft_interval_size)
         else s.head) ∧
    (fftcompute.body cfg s).dispatched
      = s.dispatched ++ [{ child := s.child_tracker,
                           frame := copyFrame cfg.FFTSize (fftcompute.body cfg s).head
                             s.input_buffer }] := by
  simp [fftcompute.body, h]

/-- A pass of fftcompute with a full read takes the steady state for `j` passes
to the one for `j + 1`. -/
theorem fftcompute.steady_pass {α : Type} (cfg : Config) (hhop : 0 < cfg.fft_interval_size)
    (hNO : cfg.FFTSize = cfg.FFTOverlap * cfg.fft_interval_size)
    (X ring0 : List α) (j : Nat) (s : fftcompute.Dispatcher α)
    (h : fftcompute.Steady cfg X ring0 j s)
    (hfull : cfg.fft_interval_size ≤ s.inputFile.rest.length) :
    fftcompute.Steady cfg X ring0 (j + 1)
      (fftcompute.body cfg (fftcompute.afterRead cfg s)) := by
  obtain ⟨ha1, ha2, ha3, ha4, ha5, ha6, ha7, _, ha9⟩ :=
    fftcompute.afterRead_full cfg hhop s X _ h.rest hfull
  have hfull1 : (fftcompute.afterRead cfg s).isFull = true := ha6.trans h.full
  obtain ⟨hb1, hb2, hb3, hb4, hb5, hb6⟩ :=
    fftcompute.body_dispatch cfg (fftcompute.afterRead cfg s) hfull1
  rw [ha7, h.not_first, if_pos rfl, ha5] at hb5
  rw [hb5, ha1, ha9] at hb6
  rw [ha1] at hb1
  obtain ⟨i, hi, hhead⟩ := h.head_slot
  have hle : s.head + cfg.fft_interval_size ≤ cfg.FFTSize := by
    rw [hhead, hNO, ← Nat.succ_mul]
    exact Nat.mul_le_mul_right _ hi
  have hhopN : cfg.fft_interval_size ≤ cfg.FFTSize := by
    rw [hNO]; exact Nat.le_mul_of_pos_left _ (by omega)
  obtain ⟨hr1, hr2⟩ := ring_step s.input_buffer _ cfg.FFTSize s.head
    cfg.fft_interval_size h.buf_len ha2 hle
  have hj1 : (j + 1) * cfg.fft_interval_size
      = j * cfg.fft_interval_size + cfg.fft_interval_size := by
    rw [Nat.add_mul, Nat.one_mul]
  have hO1 : (cfg.FFTOverlap + 1 + j) * cfg.fft_interval_size
      = (cfg.FFTOverlap + 1) * cfg.fft_interval_size + j * cfg.fft_interval_size := by
    rw [Nat.add_mul]
  have hO2 : (cfg.FFTOverlap + 1 + (j + 1)) * cfg.fft_interval_size
      = (cfg.FFTOverlap + 1 + j) * cfg.fft_interval_size + cfg.fft_interval_size := by
    rw [← Nat.add_assoc, Nat.add_mul _ 1, Nat.one_mul]
  have hin := h.in_input
  have hrg := h.ring
  generalize hS : X.drop ((cfg.FFTOverlap + 1) * cfg.fft_interval_size) = S at *
  have hSlen : S.length = X.length - (cfg.FFTOverlap + 1) * cfg.fft_interval_size := by
    rw [← hS, List.length_drop]
  have hgot : (X.drop ((cfg.FFTOverlap + 1 + j) * cfg.fft_interval_size)).take
      cfg.fft_interval_size = (S.drop (j * cfg.fft_interval_size)).take cfg.fft_interval_size := by
    rw [← hS, List.drop_drop, hO1, Nat.add_comm]
  have hring : copyFrame cfg.FFTSize
      (if s.head + cfg.fft_interval_size = cfg.FFTSize then 0
       else s.head + cfg.fft_interval_size)
      (store s.input_buffer s.head
        ((X.drop ((cfg.FFTOverlap + 1 + j) * cfg.fft_interval_size)).take
          cfg.fft_interval_size))
      = (ring0 ++ S.take ((j + 1) * cfg.fft_interval_size)).drop
          ((j + 1) * cfg.fft_interval_size) := by
    rw [hr2, hrg, hj1, hgot]
    exact drop_hop_append ring0 S _ cfg.FFTSize (j * cfg.fft_interval_size)
      cfg.fft_interval_size h.ring0_len hhopN (by omega) (List.take_add _ _ _)
  have hslot : ∃ i', i' < cfg.FFTOverlap ∧
      (if s.head + cfg.fft_interval_size = cfg.FFTSize then 0
       else s.head + cfg.fft_interval_size) = i' * cfg.fft_interval_size := by
    by_cases hend : s.head + cfg.fft_interval_size = cfg.FFTSize
    · exact ⟨0, by omega, by rw [if_pos hend, Nat.zero_mul]⟩
    · refine ⟨i + 1, ?_, by rw [if_neg hend, hhead, Nat.add_mul, Nat.one_mul]⟩
      rw [hhead, hNO] at hend
      have := mt (hop_end_iff cfg.FFTOverlap _ i hhop).mpr hend
      omega
  refine ⟨by rw [hb1]; exact hr1, h.ring0_len, hb3, hb4, by rw [hb2, ha3, hO2],
    by rw [hO2]; exact ha4, by rw [hb1, hb5, hS]; exact hring, by rw [hb5]; exact hslot,
    by rw [hb6, List.length_append, List.length_singleton, h.count], ?_⟩
  intro k d hk hkO
  rw [hb6] at hk
  rcases Nat.lt_or_ge k s.dispatched.length with hlt | hge
  · rw [List.getElem?_append_left hlt] at hk
    exact h.frames k d hk hkO
  · rw [List.getElem?_append_right hge] at hk
    have hk0 : k - s.dispatched.length = 0 := by
      by_contra hne
      rw [List.getElem?_eq_none (by simp; omega)] at hk
      exact Option.noConfusion hk
    rw [hk0] at hk
    simp only [List.getElem?_cons_zero, Option.some.injEq] at hk
    have hkeq : k = j + 1 := by rw [← h.count]; omega
    have hOk : cfg.FFTOverlap ≤ j + 1 := by
      rcases hkO with h1 | h1
      · omega
      · omega
    have hNk : cfg.FFTSize ≤ (j + 1) * cfg.fft_interval_size := by
      rw [hNO]; exact Nat.mul_le_mul_right _ hOk
    have hpos : (k + 1) * cfg.fft_interval_size + cfg.FFTSize
        = (cfg.FFTOverlap + 1 + (j + 1)) * cfg.fft_interval_size := by
      rw [hkeq, hNO, ← Nat.add_mul]
      congr 1
      omega
    constructor
    · rw [hpos, hO2]; exact ha4
    · rw [← hk, hring, drop_initial_content ring0 S cfg.FFTSize _ h.ring0_len hNk, ← hS,
        List.drop_drop]
      dsimp only
      congr 2
      have h3 : (k + 1) * cfg.fft_interval_size
          = (j + 1) * cfg.fft_interval_size + cfg.fft_interval_size := by
        rw [hkeq, Nat.add_mul (j + 1) 1, Nat.one_mul]
      have h4 : (cfg.FFTOverlap + 1) * cfg.fft_interval_size
          = cfg.FFTSize + cfg.fft_interval_size := by
        rw [Nat.add_mul, Nat.one_mul, ← hNO]
      omega

/-- From a steady state, the dispatch log at the end of the work loop of
fftcompute has every frame of index `k >= O` one hop behind its window. -/
theorem fftcompute.workLoop_steady {α : Type} (cfg : Config) (hhop : 0 < cfg.fft_interval_size)
    (hNO : cfg.FFTSize = cfg.FFTOverlap * cfg.fft_interval_size) (X ring0 : List α) :
    ∀ (fuel j : Nat) (s s' : fftcompute.Dispatcher α), fftcompute.Steady cfg X ring0 j s →
      fftcompute.workLoop cfg fuel s = some s' →
      fftcompute.FramesDelayed cfg X s'.dispatched := by
  intro fuel
  induction fuel with
  | zero => intro j s s' _ h; simp [fftcompute.workLoop] at h
  | succ n ih =>
    intro j s s' hs h
    rcases fftcompute.workLoop_pass cfg n s s' h with hd | ⟨_, hfull, hnext⟩
    · rw [hd]; exact hs.frames
    · exact ih (j + 1) _ s' (fftcompute.steady_pass cfg hhop hNO X ring0 j s hs hfull) hnext

/-- From the state in which the buffer has just been filled (`isFull` set,
nothing dispatched yet), the dispatch log at the end of the work loop of
fftcompute has every frame of index `k >= O` one hop behind its window. -/
theorem fftcompute.workLoop_primed {α : Type} (cfg : Config) (hhop : 0 < cfg.fft_interval_size)
    (hO : 1 ≤ cfg.FFTOverlap)
    (hNO : cfg.FFTSize = cfg.FFTOverlap * cfg.fft_interval_size) (X : List α)
    (fuel : Nat) (s s' : fftcompute.Dispatcher α)
    (hbuf : s.input_buffer.length = cfg.FFTSize) (hfl : s.isFull = true)
    (hfirst : s.isFirst = true) (hdisp : s.dispatched = [])
    (hhead : s.head + cfg.fft_interval_size = cfg.FFTSize)
    (hrest : s.inputFile.rest = X.drop (cfg.FFTOverlap * cfg.fft_interval_size))
    (h : fftcompute.workLoop cfg fuel s = some s') :
    fftcompute.FramesDelayed cfg X s'.dispatched := by
  have hvac : fftcompute.FramesDelayed cfg X ([] : List (Dispatch α)) := by
    intro k d hk; simp at hk
  cases fuel with
  | zero => simp [fftcompute.workLoop] at h
  | succ n =>
    rcases fftcompute.workLoop_pass cfg n s s' h with hd | ⟨_, hfull, hnext⟩
    · rw [hd, hdisp]; exact hvac
    · obtain ⟨ha1, ha2, ha3, ha4, ha5, ha6, ha7, _, ha9⟩ :=
        fftcompute.afterRead_full cfg hhop s X _ hrest hfull
      have hfull1 : (fftcompute.afterRead cfg s).isFull = true := ha6.trans hfl
      obtain ⟨hb1, hb2, hb3, hb4, hb5, hb6⟩ :=
        fftcompute.body_dispatch cfg (fftcompute.afterRead cfg s) hfull1
      rw [ha7, hfirst, if_neg (by decide), ha5] at hb5
      rw [hb5, ha1, ha9, hdisp, List.nil_append] at hb6
      rw [ha1] at hb1
      have hO1 : (cfg.FFTOverlap + 1) * cfg.fft_interval_size
          = cfg.FFTOverlap * cfg.fft_interval_size + cfg.fft_interval_size := by
        rw [Nat.add_mul, Nat.one_mul]
      have hheadi : s.head = (cfg.FFTOverlap - 1) * cfg.fft_interval_size := by
        rw [Nat.sub_mul, Nat.one_mul, ← hNO]; omega
      obtain ⟨hr1, _⟩ := ring_step s.input_buffer _ cfg.FFTSize s.head
        cfg.fft_interval_size hbuf ha2 (by omega)
      refine fftcompute.workLoop_steady cfg hhop hNO X
        (copyFrame cfg.FFTSize s.head
          (store s.input_buffer s.head
            ((X.drop (cfg.FFTOverlap * cfg.fft_interval_size)).take cfg.fft_interval_size)))
        n 0 _ s' ?_ hnext
      refine ⟨by rw [hb1]; exact hr1, copyFrame_length _ _ _ hr1 (by omega), hb3, hb4,
        by rw [hb2, ha3, Nat.add_zero, hO1], by rw [Nat.add_zero, hO1]; exact ha4,
        by rw [hb1, hb5]; simp, by rw [hb5]; exact ⟨_, by omega, hheadi⟩,
        by rw [hb6]; rfl, ?_⟩
      intro k d hk hkO
      rw [hb6] at hk
      have hk0 : k = 0 := by
        by_contra hne
        rw [List.getElem?_eq_none (by simp; omega)] at hk
        exact Option.noConfusion hk
      subst hk0
      have hO1' : cfg.FFTOverlap = 1 := by
        rcases hkO with h1 | h1
        · omega
        · exact h1
      simp only [List.getElem?_cons_zero, Option.some.injEq] at hk
      have hN : cfg.fft_interval_size = cfg.FFTSize := by rw [hNO, hO1', Nat.one_mul]
      have hh0 : s.head = 0 := by omega
      constructor
      · rw [hO1', hN] at hO1 ha4
        rw [Nat.zero_add, Nat.one_mul, hN]
        omega
      · have hst : store s.input_buffer s.head
            ((X.drop (cfg.FFTOverlap * cfg.fft_interval_size)).take cfg.fft_interval_size)
            = (X.drop (cfg.FFTOverlap * cfg.fft_interval_size)).take cfg.fft_interval_size := by
          have hd : s.input_buffer.drop
              ((X.drop (cfg.FFTOverlap * cfg.fft_interval_size)).take
                cfg.fft_interval_size).length = [] :=
            List.drop_of_length_le (by rw [ha2, hbuf, hN])
          rw [hh0]
          unfold store
          rw [List.take_zero, List.nil_append, Nat.zero_add, hd, List.append_nil]
        rw [← hk]
        show copyFrame cfg.FFTSize s.head (store s.input_buffer s.head _) = _
        rw [hst, hh0, copyFrame_zero _ _ (by rw [ha2, hN]), hO1']
        simp [hN]

/-- While the buffer is filling, the dispatch log at the end of the work loop of
fftcompute has every frame of index `k >= O` one hop behind its window. -/
theorem fftcompute.workLoop_filling {α : Type} (cfg : Config) (hhop : 0 < cfg.fft_interval_size)
    (hO : 1 ≤ cfg.FFTOverlap)
    (hNO : cfg.FFTSize = cfg.FFTOverlap * cfg.fft_interval_size) (X : List α) :
    ∀ (fuel i : Nat) (s s' : fftcompute.Dispatcher α),
      s.input_buffer.length = cfg.FFTSize → s.isFull = false → s.isFirst = true →
      s.dispatched = [] → i < cfg.FFTOverlap → s.head = i * cfg.fft_interval_size →
      s.inputFile.rest = X.drop (i * cfg.fft_interval_size) →
      fftcompute.workLoop cfg fuel s = some s' →
      fftcompute.FramesDelayed cfg X s'.dispatched := by
  have hvac : fftcompute.FramesDelayed cfg X ([] : List (Dispatch α)) := by
    intro k d hk; simp at hk
  intro fuel
  induction fuel with
  | zero => intro i s s' _ _ _ _ _ _ _ h; simp [fftcompute.workLoop] at h
  | succ n ih =>
    intro i s s' hbuf hnf hfirst hdisp hi hhead hrest h
    rcases fftcompute.workLoop_pass cfg n s s' h with hd | ⟨_, hfull, hnext⟩
    · rw [hd, hdisp]; exact hvac
    · obtain ⟨ha1, ha2, ha3, ha4, ha5, ha6, ha7, _, ha9⟩ :=
        fftcompute.afterRead_full cfg hhop s X _ hrest hfull
      have hle : s.head + cfg.fft_interval_size ≤ cfg.FFTSize := by
        rw [hhead, hNO, ← Nat.succ_mul]
        exact Nat.mul_le_mul_right _ hi
      obtain ⟨hr1, _⟩ := ring_step s.input_buffer _ cfg.FFTSize s.head
        cfg.fft_interval_size hbuf ha2 hle
      have hsucc : i * cfg.fft_interval_size + cfg.fft_interval_size
          = (i + 1) * cfg.fft_interval_size := by
        rw [Nat.add_mul, Nat.one_mul]
      by_cases hlast : i + 1 = cfg.FFTOverlap
      · have hend : (fftcompute.afterRead cfg s).head + cfg.fft_interval_size
            = cfg.FFTSize := by
          rw [ha5, hhead, hNO]; exact (hop_end_iff _ _ _ hhop).mpr hlast
        rw [fftcompute.body_fill_last cfg _ (ha6.trans hnf) hend] at hnext
        exact fftcompute.workLoop_primed cfg hhop hO hNO X n
          { fftcompute.afterRead cfg s with isFull := true } s'
          (by show (fftcompute.afterRead cfg s).input_buffer.length = _; rw [ha1]; exact hr1)
          rfl (by show (fftcompute.afterRead cfg s).isFirst = true; rw [ha7]; exact hfirst)
          (by show (fftcompute.afterRead cfg s).dispatched = []; rw [ha9]; exact hdisp)
          hend
          (by show (fftcompute.afterRead cfg s).inputFile.rest = _; rw [ha3, hsucc, hlast])
          hnext
      · have hend : ¬ ((fftcompute.afterRead cfg s).head + cfg.fft_interval_size
            = cfg.FFTSize) := by
          rw [ha5, hhead, hNO]; exact fun h => hlast ((hop_end_iff _ _ _ hhop).mp h)
        rw [fftcompute.body_fill_more cfg _ (ha6.trans hnf) hend] at hnext
        exact ih (i + 1)
          { fftcompute.afterRead cfg s with
            head := (fftcompute.afterRead cfg s).head + cfg.fft_interval_size } s'
          (by show (fftcompute.afterRead cfg s).input_buffer.length = _; rw [ha1]; exact hr1)
          (by show (fftcompute.afterRead cfg s).isFull = false; rw [ha6]; exact hnf)
          (by show (fftcompute.afterRead cfg s).isFirst = true; rw [ha7]; exact hfirst)
          (by show (fftcompute.afterRead cfg s).dispatched = []; rw [ha9]; exact hdisp)
          (by omega)
          (by show (fftcompute.afterRead cfg s).head + _ = _; rw [ha5, hhead, hsucc])
          (by show (fftcompute.afterRead cfg s).inputFile.rest = _; rw [ha3, hsucc])
          hnext

/-- C28: in fftcompute, for `N > 0` and `O >= 1` dividing `N` (hop `= N/O`), on
every input the run ends and every dispatched frame of index `k >= O` (counted
from 0; every `k` when `O = 1`) is the input at positions
`[(k+1)*hop, (k+1)*hop + N)`, in order: the contiguous window delayed by one
hop. -/
theorem fftcompute_steady_state {α : Type} (cfg : Config) (hN : 0 < cfg.FFTSize)
    (hO : 1 ≤ cfg.FFTOverlap) (hdiv : cfg.FFTOverlap ∣ cfg.FFTSize)
    (mem input : List α) (hmem : mem.length = cfg.FFTSize) :
    ∃ s, fftcompute.calculateTask cfg mem input = some s ∧
      ∀ k d, s.dispatched[k]? = some d → cfg.FFTOverlap ≤ k ∨ cfg.FFTOverlap = 1 →
        (k + 1) * cfg.fft_interval_size + cfg.FFTSize ≤ input.length ∧
        d.frame = (input.drop ((k + 1) * cfg.fft_interval_size)).take cfg.FFTSize := by
  obtain ⟨hhop, hNO⟩ := cfg.hop_facts hN hO hdiv
  obtain ⟨s, hs⟩ := fftcompute.workLoop_terminates cfg hhop (input.length + 1)
    (fftcompute.start mem input) (Nat.lt_succ_of_le (Nat.div_le_self _ _))
  refine ⟨s, hs, ?_⟩
  exact fftcompute.workLoop_filling cfg hhop hO hNO input (input.length + 1) 0
    (fftcompute.start mem input) s hmem rfl rfl rfl (by omega)
    (by rw [Nat.zero_mul]; rfl) (by rw [Nat.zero_mul]; rfl) hs

/-- Witness for C28: `N = 4`, `O = 2` (hop 2) on the samples `0..12`; the frame
of index 2 is `6, 7, 8, 9`, the input from position `3 * 2`. -/
theorem fftcompute_steady_state_witness :
    0 < (Config.mk 4 2 3).FFTSize ∧ 1 ≤ (Config.mk 4 2 3).FFTOverlap ∧
    (Config.mk 4 2 3).FFTOverlap ∣ (Config.mk 4 2 3).FFTSize ∧
    ([0, 0, 0, 0] : List Nat).length = (Config.mk 4 2 3).FFTSize ∧
    (fftcompute.calculateTask (Config.mk 4 2 3) [0, 0, 0, 0] (List.range 13)).map
        (fun s => s.dispatched.map (fun d => d.frame))
      = some [[4, 5, 0, 1], [0, 1, 6, 7], [6, 7, 8, 9], [8, 9, 10, 11]] ∧
    ∃ s, fftcompute.calculateTask (Config.mk 4 2 3) [0, 0, 0, 0] (List.range 13) = some s ∧
      ∀ k d, s.dispatched[k]? = some d →
        (Config.mk 4 2 3).FFTOverlap ≤ k ∨ (Config.mk 4 2 3).FFTOverlap = 1 →
        (k + 1) * (Config.mk 4 2 3).fft_interval_size + (Config.mk 4 2 3).FFTSize
          ≤ (List.range 13).length ∧
        d.frame = ((List.range 13).drop ((k + 1) * (Config.mk 4 2 3).fft_interval_size)).take
          (Config.mk 4 2 3).FFTSize :=
  ⟨by decide, by decide, by decide, rfl, by decide,
   fftcompute_steady_state (Config.mk 4 2 3) (by decide) (by decide) (by decide)
     [0, 0, 0, 0] (List.range 13) rfl⟩

/-! ## Worker state machine -/

/-- A schedule without waiting, when it goes through, is a run of the pool. -/
theorem Pool.run_of_runNoWait {α β : Type} (cfg : PoolConfig α β) :
    ∀ (ts : List Thread) (s s' : Pool α β),
      Pool.runNoWait cfg ts s = some s' → Pool.run cfg ts s = s' := by
  intro ts
  induction ts with
  | nil =>
    intro s s' h
    simp only [Pool.runNoWait, Option.some.injEq] at h
    exact h
  | cons t ts ih =>
    intro s s' h
    unfold Pool.runNoWait at h
    split at h
    · exact Option.noConfusion h
    · cases hstep : s.step cfg t with
      | none => rw [hstep] at h; exact Option.noConfusion h
      | some s1 =>
        rw [hstep, Option.some_bind] at h
        unfold Pool.run
        rw [hstep]
        exact ih s1 s' h

/-- Turns of a thread that is blocked leave the pool as it is. -/
theorem Pool.run_blocked {α β : Type} (cfg : PoolConfig α β) (t : Thread) (s : Pool α β)
    (h : s.step cfg t = none) : ∀ n, Pool.run cfg (List.replicate n t) s = s := by
  intro n
  induction n with
  | zero => rfl
  | succ n ih =>
    rw [List.replicate_succ]
    unfold Pool.run
    rw [h]
    exact ih

/-- The steps of worker `i` in `mq_receive` and after its exit: KILL takes it out
of the loop, a byte that is neither KILL nor START is dropped, an empty queue
blocks it, and an exited worker takes no step. -/
theorem Pool.step_receive {α β : Type} (cfg : PoolConfig α β) (s : Pool α β) (i : Nat)
    (hi : i < cfg.max_children) (run : Bool) (inp : List α) (mag : List β) (ticket : Int)
    (mutex : Option Nat) (out : List (Chunk β)) :
    (s.during i ⟨.receive, run, inp, mag, some FFT_THREAD_KILL⟩ ticket mutex out).step cfg
        (.worker i)
      = some (s.during i ⟨.exited, run, inp, mag, none⟩ ticket mutex out) ∧
    (∀ m, m ≠ FFT_THREAD_KILL → m ≠ FFT_THREAD_START →
      (s.during i ⟨.receive, run, inp, mag, some m⟩ ticket mutex out).step cfg (.worker i)
        = some (s.during i ⟨.receive, run, inp, mag, none⟩ ticket mutex out)) ∧
    (s.during i ⟨.receive, run, inp, mag, none⟩ ticket mutex out).step cfg (.worker i)
      = none ∧
    (∀ q, (s.during i ⟨.exited, run, inp, mag, q⟩ ticket mutex out).step cfg (.worker i)
      = none) := by
  refine ⟨?_, ?_, ?_, ?_⟩
  · simp [Pool.step, Pool.stepWorker, Pool.during, Pool.setChild, hi, FFT_THREAD_KILL]
  · intro m h1 h2
    simp [Pool.step, Pool.stepWorker, Pool.during, Pool.setChild, hi, h1, h2]
  · simp [Pool.step, Pool.stepWorker, Pool.during, hi]
  · intro q
    simp [Pool.step, Pool.stepWorker, Pool.during, hi]

/-- A byte arriving for a worker in the middle-of-frame form of the pool. -/
theorem Pool.post_during {α β : Type} (s : Pool α β) (i : Nat) (pc : WorkerPc) (run : Bool)
    (inp : List α) (mag : List β) (q : Option Nat) (ticket : Int) (mutex : Option Nat)
    (out : List (Chunk β)) (m : Nat) :
    (s.during i ⟨pc, run, inp, mag, q⟩ ticket mutex out).post i m
      = s.during i ⟨pc, run, inp, mag, some m⟩ (i : Int) mutex out := by
  simp [Pool.post, Pool.during, Pool.setChild]

/-- The queue of worker `i` in the middle-of-frame form of the pool. -/
theorem Pool.during_child {α β : Type} (s : Pool α β) (i : Nat) (d : fft_thread_data α β)
    (ticket : Int) (mutex : Option Nat) (out : List (Chunk β)) :
    (s.during i d ticket mutex out).fft_child_args i = d ∧
    (s.during i d ticket mutex out).outputFile = out := by
  simp [Pool.during]

/-- What worker `i`, blocked in `mq_receive` with `is_running = false`, does with
one byte: on START it appends the two halves of one block and is back in
`mq_receive` with `is_running = false`; on KILL it exits; any other byte is
dropped. -/
theorem Pool.run_one_byte {α β : Type} (cfg : PoolConfig α β) (s : Pool α β) (i : Nat)
    (hi : i < cfg.max_children) (inp : List α) (mag : List β) (ticket : Int)
    (out : List (Chunk β)) (m : Nat) :
    (m = FFT_THREAD_START →
      ∃ inp' mag' ticket' c1 c2, c1.writer = i ∧ c2.writer = i ∧
        Pool.run cfg (List.replicate 10 (.worker i))
            ((s.during i ⟨.receive, false, inp, mag, none⟩ ticket none out).post i m)
          = s.during i ⟨.receive, false, inp', mag', none⟩ ticket' none (out ++ [c1] ++ [c2])) ∧
    (m = FFT_THREAD_KILL →
      Pool.run cfg (List.replicate 10 (.worker i))
          ((s.during i ⟨.receive, false, inp, mag, none⟩ ticket none out).post i m)
        = s.during i ⟨.exited, false, inp, mag, none⟩ (i : Int) none out) ∧
    (m ≠ FFT_THREAD_START → m ≠ FFT_THREAD_KILL →
      Pool.run cfg (List.replicate 10 (.worker i))
          ((s.during i ⟨.receive, false, inp, mag, none⟩ ticket none out).post i m)
        = s.during i ⟨.receive, false, inp, mag, none⟩ (i : Int) none out) := by
  rw [Pool.post_during]
  obtain ⟨hk, ho, hb, he⟩ := Pool.step_receive cfg s i hi false inp mag (i : Int) none out
  refine ⟨?_, ?_, ?_⟩
  · intro hm
    subst hm
    exact ⟨_, _, _, ⟨i, _⟩, ⟨i, _⟩, rfl, rfl,
      Pool.run_of_runNoWait cfg _ _ _ (Pool.runNoWait_worker cfg s i hi inp mag out)⟩
  · intro hm
    subst hm
    rw [List.replicate_succ]
    unfold Pool.run
    rw [hk]
    exact Pool.run_blocked cfg _ _ (he none) 9
  · intro h1 h2
    rw [List.replicate_succ]
    unfold Pool.run
    rw [ho m h2 h1]
    exact Pool.run_blocked cfg _ _ hb 9

/-- Once worker `i` has exited, the next byte stays in its queue and no further
byte can be sent. -/
theorem Pool.feed_exited {α β : Type} (cfg : PoolConfig α β) (s : Pool α β) (i : Nat)
    (hi : i < cfg.max_children) (run : Bool) (inp : List α) (mag : List β) (ticket : Int)
    (mutex : Option Nat) (out : List (Chunk β)) (ms : List Nat) :
    (((Pool.feed cfg i ms
        (s.during i ⟨.exited, run, inp, mag, none⟩ ticket mutex out)).1.fft_child_args i).pc
      = .exited) ∧
    (((Pool.feed cfg i ms
        (s.during i ⟨.exited, run, inp, mag, none⟩ ticket mutex out)).1.fft_child_args i).queue
      = ms[0]?) ∧
    (((Pool.feed cfg i ms
        (s.during i ⟨.exited, run, inp, mag, none⟩ ticket mutex out)).1.fft_child_args i).is_running
      = run) ∧
    (Pool.feed cfg i ms
        (s.during i ⟨.exited, run, inp, mag, none⟩ ticket mutex out)).1.outputFile = out ∧
    (Pool.feed cfg i ms
        (s.during i ⟨.exited, run, inp, mag, none⟩ ticket mutex out)).2 = ms.drop 1 := by
  cases ms with
  | nil => simp [Pool.feed, Pool.during]
  | cons m rest =>
    have hrun : Pool.run cfg (List.replicate 10 (.worker i))
        ((s.during i ⟨.exited, run, inp, mag, none⟩ ticket mutex out).post i m)
        = s.during i ⟨.exited, run, inp, mag, some m⟩ (i : Int) mutex out := by
      rw [Pool.post_during]
      exact Pool.run_blocked cfg _ _
        ((Pool.step_receive cfg s i hi run inp mag (i : Int) mutex out).2.2.2 (some m)) 10
    have hfeed : Pool.feed cfg i (m :: rest)
        (s.during i ⟨.exited, run, inp, mag, none⟩ ticket mutex out)
        = (s.during i ⟨.exited, run, inp, mag, some m⟩ (i : Int) mutex out, rest) := by
      rw [Pool.feed, (Pool.during_child s i _ ticket mutex out).1]
      simp only
      rw [hrun]
      cases rest with
      | nil => rfl
      | cons m2 rest2 =>
        rw [Pool.feed, (Pool.during_child s i _ (i : Int) mutex out).1]
    rw [hfeed]
    simp [Pool.during]

/-- What worker `i`, blocked in `mq_receive` with `is_running = false`, makes of
an inbox: two `fwrite` calls of its own per START before the first KILL and
nothing else; without a KILL it ends blocked in `mq_receive` on an empty queue;
at the first KILL it exits, the next byte stays unread in its queue and the
bytes after that cannot be sent; `is_running` is false at the end. -/
theorem Pool.feed_idle {α β : Type} (cfg : PoolConfig α β) (s : Pool α β) (i : Nat)
    (hi : i < cfg.max_children) :
    ∀ (inbox : List Nat) (inp : List α) (mag : List β) (ticket : Int) (out : List (Chunk β)),
      ((Pool.feed cfg i inbox
          (s.during i ⟨.receive, false, inp, mag, none⟩ ticket none out)).1.outputFile.map
        (fun c => c.writer)
        = out.map (fun c => c.writer) ++ List.replicate
            (2 * (inbox.takeWhile (fun m => decide (m ≠ FFT_THREAD_KILL))).count
              FFT_THREAD_START) i) ∧
      (((Pool.feed cfg i inbox
          (s.during i ⟨.receive, false, inp, mag, none⟩ ticket none out)).1.fft_child_args
        i).is_running = false) ∧
      ((inbox.takeWhile (fun m => decide (m ≠ FFT_THREAD_KILL))).length = inbox.length →
        ((Pool.feed cfg i inbox
          (s.during i ⟨.receive, false, inp, mag, none⟩ ticket none out)).1.fft_child_args
            i).pc = .receive ∧
        ((Pool.feed cfg i inbox
          (s.during i ⟨.receive, false, inp, mag, none⟩ ticket none out)).1.fft_child_args
            i).queue = none ∧
        (Pool.feed cfg i inbox
          (s.during i ⟨.receive, false, inp, mag, none⟩ ticket none out)).2 = []) ∧
      ((inbox.takeWhile (fun m => decide (m ≠ FFT_THREAD_KILL))).length < inbox.length →
        ((Pool.feed cfg i inbox
          (s.during i ⟨.receive, false, inp, mag, none⟩ ticket none out)).1.fft_child_args
            i).pc = .exited ∧
        ((Pool.feed cfg i inbox
          (s.during i ⟨.receive, false, inp, mag, none⟩ ticket none out)).1.fft_child_args
            i).queue
          = inbox[(inbox.takeWhile (fun m => decide (m ≠ FFT_THREAD_KILL))).length + 1]? ∧
        (Pool.feed cfg i inbox
          (s.during i ⟨.receive, false, inp, mag, none⟩ ticket none out)).2
          = inbox.drop ((inbox.takeWhile (fun m => decide (m ≠ FFT_THREAD_KILL))).length + 2)) := by
  intro inbox
  induction inbox with
  | nil =>
    intro inp mag ticket out
    simp [Pool.feed, Pool.during]
  | cons m ms ih =>
    intro inp mag ticket out
    obtain ⟨hstart, hkill, hother⟩ := Pool.run_one_byte cfg s i hi inp mag ticket out m
    have hfeed : Pool.feed cfg i (m :: ms)
        (s.during i ⟨.receive, false, inp, mag, none⟩ ticket none out)
        = Pool.feed cfg i ms (Pool.run cfg (List.replicate 10 (.worker i))
            ((s.during i ⟨.receive, false, inp, mag, none⟩ ticket none out).post i m)) := by
      rw [Pool.feed, (Pool.during_child s i _ ticket none out).1]
    rw [hfeed]
    by_cases hk : m = FFT_THREAD_KILL
    · rw [hkill hk]
      obtain ⟨e1, e2, e3, e4, e5⟩ :=
        Pool.feed_exited cfg s i hi false inp mag (i : Int) none out ms
      have hpre : (m :: ms).takeWhile (fun m => decide (m ≠ FFT_THREAD_KILL)) = [] := by
        rw [List.takeWhile_cons]
        simp [hk]
      rw [hpre]
      refine ⟨by rw [e4]; simp, e3, ?_, ?_⟩
      · intro h; simp at h
      · intro _
        exact ⟨e1, by rw [e2]; simp, by rw [e5]; simp⟩
    · have hpre : (m :: ms).takeWhile (fun m => decide (m ≠ FFT_THREAD_KILL))
          = m :: ms.takeWhile (fun m => decide (m ≠ FFT_THREAD_KILL)) := by
        rw [List.takeWhile_cons]
        simp [hk]
      rw [hpre]
      by_cases hs : m = FFT_THREAD_START
      · obtain ⟨inp', mag', ticket', c1, c2, hc1, hc2, hrun⟩ := hstart hs
        rw [hrun]
        obtain ⟨a1, a2, a3, a4⟩ := ih inp' mag' ticket' (out ++ [c1] ++ [c2])
        refine ⟨?_, a2, ?_, ?_⟩
        · rw [a1, hs, List.count_cons_self, Nat.mul_succ, List.replicate_succ,
            List.replicate_succ]
          simp [hc1, hc2]
        · intro h
          simp only [List.length_cons, Nat.add_right_cancel_iff] at h
          exact a3 h
        · intro h
          simp only [List.length_cons, Nat.add_lt_add_iff_right] at h
          obtain ⟨b1, b2, b3⟩ := a4 h
          refine ⟨b1, ?_, ?_⟩
          · rw [b2]; simp
          · rw [b3]; simp
      · rw [hother hs hk]
        obtain ⟨a1, a2, a3, a4⟩ := ih inp mag (i : Int) out
        refine ⟨?_, a2, ?_, ?_⟩
        · rw [a1, List.count_cons_of_ne (fun h => hs h.symm)]
        · intro h
          simp only [List.length_cons, Nat.add_right_cancel_iff] at h
          exact a3 h
        · intro h
          simp only [List.length_cons, Nat.add_lt_add_iff_right] at h
          obtain ⟨b1, b2, b3⟩ := a4 h
          refine ⟨b1, ?_, ?_⟩
          · rw [b2]; simp
          · rw [b3]; simp

/-- The start state of the pool in its middle-of-frame form for worker `i`. -/
theorem Pool.start_during {α β : Type} (frames : List (List α)) (i : Nat) :
    (Pool.start frames : Pool α β)
      = (Pool.start frames : Pool α β).during i ⟨.receive, false, [], [], none⟩ 0 none [] := by
  unfold Pool.during Pool.start
  congr
  funext j
  by_cases hj : j = i
  · subst hj; simp
  · simp [Function.update, hj]

/-- C25: for every finite sequence of inbox bytes given to a worker from its
start (its turn at the ticket coming whenever it waits for it), the worker makes
the two `fwrite` calls of exactly one block per START received before the first
KILL and none for KILL or any other byte; without a KILL it ends waiting on the
empty inbox; at the first KILL it exits and reads no more: the byte after the
KILL stays in its queue and the bytes after that one cannot be sent; and after
every prefix of the inbox `is_running` is false. -/
theorem worker_inbox_state_machine {α β : Type} (cfg : PoolConfig α β) (i : Nat)
    (hi : i < cfg.max_children) (frames : List (List α)) (inbox : List Nat) :
    ((Pool.feed cfg i inbox (Pool.start frames)).1.outputFile.map (fun c => c.writer)
      = List.replicate
          (2 * (inbox.takeWhile (fun m => decide (m ≠ FFT_THREAD_KILL))).count
            FFT_THREAD_START) i) ∧
    ((inbox.takeWhile (fun m => decide (m ≠ FFT_THREAD_KILL))).length = inbox.length →
      ((Pool.feed cfg i inbox (Pool.start frames)).1.fft_child_args i).pc = .receive ∧
      ((Pool.feed cfg i inbox (Pool.start frames)).1.fft_child_args i).queue = none ∧
      (Pool.feed cfg i inbox (Pool.start frames)).2 = []) ∧
    ((inbox.takeWhile (fun m => decide (m ≠ FFT_THREAD_KILL))).length < inbox.length →
      ((Pool.feed cfg i inbox (Pool.start frames)).1.fft_child_args i).pc = .exited ∧
      ((Pool.feed cfg i inbox (Pool.start frames)).1.fft_child_args i).queue
        = inbox[(inbox.takeWhile (fun m => decide (m ≠ FFT_THREAD_KILL))).length + 1]? ∧
      (Pool.feed cfg i inbox (Pool.start frames)).2
        = inbox.drop ((inbox.takeWhile (fun m => decide (m ≠ FFT_THREAD_KILL))).length + 2)) ∧
    (∀ n, ((Pool.feed cfg i (inbox.take n) (Pool.start frames)).1.fft_child_args
      i).is_running = false) := by
  rw [Pool.start_during frames i]
  obtain ⟨h1, _, h3, h4⟩ := Pool.feed_idle cfg (Pool.start frames) i hi inbox [] [] 0 []
  refine ⟨by rw [h1]; rfl, h3, h4, ?_⟩
  intro n
  exact (Pool.feed_idle cfg (Pool.start frames) i hi (inbox.take n) [] [] 0 []).2.1

/-- Witness for C25: worker 1 of 2 is sent START, the byte 7, START, KILL, START
and 9: it writes two blocks (four `fwrite` calls) and exits at the KILL, the
START after it stays in the queue and the 9 cannot be sent. -/
theorem worker_inbox_state_machine_witness :
    1 < (PoolConfig.mk (Kernel.mk (fun (a b : Int) => a * b) (fun l => l) (fun a => a))
          2 2 [1, 1]).max_children ∧
    ((Pool.feed
        (PoolConfig.mk (Kernel.mk (fun (a b : Int) => a * b) (fun l => l) (fun a => a))
          2 2 [1, 1]) 1 [1, 7, 1, 2, 1, 9] (Pool.start [])).1.outputFile.map
        (fun c => c.writer) = [1, 1, 1, 1]) ∧
    (((Pool.feed
        (PoolConfig.mk (Kernel.mk (fun (a b : Int) => a * b) (fun l => l) (fun a => a))
          2 2 [1, 1]) 1 [1, 7, 1, 2, 1, 9] (Pool.start [])).1.fft_child_args 1).queue
      = some 1) ∧
    ((Pool.feed
        (PoolConfig.mk (Kernel.mk (fun (a b : Int) => a * b) (fun l => l) (fun a => a))
          2 2 [1, 1]) 1 [1, 7, 1, 2, 1, 9] (Pool.start [])).2 = [9]) :=
  ⟨by decide,
   (worker_inbox_state_machine
      (PoolConfig.mk (Kernel.mk (fun (a b : Int) => a * b) (fun l => l) (fun a => a)) 2 2 [1, 1])
      1 (by decide) [] [1, 7, 1, 2, 1, 9]).1,
   ((worker_inbox_state_machine
      (PoolConfig.mk (Kernel.mk (fun (a b : Int) => a * b) (fun l => l) (fun a => a)) 2 2 [1, 1])
      1 (by decide) [] [1, 7, 1, 2, 1, 9]).2.2.1 (by decide)).2.1,
   ((worker_inbox_state_machine
      (PoolConfig.mk (Kernel.mk (fun (a b : Int) => a * b) (fun l => l) (fun a => a)) 2 2 [1, 1])
      1 (by decide) [] [1, 7, 1, 2, 1, 9]).2.2.1 (by decide)).2.2⟩

/-! ## Cleanup sections -/

/-- One turn of a thread that is not blocked, during a cleanup section. -/
theorem Shutdown.run_cons {α β : Type} (cfg : PoolConfig α β) (t : Thread) (ts : List Thread)
    (s s' : Shutdown α β) (h : s.step cfg t = some s') :
    Shutdown.run cfg (t :: ts) s = Shutdown.run cfg ts s' := by
  rw [Shutdown.run, h]
  rfl

/-- A step of a worker during a cleanup section is its step in the pool. -/
theorem Shutdown.step_worker {α β : Type} (cfg : PoolConfig α β) (i : Nat) (p p' : Pool α β)
    (todo : List Action) (c : Option Nat) (h : p.step cfg (.worker i) = some p') :
    Shutdown.step cfg (.worker i) ⟨p, todo, c⟩ = some ⟨p', todo, c⟩ := by
  simp only [Shutdown.step, h, Option.map_some']

/-- The coordinator's steps on `fclose(outputFile)`, on `fclose(inputFile)` and
on its wait for a worker whose `is_running` is false. -/
theorem Shutdown.step_coordinator {α β : Type} (cfg : PoolConfig α β) (p : Pool α β)
    (rest : List Action) (c : Option Nat) (i : Nat) :
    (Shutdown.step cfg .dispatcher ⟨p, .release .outputFile :: rest, c⟩
      = some ⟨p, rest, some p.outputFile.length⟩) ∧
    (Shutdown.step cfg .dispatcher ⟨p, .release .inputFile :: rest, c⟩ = some ⟨p, rest, c⟩) ∧
    ((p.fft_child_args i).is_running = false →
      Shutdown.step cfg .dispatcher ⟨p, .waitIdle i :: rest, c⟩ = some ⟨p, rest, c⟩) := by
  refine ⟨?_, ?_, ?_⟩
  · simp [Shutdown.step, Shutdown.stepCoordinator]
  · simp [Shutdown.step, Shutdown.stepCoordinator]
  · intro h
    simp [Shutdown.step, Shutdown.stepCoordinator, h]

/-- A worker whose START is still in its queue when the output file is closed
makes its first `fwrite` after the `fclose`. -/
theorem Shutdown.first_write_after_close {α β : Type} (cfg : PoolConfig α β)
    (hW : 0 < cfg.max_children) (s : Pool α β) (inp : List α) (mag : List β)
    (out : List (Chunk β)) (todo : List Action) :
    (Shutdown.run cfg firstWriteSchedule
      ⟨s.during 0 ⟨.receive, false, inp, mag, some FFT_THREAD_START⟩ 0 none out, todo,
        some out.length⟩).wroteAfterClose = true := by
  have h := fun run inp mag ticket mutex out =>
    Pool.step_during cfg s 0 hW run inp mag ticket mutex out
  unfold firstWriteSchedule
  show (Shutdown.run cfg _
    ⟨s.during 0 _ ((0 : Nat) : Int) none out, todo, some out.length⟩).wroteAfterClose = true
  rw [Shutdown.run_cons cfg _ _ _ _ (Shutdown.step_worker cfg 0 _ _ todo _
      (h false inp mag ((0 : Nat) : Int) none out).1),
    Shutdown.run_cons cfg _ _ _ _ (Shutdown.step_worker cfg 0 _ _ todo _
      (h false inp mag ((0 : Nat) : Int) none out).2.1),
    Shutdown.run_cons cfg _ _ _ _ (Shutdown.step_worker cfg 0 _ _ todo _
      (h true inp mag ((0 : Nat) : Int) none out).2.2.1),
    Shutdown.run_cons cfg _ _ _ _ (Shutdown.step_worker cfg 0 _ _ todo _
      (h true (applyWindow cfg.kernel cfg.fft_size inp cfg.window)
        (computeMagnitude cfg.kernel cfg.fft_size cfg.window inp) ((0 : Nat) : Int) none out).2.2.2.1),
    Shutdown.run_cons cfg _ _ _ _ (Shutdown.step_worker cfg 0 _ _ todo _
      (h true (applyWindow cfg.kernel cfg.fft_size inp cfg.window)
        (computeMagnitude cfg.kernel cfg.fft_size cfg.window inp) ((0 : Nat) : Int) none out).2.2.2.2.1),
    Shutdown.run_cons cfg _ _ _ _ (Shutdown.step_worker cfg 0 _ _ todo _
      (h true (applyWindow cfg.kernel cfg.fft_size inp cfg.window)
        (computeMagnitude cfg.kernel cfg.fft_size cfg.window inp) ((0 : Nat) : Int) (some 0)
        out).2.2.2.2.2.1)]
  simp [Shutdown.run, Shutdown.wroteAfterClose, Pool.during]

/-- The pool when the dispatcher has handed out its only frame: the frame list
is empty and worker 0 has the START in its queue, `is_running` still false. -/
theorem Pool.run_lastFrame {α β : Type} (cfg : PoolConfig α β) (f : List α) :
    Pool.run cfg lastFrameSchedule (Pool.start [f])
      = Pool.during
          { (Pool.start [f] : Pool α β) with
            dpc := .check
            copied := [{ child := 0, frame := f }]
            posted := [0]
            child_tracker := nextChild cfg.max_children 0
            frames := [] }
          0 ⟨.receive, false, f, [], some FFT_THREAD_START⟩ 0 none [] :=
  Pool.run_of_runNoWait cfg _ _ _
    (Pool.runNoWait_dispatch cfg (Pool.start [f]) 0 f [] rfl rfl rfl rfl rfl rfl)

/-- C23 fails in both programs.  In the cleanup of fftcompute `fclose` of the
output file comes before the first KILL, no worker is joined, and the plan of
worker 0 is destroyed before KILL is sent to worker 1; in usrp-sensor nothing
waits for `is_running`, `fclose(outputFile)` is the first action, and the plan
and buffers of a worker are released before it is joined.  With one worker and
one frame, when the work loop ends before the worker has taken its START
(`is_running` still false), the worker's first `fwrite` comes after the
`fclose` in either program. -/
theorem shutdown_closes_output_before_kill {α β : Type} (K : Kernel α β) (fft_size : Nat)
    (window : List β) (f : List α) :
    ((fftcompute.cleanup 2 0).indexOf (.release .outputFile)
        < (fftcompute.cleanup 2 0).indexOf (.sendKill 0)) ∧
    (Action.join 0 ∉ fftcompute.cleanup 2 0 ∧ Action.join 1 ∉ fftcompute.cleanup 2 0) ∧
    ((fftcompute.cleanup 2 0).indexOf (.release (.plan 0))
        < (fftcompute.cleanup 2 0).indexOf (.sendKill 1)) ∧
    (Action.waitIdle 0 ∉ usrp_sensor.cleanup 2 ∧ Action.waitIdle 1 ∉ usrp_sensor.cleanup 2) ∧
    ((usrp_sensor.cleanup 2).head? = some (.release .outputFile)) ∧
    ((usrp_sensor.cleanup 2).indexOf (.release (.plan 0))
        < (usrp_sensor.cleanup 2).indexOf (.join 0)) ∧
    ((Pool.run ⟨K, fft_size, 1, window⟩ lastFrameSchedule (Pool.start [f])).frames = [] ∧
      ((Pool.run ⟨K, fft_size, 1, window⟩ lastFrameSchedule
        (Pool.start [f])).fft_child_args 0).is_running = false) ∧
    (Shutdown.run ⟨K, fft_size, 1, window⟩
        ([.dispatcher, .dispatcher, .dispatcher] ++ firstWriteSchedule)
        ⟨Pool.run ⟨K, fft_size, 1, window⟩ lastFrameSchedule (Pool.start [f]),
          fftcompute.cleanup 1 0, none⟩).wroteAfterClose = true ∧
    (Shutdown.run ⟨K, fft_size, 1, window⟩ ([.dispatcher] ++ firstWriteSchedule)
        ⟨Pool.run ⟨K, fft_size, 1, window⟩ lastFrameSchedule (Pool.start [f]),
          usrp_sensor.cleanup 1, none⟩).wroteAfterClose = true := by
  have hf : fftcompute.cleanup 1 0
      = .waitIdle 0 :: .release .inputFile :: .release .outputFile
          :: (fftcompute.cleanup 1 0).drop 3 := by decide
  have hu : usrp_sensor.cleanup 1
      = .release .outputFile :: (usrp_sensor.cleanup 1).drop 1 := by decide
  rw [Pool.run_lastFrame]
  refine ⟨by decide, by decide, by decide, by decide, by decide, by decide, ⟨rfl, ?_⟩, ?_, ?_⟩
  · exact congrArg fft_thread_data.is_running (Pool.during_child _ 0 _ _ _ _).1
  · rw [hf, List.cons_append, List.cons_append, List.cons_append, List.nil_append,
      Shutdown.run_cons _ _ _ _ _ ((Shutdown.step_coordinator _ _ _ _ 0).2.2
        (congrArg fft_thread_data.is_running (Pool.during_child _ 0 _ _ _ _).1)),
      Shutdown.run_cons _ _ _ _ _ (Shutdown.step_coordinator _ _ _ _ 0).2.1,
      Shutdown.run_cons _ _ _ _ _ (Shutdown.step_coordinator _ _ _ _ 0).1]
    exact Shutdown.first_write_after_close _ Nat.one_pos _ _ _ _ _
  · rw [hu, List.cons_append, List.nil_append,
      Shutdown.run_cons _ _ _ _ _ (Shutdown.step_coordinator _ _ _ _ 0).1]
    exact Shutdown.first_write_after_close _ Nat.one_pos _ _ _ _ _

/-- C24 fails.  With two workers, when `mq_open` fails for worker 0 no queue and
no thread exists, yet the cleanup sends KILL on, closes and unlinks the queues of
both workers; when `pthread_create` fails for worker 1 the queue of worker 1 is
held and worker 0 runs, and the cleanup destroys the plan and buffers of worker 0
before it sends it KILL and joins no thread.  The order is not the reverse of
acquisition either: the plans, acquired before the queues, are released first,
and the files, the mutex and `thread_control` are never released. -/
theorem init_failure_cleanup_touches_all_queues :
    (.queue 0 ∉ fftcompute.acquired 2 (.mq_open 0) ∧
      .queue 1 ∉ fftcompute.acquired 2 (.mq_open 0) ∧
      .thread 0 ∉ fftcompute.acquired 2 (.mq_open 0)) ∧
    (.sendKill 0 ∈ fftcompute.initFailureCleanup 2 (fftcompute.acquired 2 (.mq_open 0)) ∧
      .sendKill 1 ∈ fftcompute.initFailureCleanup 2 (fftcompute.acquired 2 (.mq_open 0)) ∧
      .release (.queue 1)
        ∈ fftcompute.initFailureCleanup 2 (fftcompute.acquired 2 (.mq_open 0)) ∧
      .mqUnlink 1 ∈ fftcompute.initFailureCleanup 2 (fftcompute.acquired 2 (.mq_open 0))) ∧
    (.thread 0 ∈ fftcompute.acquired 2 (.pthread_create 1) ∧
      .thread 1 ∉ fftcompute.acquired 2 (.pthread_create 1) ∧
      (fftcompute.initFailureCleanup 2 (fftcompute.acquired 2 (.pthread_create 1))).indexOf
          (.release (.plan 0))
        < (fftcompute.initFailureCleanup 2
            (fftcompute.acquired 2 (.pthread_create 1))).indexOf (.sendKill 0) ∧
      .join 0 ∉ fftcompute.initFailureCleanup 2 (fftcompute.acquired 2 (.pthread_create 1))) ∧
    ((fftcompute.initFailureCleanup 2 (fftcompute.acquired 2 (.pthread_create 1))).head?
        = some (.release (.plan 0)) ∧
      (fftcompute.acquired 2 (.pthread_create 1)).indexOf (.plan 0)
        < (fftcompute.acquired 2 (.pthread_create 1)).indexOf (.queue 0) ∧
      .release .outputFile
        ∉ fftcompute.initFailureCleanup 2 (fftcompute.acquired 2 (.pthread_create 1)) ∧
      .release .mutex
        ∉ fftcompute.initFailureCleanup 2 (fftcompute.acquired 2 (.pthread_create 1))) := by
  refine ⟨by decide, by decide, by decide, by decide⟩

end UsrpUtils
